import Mathlib

/-!
Verification development for the plan-hikes repository.

This file gives a shallow embedding of the core algorithms of the
repository (the transit router in `src/query/transit_router.py`, the
planner in `src/query/planner.py`, the access-point deduplication in
`src/index/spatial_join.py`, and the two schedule-store construction
pipelines in `src/ingest/gtfs.py` plus `TransitRouterDB`), and proves or
refutes the stated properties of these algorithms.

Modelling conventions:
  * GTFS times ("seconds since midnight") are `Nat`; hours/kilometre
    quantities computed by the planner in Python floats are modelled as
    exact rationals `ℚ`.
  * Python `dict`s built once and then only read are modelled as
    association lists with a `find?`-based lookup.
  * `float("inf")` / `-1` sentinels for "no best itinerary yet" are
    modelled as `Option`: the state is `none` until the first candidate
    is recorded.  The Python code keeps `best_arrival`/`best_trail_dep`
    and `best_legs` in two variables that are always updated together;
    here they are one `Option (Nat × List RawLeg)` pair.
  * `BusLeg` construction (`TransitRouter._make_bus_leg`) only attaches
    presentation data (line, operator, stop names, datetimes built as
    midnight-of-date plus the raw seconds) to the raw tuples
    `(trip_id, from_stop, dep_secs, to_stop, arr_secs)` held in
    `best_legs`; the routing results are therefore modelled as lists of
    those raw tuples (`RawLeg`).
-/

namespace PlanHikes

/-! ### Pruning limits (transit_router.py, module constants) -/

def MAX_INTERMEDIATE_STOPS : Nat := 30
def MAX_CONNECTING_DEPARTURES : Nat := 10
def MAX_RETURN_DEPARTURES : Nat := 10
def MIN_TRANSFER_SECS : Nat := 60

/-! ### Schedule index data (TransitRouter.__init__) -/

/-- One entry of `stop_departures[stop_id]`: `(dep_secs, trip_id, stop_sequence)`. -/
structure DepEntry where
  dep : Nat
  trip : String
  seq : Nat
deriving DecidableEq, Repr

/-- One entry of `trip_stop_sequence[trip_id]`:
`(stop_id, arr_secs, dep_secs, stop_sequence)`. -/
structure TSEntry where
  stop : String
  arr : Nat
  dep : Nat
  seq : Nat
deriving DecidableEq, Repr

/-- One raw leg tuple `(trip_id, from_stop, dep_secs, to_stop, arr_secs)`
as held in `best_legs` before `_make_bus_leg` turns it into a `BusLeg`. -/
structure RawLeg where
  trip : String
  fromStop : String
  depSecs : Nat
  toStop : String
  arrSecs : Nat
deriving DecidableEq, Repr, Inhabited

/-- The two routing indexes of a `TransitRouter`, as association lists
(`stop_id → departures`, `trip_id → stop sequence`). -/
structure RouterData where
  stop_departures : List (String × List DepEntry)
  trip_stop_sequence : List (String × List TSEntry)
deriving DecidableEq, Repr

/-- `self.stop_departures.get(stop)`.  The Python code treats both a
missing key and an empty list as "no departures" (`if not deps`), so the
lookup returns the list with `[]` for a missing key. -/
def RouterData.depsOf (R : RouterData) (s : String) : List DepEntry :=
  ((R.stop_departures.find? (fun p => p.1 == s)).map Prod.snd).getD []

/-- `self.trip_stop_sequence.get(trip)` (same `[]`-for-missing convention). -/
def RouterData.tripStopsOf (R : RouterData) (t : String) : List TSEntry :=
  ((R.trip_stop_sequence.find? (fun p => p.1 == t)).map Prod.snd).getD []

/-! ### bisect.bisect_left -/

/-- The binary-search loop of Python's `bisect.bisect_left`.  The first
`Nat` argument is recursion fuel: each iteration shrinks `hi - lo` by at
least one, so any fuel of at least `hi - lo` (the top-level call passes
the list length) makes this the exact `while lo < hi` loop. -/
def bisectGo (a : List Nat) (x : Nat) : Nat → Nat → Nat → Nat
  | 0, lo, _ => lo
  | fuel + 1, lo, hi =>
    if lo < hi then
      if a.getD ((lo + hi) / 2) 0 < x then bisectGo a x fuel ((lo + hi) / 2 + 1) hi
      else bisectGo a x fuel lo ((lo + hi) / 2)
    else lo

/-- `bisect.bisect_left(a, x)`. -/
def bisect_left (a : List Nat) (x : Nat) : Nat := bisectGo a x a.length 0 a.length

/-- The connecting departures examined at an intermediate stop: that
stop's departures cut at
`bisect_left(conn_dep_times, arr_secs + MIN_TRANSFER_SECS)`. -/
def RouterData.cutConns (R : RouterData) (stop : String) (arr : Nat) : List DepEntry :=
  (R.depsOf stop).drop
    (bisect_left ((R.depsOf stop).map (·.dep)) (arr + MIN_TRANSFER_SECS))

/-! ### find_outbound (earliest arrival, ≤ 1 transfer) -/

/-- Search state: `none` models `best_arrival = inf, best_legs = None`;
`some (a, legs)` models `best_arrival = a, best_legs = legs`. -/
abbrev OutState := Option (Nat × List RawLeg)

/-- `x < best_arrival` (true when no best itinerary has been found yet). -/
def arrLt (x : Nat) (s : OutState) : Bool :=
  match s with
  | none => true
  | some (a, _) => decide (x < a)

/-- Phase-1 inner loop: scan `trip_stops[trip_id]` for the first stop after
`origin_seq` that is a destination and improves on the best arrival. -/
def scanTripDest (dest : List String) (oseq : Nat) (trip ostop : String) (dep : Nat) :
    List TSEntry → OutState → OutState
  | [], s => s
  | e :: rest, s =>
    if e.seq ≤ oseq then scanTripDest dest oseq trip ostop dep rest s
    else if dest.contains e.stop && arrLt e.arr s then
      some (e.arr, [⟨trip, ostop, dep, e.stop, e.arr⟩])
    else scanTripDest dest oseq trip ostop dep rest s

/-- Phase-1 outer loop over one origin stop's departures (already cut at
`bisect_left`), with the `dep_secs >= best_arrival` early termination. -/
def scanDepsDirect (R : RouterData) (dest : List String) (ostop : String) :
    List DepEntry → OutState → OutState
  | [], s => s
  | d :: rest, s =>
    if arrLt d.dep s = false then s
    else
      scanDepsDirect R dest ostop rest
        (scanTripDest dest d.seq d.trip ostop d.dep (R.tripStopsOf d.trip) s)

/-- Phase 1 of `find_outbound`: direct routes. -/
def outPhase1 (R : RouterData) (originStops dest : List String) (E : Nat)
    (s : OutState) : OutState :=
  originStops.foldl (fun s o =>
    let deps := R.depsOf o
    scanDepsDirect R dest o (deps.drop (bisect_left (deps.map (·.dep)) E)) s) s

/-- Phase-2 innermost loop: scan the connecting trip for a destination hit. -/
def scanConnTrip (dest : List String) (cseq : Nat) (ctrip istop : String) (cdep : Nat)
    (leg1 : RawLeg) : List TSEntry → OutState → OutState
  | [], s => s
  | e :: rest, s =>
    if e.seq ≤ cseq then scanConnTrip dest cseq ctrip istop cdep leg1 rest s
    else if dest.contains e.stop && arrLt e.arr s then
      some (e.arr, [leg1, ⟨ctrip, istop, cdep, e.stop, e.arr⟩])
    else scanConnTrip dest cseq ctrip istop cdep leg1 rest s

/-- Phase-2 loop over connecting departures from an intermediate stop
(already cut at `bisect_left(conn_dep_times, arr + MIN_TRANSFER_SECS)`),
with the same-trip skip and the `_MAX_CONNECTING_DEPARTURES` cap (`k` is
`connections_checked`). -/
def scanConns (R : RouterData) (dest : List String) (trip : String) (leg1 : RawLeg)
    (istop : String) : List DepEntry → Nat → OutState → OutState
  | [], _, s => s
  | c :: rest, k, s =>
    if arrLt c.dep s = false then s
    else if c.trip == trip then scanConns R dest trip leg1 istop rest k s
    else if MAX_CONNECTING_DEPARTURES < k + 1 then s
    else
      scanConns R dest trip leg1 istop rest (k + 1)
        (scanConnTrip dest c.seq c.trip istop c.dep leg1 (R.tripStopsOf c.trip) s)

/-- Phase-2 loop over the intermediate stops of a boarded trip (`k` is
`intermediates_checked`). -/
def scanIntermediates (R : RouterData) (dest : List String) (trip ostop : String)
    (dep oseq : Nat) : List TSEntry → Nat → OutState → OutState
  | [], _, s => s
  | e :: rest, k, s =>
    if e.seq ≤ oseq then scanIntermediates R dest trip ostop dep oseq rest k s
    else if dest.contains e.stop then s
    else if MAX_INTERMEDIATE_STOPS < k + 1 then s
    else if arrLt e.arr s = false then s
    else
      scanIntermediates R dest trip ostop dep oseq rest (k + 1)
        (scanConns R dest trip ⟨trip, ostop, dep, e.stop, e.arr⟩ e.stop
          (R.cutConns e.stop e.arr) 0 s)

/-- Phase-2 outer loop over one origin stop's departures. -/
def scanDepsTransfer (R : RouterData) (dest : List String) (ostop : String) :
    List DepEntry → OutState → OutState
  | [], s => s
  | d :: rest, s =>
    if arrLt d.dep s = false then s
    else
      scanDepsTransfer R dest ostop rest
        (scanIntermediates R dest d.trip ostop d.dep d.seq (R.tripStopsOf d.trip) 0 s)

/-- Phase 2 of `find_outbound`: one-transfer routes. -/
def outPhase2 (R : RouterData) (originStops dest : List String) (E : Nat)
    (s : OutState) : OutState :=
  originStops.foldl (fun s o =>
    let deps := R.depsOf o
    scanDepsTransfer R dest o (deps.drop (bisect_left (deps.map (·.dep)) E)) s) s

/-- `TransitRouter.find_outbound(origin_stops, dest_stops, earliest_departure_secs)`
returning the raw legs (`None` ↦ `none`). -/
def find_outbound (R : RouterData) (originStops dest : List String) (E : Nat) :
    Option (List RawLeg) :=
  (outPhase2 R originStops dest E (outPhase1 R originStops dest E none)).map Prod.snd

/-! ### find_return (latest departure, arrive by deadline, ≤ 1 transfer) -/

/-- Search state for the return search: `none` models
`best_trail_dep = -1, best_legs = None`. -/
abbrev RetState := Option (Nat × List RawLeg)

/-- `x > best_trail_dep` (true when the best is still the `-1` sentinel). -/
def depGt (x : Nat) (s : RetState) : Bool :=
  match s with
  | none => true
  | some (d, _) => decide (d < x)

/-- Return phase-1 inner loop: scan `trip_stops[trip_id]` past `trail_seq`
for an origin stop reached at or before the deadline; the first such hit
updates the best (when this boarding departs later) and stops the scan. -/
def scanRetTripDirect (origins : List String) (tseq : Nat) (trip tstop : String)
    (dep deadline : Nat) : List TSEntry → RetState → RetState
  | [], s => s
  | e :: rest, s =>
    if e.seq ≤ tseq then scanRetTripDirect origins tseq trip tstop dep deadline rest s
    else if origins.contains e.stop && decide (e.arr ≤ deadline) then
      if depGt dep s then some (dep, [⟨trip, tstop, dep, e.stop, e.arr⟩]) else s
    else scanRetTripDirect origins tseq trip tstop dep deadline rest s

/-- Return phase-1 outer loop over one trail stop's departures in reverse
(latest first), with the after-deadline skip, the `dep <= best` early
termination, and the `_MAX_RETURN_DEPARTURES` cap (`k` is `checked`). -/
def scanRetDepsDirect (R : RouterData) (origins : List String) (tstop : String)
    (deadline : Nat) : List DepEntry → Nat → RetState → RetState
  | [], _, s => s
  | d :: rest, k, s =>
    if deadline < d.dep then scanRetDepsDirect R origins tstop deadline rest k s
    else if depGt d.dep s = false then s
    else if MAX_RETURN_DEPARTURES < k + 1 then s
    else
      scanRetDepsDirect R origins tstop deadline rest (k + 1)
        (scanRetTripDirect origins d.seq d.trip tstop d.dep deadline
          (R.tripStopsOf d.trip) s)

/-- Phase 1 of `find_return`: direct routes. -/
def retPhase1 (R : RouterData) (trailStops origins : List String) (deadline : Nat)
    (s : RetState) : RetState :=
  trailStops.foldl (fun s t =>
    scanRetDepsDirect R origins t deadline ((R.depsOf t).reverse) 0 s) s

/-- Return phase-2 innermost loop: scan the connecting trip for an origin
hit at or before the deadline. -/
def scanRetConnTrip (origins : List String) (cseq : Nat) (ctrip istop : String)
    (cdep outerDep deadline : Nat) (leg1 : RawLeg) : List TSEntry → RetState → RetState
  | [], s => s
  | e :: rest, s =>
    if e.seq ≤ cseq then
      scanRetConnTrip origins cseq ctrip istop cdep outerDep deadline leg1 rest s
    else if origins.contains e.stop && decide (e.arr ≤ deadline) then
      if depGt outerDep s then
        some (outerDep, [leg1, ⟨ctrip, istop, cdep, e.stop, e.arr⟩])
      else s
    else scanRetConnTrip origins cseq ctrip istop cdep outerDep deadline leg1 rest s

/-- Return phase-2 loop over connecting departures from an intermediate,
with the after-deadline break, the same-trip skip, and the connecting cap. -/
def scanRetConns (R : RouterData) (origins : List String) (trip : String)
    (leg1 : RawLeg) (istop : String) (outerDep deadline : Nat) :
    List DepEntry → Nat → RetState → RetState
  | [], _, s => s
  | c :: rest, k, s =>
    if deadline < c.dep then s
    else if c.trip == trip then
      scanRetConns R origins trip leg1 istop outerDep deadline rest k s
    else if MAX_CONNECTING_DEPARTURES < k + 1 then s
    else
      scanRetConns R origins trip leg1 istop outerDep deadline rest (k + 1)
        (scanRetConnTrip origins c.seq c.trip istop c.dep outerDep deadline leg1
          (R.tripStopsOf c.trip) s)

/-- Return phase-2 loop over the intermediate stops of a boarded trip. -/
def scanRetIntermediates (R : RouterData) (origins : List String) (trip tstop : String)
    (dep tseq deadline : Nat) : List TSEntry → Nat → RetState → RetState
  | [], _, s => s
  | e :: rest, k, s =>
    if e.seq ≤ tseq then scanRetIntermediates R origins trip tstop dep tseq deadline rest k s
    else if origins.contains e.stop then s
    else if MAX_INTERMEDIATE_STOPS < k + 1 then s
    else if deadline < e.arr then s
    else
      scanRetIntermediates R origins trip tstop dep tseq deadline rest (k + 1)
        (scanRetConns R origins trip ⟨trip, tstop, dep, e.stop, e.arr⟩ e.stop dep
          deadline (R.cutConns e.stop e.arr) 0 s)

/-- Return phase-2 outer loop over one trail stop's departures in reverse. -/
def scanRetDepsTransfer (R : RouterData) (origins : List String) (tstop : String)
    (deadline : Nat) : List DepEntry → Nat → RetState → RetState
  | [], _, s => s
  | d :: rest, k, s =>
    if deadline < d.dep then scanRetDepsTransfer R origins tstop deadline rest k s
    else if depGt d.dep s = false then s
    else if MAX_RETURN_DEPARTURES < k + 1 then s
    else
      scanRetDepsTransfer R origins tstop deadline rest (k + 1)
        (scanRetIntermediates R origins d.trip tstop d.dep d.seq deadline
          (R.tripStopsOf d.trip) 0 s)

/-- Phase 2 of `find_return`: one-transfer routes. -/
def retPhase2 (R : RouterData) (trailStops origins : List String) (deadline : Nat)
    (s : RetState) : RetState :=
  trailStops.foldl (fun s t =>
    scanRetDepsTransfer R origins t deadline ((R.depsOf t).reverse) 0 s) s

/-- `TransitRouter.find_return(trail_stops, origin_stops, deadline_secs)`
returning the raw legs. -/
def find_return (R : RouterData) (trailStops origins : List String) (deadline : Nat) :
    Option (List RawLeg) :=
  (retPhase2 R trailStops origins deadline
    (retPhase1 R trailStops origins deadline none)).map Prod.snd

/-! ### Stable sorting (Python `list.sort` / `sorted`)

Python's sort is stable.  `pySortIns stays p l` inserts `p` in front of
the first element `q` of `l` for which `stays q p` is false; folding from
the right gives a stable insertion sort where `stays q p` reads "the
already-placed, originally-later element `q` stays in front of the
originally-earlier element `p`" and must therefore be a strict
comparison. -/

def pySortIns {α : Type} (stays : α → α → Bool) (p : α) : List α → List α
  | [] => [p]
  | q :: l => if stays q p then q :: pySortIns stays p l else p :: q :: l

/-- Stable sort: ascending when `stays q p = (key q < key p)`, descending
(`reverse=True`) when `stays q p = (key p < key q)`. -/
def pySortBy {α : Type} (stays : α → α → Bool) (l : List α) : List α :=
  l.foldr (pySortIns stays) []

/-- Python `l[:n]` for an `int` bound `n` (a negative bound counts from
the end, clamped at zero). -/
def pySliceTo {α : Type} (n : Int) (l : List α) : List α :=
  if 0 ≤ n then l.take n.toNat else l.take ((l.length : Int) + n).toNat

/-! ### Planner data model (src/models.py, fields used by the planner) -/

/-- `TrailAccessPoint` (the entry latitude/longitude fields are carried
verbatim by the planner and never read, so they are omitted). -/
structure TrailAccessPoint where
  stop_id : String
  stop_name : String
  walk_distance_m : ℚ
  trail_km_from_start : ℚ
deriving DecidableEq, Repr, Inhabited

/-- `Trail` (geometry and the presentation-only elevation fields are not
used by the planner and are omitted). -/
structure Trail where
  id : String
  name : String
  distance_km : ℚ
  elevation_gain_m : ℚ
  elevation_loss_m : ℚ
  difficulty : String
  colors : List String
  is_loop : Bool
  season_warnings : List String
  access_points : List TrailAccessPoint
deriving DecidableEq, Repr, Inhabited

/-- `HikeSegment`. `hike_start`/`hike_end` hold the seconds-since-midnight
value from which the Python code builds the datetime (`base + timedelta`). -/
structure HikeSegment where
  trail_name : String
  entry_stop_name : String
  walk_to_trail_m : ℚ
  hike_start : ℚ
  hike_end : ℚ
  hiking_hours : ℚ
  estimated_distance_km : ℚ
  is_loop : Bool
  colors : List String
  elevation_gain_m : ℚ := 0
  elevation_loss_m : ℚ := 0
  is_through_hike : Bool := false
  exit_stop_name : Option String := none
  walk_from_trail_m : ℚ := 0
deriving DecidableEq, Repr, Inhabited

/-- `HikePlan`.  `departure_from_origin` / `arrival_at_origin` hold the
raw seconds of `outbound_legs[0].departure` / `return_legs[-1].arrival`
(the datetimes are midnight-of-date plus these values, so datetime
differences equal differences of the raw values). -/
structure HikePlan where
  trail : Trail
  access_point : TrailAccessPoint
  outbound_legs : List RawLeg
  hike_segment : HikeSegment
  return_legs : List RawLeg
  departure_from_origin : Nat
  arrival_at_origin : Nat
  hiking_ratio : ℚ
  deadline : Nat
  total_hours : ℚ
  score : ℚ
  warnings : List String
  exit_access_point : Option TrailAccessPoint := none
deriving DecidableEq, Repr, Inhabited

/-- `HikeQuery` (fields read by `_filter_trails` / `plan_hikes_for_origin`;
`month` stands for `date.month`). -/
structure HikeQuery where
  origin : String
  month : Nat
  min_hiking_hours : ℚ := 1
  max_results : Int := 20
  earliest_departure : Option Nat := none
  colors : Option (List String) := none
  min_distance_km : Option ℚ := none
  max_distance_km : Option ℚ := none
  loop_only : Bool := false
  linear_only : Bool := false
  max_elevation_gain_m : Option ℚ := none
  difficulty : Option String := none
deriving DecidableEq, Repr

/-- `PlannerContext` (the parts read by `plan_hikes_for_origin`; `month`
is the month of `ctx.deadline`, used for season warnings). -/
structure PlannerContext where
  trails : List Trail
  deadline_secs : Nat
  month : Nat
  router : RouterData
deriving DecidableEq, Repr

/-! ### Planner constants (src/config.py) -/

def NAISMITH_SPEED_KMH : ℚ := 4
def NAISMITH_CLIMB_FACTOR : ℚ := 600
def WALK_SPEED_KMH : ℚ := 9 / 2
def THROUGH_HIKE_MIN_DISTANCE_KM : ℚ := 3
def THROUGH_HIKE_MAX_DISTANCE_KM : ℚ := 20
def DEDUP_TRAIL_DISTANCE_M : ℚ := 200
def RAINY_MONTHS : List Nat := [11, 12, 1, 2, 3]

/-! ### Planner helpers (src/query/planner.py) -/

/-- `_estimate_hike_time_hours` (Naismith's rule). -/
def estimate_hike_time_hours (distance_km elevation_gain_m : ℚ) : ℚ :=
  distance_km / NAISMITH_SPEED_KMH + elevation_gain_m / NAISMITH_CLIMB_FACTOR

/-- `_walk_time_hours`. -/
def walk_time_hours (distance_m : ℚ) : ℚ :=
  (distance_m / 1000) / WALK_SPEED_KMH

/-- `_datetime_to_seconds` applied to a leg datetime that
`_seconds_to_datetime` built from raw seconds `raw`: the hour/minute/second
fields only retain `raw` modulo one day. -/
def legClockSecs (raw : Nat) : Nat := raw % 86400

/-- Round half to even (Python's `round`), exact-rational idealisation. -/
def roundHalfEven (x : ℚ) : ℤ :=
  let f := ⌊x⌋
  if x - f < 1 / 2 then f
  else if 1 / 2 < x - f then f + 1
  else if Even f then f else f + 1

/-- Python `round(x, 1)`. -/
def pyRound1 (x : ℚ) : ℚ := (roundHalfEven (10 * x) : ℚ) / 10

/-- Python `str.lower` (ASCII case mapping, as used by the source on
city names, colors and difficulty labels). -/
def pyLower (s : String) : String := String.mk (s.data.map Char.toLower)

/-- Python `str.strip` (drop surrounding whitespace). -/
def pyStrip (s : String) : String :=
  String.mk
    (((s.data.dropWhile (·.isWhitespace)).reverse.dropWhile (·.isWhitespace)).reverse)

/-- `_filter_trails`. -/
def filter_trails (trails : List Trail) (q : HikeQuery) : List Trail :=
  let r := trails
  let r := match q.colors with
    | some (c0 :: cs) =>
      let qcolors := (c0 :: cs).map pyLower
      r.filter (fun t => (t.colors.map pyLower).any (fun c => qcolors.contains c))
    | _ => r
  let r := match q.min_distance_km with
    | some m => r.filter (fun t => decide (m ≤ t.distance_km))
    | none => r
  let r := match q.max_distance_km with
    | some m => r.filter (fun t => decide (t.distance_km ≤ m))
    | none => r
  let r := if q.loop_only then r.filter (fun t => t.is_loop) else r
  let r := if q.linear_only then r.filter (fun t => !t.is_loop) else r
  let r := match q.max_elevation_gain_m with
    | some m => r.filter (fun t => decide (t.elevation_gain_m ≤ m))
    | none => r
  let r := match q.difficulty with
    | some d => r.filter (fun t => pyLower t.difficulty == pyLower d)
    | none => r
  r

/-- `_plan_access_point`: build an out-and-back / loop plan for one access
point, or `none`. -/
def plan_access_point (R : RouterData) (trail : Trail) (ap : TrailAccessPoint)
    (originStopIds originStopSet : List String) (earliestDepSecs deadlineSecs : Nat)
    (minHikingHours : ℚ) (month : Nat) : Option HikePlan :=
  match find_return R [ap.stop_id] originStopSet deadlineSecs with
  | none => none
  | some returnLegs =>
    let returnDepSecs : Nat := legClockSecs (returnLegs.headI).depSecs
    let walkBackSecs : ℚ := walk_time_hours ap.walk_distance_m * 3600
    let hikeEndSecs : ℚ := (returnDepSecs : ℚ) - walkBackSecs
    if hikeEndSecs ≤ (earliestDepSecs : ℚ) then none
    else
      match find_outbound R originStopIds [ap.stop_id] earliestDepSecs with
      | none => none
      | some outboundLegs =>
        let outboundArrSecs : Nat := legClockSecs (outboundLegs.getLastI).arrSecs
        let walkToSecs : ℚ := walk_time_hours ap.walk_distance_m * 3600
        let hikeStartSecs : ℚ := (outboundArrSecs : ℚ) + walkToSecs
        if hikeEndSecs ≤ hikeStartSecs then none
        else
          let hikingWindowHours : ℚ := (hikeEndSecs - hikeStartSecs) / 3600
          let estimatedTime : ℚ :=
            estimate_hike_time_hours trail.distance_km trail.elevation_gain_m
          let outcome : Option (ℚ × ℚ) :=
            if trail.is_loop then
              if hikingWindowHours < estimatedTime then none
              else some (estimatedTime, trail.distance_km)
            else
              let halfWindow := hikingWindowHours / 2
              let effectiveSpeed :=
                if 0 < estimatedTime then trail.distance_km / estimatedTime
                else NAISMITH_SPEED_KMH
              let oneWayKm := min (halfWindow * effectiveSpeed) trail.distance_km
              let estimatedDistance := oneWayKm * 2
              some (if 0 < effectiveSpeed then estimatedDistance / effectiveSpeed else 0,
                    estimatedDistance)
          match outcome with
          | none => none
          | some (actualHikingHours, estimatedDistance) =>
            if actualHikingHours < minHikingHours then none
            else
              let departureFromOrigin := (outboundLegs.headI).depSecs
              let arrivalAtOrigin := (returnLegs.getLastI).arrSecs
              let totalHours : ℚ :=
                ((arrivalAtOrigin : ℚ) - (departureFromOrigin : ℚ)) / 3600
              let ratio : ℚ := if 0 < totalHours then actualHikingHours / totalHours else 0
              some
                { trail := trail
                  access_point := ap
                  outbound_legs := outboundLegs
                  hike_segment :=
                    { trail_name := trail.name
                      entry_stop_name := ap.stop_name
                      walk_to_trail_m := ap.walk_distance_m
                      hike_start := hikeStartSecs
                      hike_end := hikeEndSecs
                      hiking_hours := actualHikingHours
                      estimated_distance_km := estimatedDistance
                      is_loop := trail.is_loop
                      colors := trail.colors }
                  return_legs := returnLegs
                  departure_from_origin := departureFromOrigin
                  arrival_at_origin := arrivalAtOrigin
                  hiking_ratio := ratio
                  deadline := deadlineSecs
                  total_hours := totalHours
                  score := ratio
                  warnings :=
                    if !trail.season_warnings.isEmpty && RAINY_MONTHS.contains month then
                      trail.season_warnings
                    else [] }

/-- `_plan_through_hike`: enter at `entry_ap`, exit at `exit_ap`. -/
def plan_through_hike (R : RouterData) (trail : Trail)
    (entry_ap exit_ap : TrailAccessPoint) (segment_km : ℚ)
    (originStopIds originStopSet : List String) (earliestDepSecs deadlineSecs : Nat)
    (minHikingHours : ℚ) (month : Nat) : Option HikePlan :=
  match find_return R [exit_ap.stop_id] originStopSet deadlineSecs with
  | none => none
  | some returnLegs =>
    let returnDepSecs : Nat := legClockSecs (returnLegs.headI).depSecs
    let walkFromTrailSecs : ℚ := walk_time_hours exit_ap.walk_distance_m * 3600
    let hikeEndSecs : ℚ := (returnDepSecs : ℚ) - walkFromTrailSecs
    if hikeEndSecs ≤ (earliestDepSecs : ℚ) then none
    else
      match find_outbound R originStopIds [entry_ap.stop_id] earliestDepSecs with
      | none => none
      | some outboundLegs =>
        let outboundArrSecs : Nat := legClockSecs (outboundLegs.getLastI).arrSecs
        let walkToTrailSecs : ℚ := walk_time_hours entry_ap.walk_distance_m * 3600
        let hikeStartSecs : ℚ := (outboundArrSecs : ℚ) + walkToTrailSecs
        if hikeEndSecs ≤ hikeStartSecs then none
        else
          let segElevationGain : ℚ :=
            if 0 < trail.distance_km then
              trail.elevation_gain_m * (segment_km / trail.distance_km)
            else 0
          let estimatedTime : ℚ := estimate_hike_time_hours segment_km segElevationGain
          let hikingWindowHours : ℚ := (hikeEndSecs - hikeStartSecs) / 3600
          if hikingWindowHours < estimatedTime then none
          else
            let actualHikingHours := estimatedTime
            if actualHikingHours < minHikingHours then none
            else
              let departureFromOrigin := (outboundLegs.headI).depSecs
              let arrivalAtOrigin := (returnLegs.getLastI).arrSecs
              let totalHours : ℚ :=
                ((arrivalAtOrigin : ℚ) - (departureFromOrigin : ℚ)) / 3600
              let ratio : ℚ := if 0 < totalHours then actualHikingHours / totalHours else 0
              let segElevationLoss : ℚ :=
                if 0 < trail.distance_km then
                  trail.elevation_loss_m * (segment_km / trail.distance_km)
                else 0
              some
                { trail := trail
                  access_point := entry_ap
                  outbound_legs := outboundLegs
                  hike_segment :=
                    { trail_name := trail.name
                      entry_stop_name := entry_ap.stop_name
                      walk_to_trail_m := entry_ap.walk_distance_m
                      hike_start := hikeStartSecs
                      hike_end := hikeEndSecs
                      hiking_hours := actualHikingHours
                      estimated_distance_km := segment_km
                      is_loop := false
                      colors := trail.colors
                      elevation_gain_m := pyRound1 segElevationGain
                      elevation_loss_m := pyRound1 segElevationLoss
                      is_through_hike := true
                      exit_stop_name := some exit_ap.stop_name
                      walk_from_trail_m := exit_ap.walk_distance_m }
                  return_legs := returnLegs
                  departure_from_origin := departureFromOrigin
                  arrival_at_origin := arrivalAtOrigin
                  hiking_ratio := ratio
                  deadline := deadlineSecs
                  total_hours := totalHours
                  score := ratio
                  warnings :=
                    if !trail.season_warnings.isEmpty && RAINY_MONTHS.contains month then
                      trail.season_warnings
                    else []
                  exit_access_point := some exit_ap }

/-- "keep the better of `best` and `p`" step used by `_plan_single_trail`
(`if best is None or plan.hiking_ratio > best.hiking_ratio`). -/
def betterPlan (best : Option HikePlan) (p : Option HikePlan) : Option HikePlan :=
  match p with
  | none => best
  | some pl =>
    match best with
    | none => some pl
    | some b => if b.hiking_ratio < pl.hiking_ratio then some pl else some b

/-- `_plan_single_trail`: up to two plans (best out-and-back + best
through-hike). -/
def plan_single_trail (R : RouterData) (trail : Trail)
    (originStopIds originStopSet : List String) (earliestDepSecs deadlineSecs : Nat)
    (minHikingHours : ℚ) (month : Nat) : List HikePlan :=
  let bestOab : Option HikePlan :=
    trail.access_points.foldl
      (fun best ap =>
        betterPlan best
          (plan_access_point R trail ap originStopIds originStopSet earliestDepSecs
            deadlineSecs minHikingHours month))
      none
  let results : List HikePlan := match bestOab with | none => [] | some p => [p]
  if !trail.is_loop && 2 ≤ trail.access_points.length then
    let aps := trail.access_points.enum
    let bestThrough : Option HikePlan :=
      aps.foldl
        (fun best ei =>
          aps.foldl
            (fun best ej =>
              if ei.1 == ej.1 then best
              else
                let entry_ap := ei.2
                let exit_ap := ej.2
                let segment_km :=
                  |exit_ap.trail_km_from_start - entry_ap.trail_km_from_start|
                if segment_km < THROUGH_HIKE_MIN_DISTANCE_KM then best
                else if THROUGH_HIKE_MAX_DISTANCE_KM < segment_km then best
                else
                  betterPlan best
                    (plan_through_hike R trail entry_ap exit_ap segment_km originStopIds
                      originStopSet earliestDepSecs deadlineSecs minHikingHours month))
            best)
        none
    results ++ (match bestThrough with | none => [] | some p => [p])
  else results

/-- `_resolve_origin` (the `CITY_COORDINATES` table is a parameter). -/
def resolve_origin (cities : List (String × ℚ × ℚ)) (origin : String) :
    Except String (ℚ × ℚ) :=
  let key := pyLower (pyStrip origin)
  match cities.find? (fun p => p.1 == key) with
  | none => Except.error ("Unknown origin city " ++ origin)
  | some p => Except.ok p.2

/-- `plan_hikes_for_origin(query, ctx)`.  The geodesic origin-stop search
(`find_origin_stops`, great-circle trigonometry) is abstracted as the
function argument `findOriginStops`; everything after it follows the
source.  A raised `ValueError` is the `Except.error` branch. -/
def plan_hikes_for_origin (cities : List (String × ℚ × ℚ))
    (findOriginStops : ℚ → ℚ → List String) (q : HikeQuery) (ctx : PlannerContext) :
    Except String (List HikePlan) := do
  let coords ← resolve_origin cities q.origin
  let originStopIds := findOriginStops coords.1 coords.2
  if originStopIds.isEmpty then return []
  let earliestDepSecs := (q.earliest_departure.getD 21600)
  let originStopSet := originStopIds
  let plans : List HikePlan :=
    ctx.trails.foldl
      (fun acc trail =>
        acc ++
          plan_single_trail ctx.router trail originStopIds originStopSet earliestDepSecs
            ctx.deadline_secs q.min_hiking_hours ctx.month)
      []
  return pySliceTo q.max_results
    (pySortBy (fun a b => decide (b.hiking_ratio < a.hiking_ratio)) plans)

/-- The trail-filtering step of `prepare_data` followed by
`plan_hikes_for_origin` (the planning pipeline for one query, ignoring
I/O: feed download, elevation enrichment and the spatial join are done
before `_filter_trails` only on the fresh-fetch path). -/
def plan_pipeline (cities : List (String × ℚ × ℚ))
    (findOriginStops : ℚ → ℚ → List String) (allTrails : List Trail)
    (deadline_secs month : Nat) (router : RouterData) (q : HikeQuery) :
    Except String (List HikePlan) :=
  plan_hikes_for_origin cities findOriginStops q
    { trails := filter_trails allTrails q
      deadline_secs := deadline_secs
      month := month
      router := router }

/-- cli.py, `plan` command: when both flags are set the CLI prints
"`--loop-only and --linear-only are mutually exclusive`" and exits with
code 1 before any planning happens. -/
def cli_flag_error (loop_only linear_only : Bool) : Bool :=
  loop_only && linear_only

/-! ### Access-point deduplication (src/index/spatial_join.py) -/

/-- The sweep loop of `_deduplicate_access_points`; the first argument is
the `kept` list in reverse (most recently retained point first). -/
def dedupSweep (θ : ℚ) : List TrailAccessPoint → List TrailAccessPoint → List TrailAccessPoint
  | kept, [] => kept.reverse
  | [], ap :: rest => dedupSweep θ [ap] rest
  | k :: ks, ap :: rest =>
    if |ap.trail_km_from_start - k.trail_km_from_start| * 1000 < θ then
      if ap.walk_distance_m < k.walk_distance_m then dedupSweep θ (ap :: ks) rest
      else dedupSweep θ (k :: ks) rest
    else dedupSweep θ (ap :: k :: ks) rest

/-- `_deduplicate_access_points(access_points, min_trail_distance_m)`. -/
def deduplicate_access_points (access_points : List TrailAccessPoint) (θ : ℚ) :
    List TrailAccessPoint :=
  if access_points.length ≤ 1 then access_points
  else
    match pySortBy (fun q p => decide (q.trail_km_from_start < p.trail_km_from_start))
        access_points with
    | [] => []
    | h :: t => dedupSweep θ [h] t

/-- The per-trail tail of `build_trail_access_points`: deduplicate, then
sort by position along the trail. -/
def finalize_access_points (access_points : List TrailAccessPoint) :
    List TrailAccessPoint :=
  pySortBy (fun q p => decide (q.trail_km_from_start < p.trail_km_from_start))
    (deduplicate_access_points access_points DEDUP_TRAIL_DISTANCE_M)

/-! ### Lemmas: stable sort -/

theorem pySortIns_perm {α : Type} (stays : α → α → Bool) (p : α) (l : List α) :
    (pySortIns stays p l).Perm (p :: l) := by
  induction l with
  | nil => simp [pySortIns]
  | cons q t ih =>
    simp only [pySortIns]
    split
    · exact ((ih.cons q).trans (List.Perm.swap p q t))
    · exact List.Perm.refl _

theorem mem_pySortIns {α : Type} (stays : α → α → Bool) (p x : α) (l : List α) :
    x ∈ pySortIns stays p l ↔ x = p ∨ x ∈ l := by
  rw [(pySortIns_perm stays p l).mem_iff]
  simp

theorem pySortBy_perm {α : Type} (stays : α → α → Bool) (l : List α) :
    (pySortBy stays l).Perm l := by
  induction l with
  | nil => simp [pySortBy]
  | cons p t ih =>
    simpa [pySortBy] using ((pySortIns_perm stays p (pySortBy stays t)).trans (ih.cons p))

theorem mem_pySortBy {α : Type} (stays : α → α → Bool) (x : α) (l : List α) :
    x ∈ pySortBy stays l ↔ x ∈ l :=
  (pySortBy_perm stays l).mem_iff

/-- Descending sortedness of the stable sort under
`stays q p = decide (f p < f q)` (Python `reverse=True`). -/
theorem pySortIns_sorted_desc {α : Type} {β : Type} [LinearOrder β] (f : α → β) (p : α)
    (l : List α) (h : l.Pairwise (fun a b => f b ≤ f a)) :
    (pySortIns (fun q p => decide (f p < f q)) p l).Pairwise (fun a b => f b ≤ f a) := by
  induction l with
  | nil => simp [pySortIns]
  | cons q t ih =>
    rw [List.pairwise_cons] at h
    simp only [pySortIns]
    split
    · rename_i hq
      rw [decide_eq_true_eq] at hq
      refine List.pairwise_cons.2 ⟨?_, ih h.2⟩
      intro x hx
      rcases (mem_pySortIns _ _ _ _).1 hx with rfl | hx
      · exact le_of_lt hq
      · exact h.1 x hx
    · rename_i hq
      rw [decide_eq_true_eq] at hq
      push_neg at hq
      refine List.pairwise_cons.2 ⟨?_, List.pairwise_cons.2 h⟩
      intro x hx
      rcases List.mem_cons.1 hx with rfl | hx
      · exact hq
      · exact le_trans (h.1 x hx) hq

theorem pySortBy_sorted_desc {α : Type} {β : Type} [LinearOrder β] (f : α → β)
    (l : List α) :
    (pySortBy (fun q p => decide (f p < f q)) l).Pairwise (fun a b => f b ≤ f a) := by
  induction l with
  | nil => simp [pySortBy]
  | cons p t ih => exact pySortIns_sorted_desc f p _ ih

/-- Ascending sortedness under `stays q p = decide (f q < f p)`. -/
theorem pySortIns_sorted_asc {α : Type} {β : Type} [LinearOrder β] (f : α → β) (p : α)
    (l : List α) (h : l.Pairwise (fun a b => f a ≤ f b)) :
    (pySortIns (fun q p => decide (f q < f p)) p l).Pairwise (fun a b => f a ≤ f b) := by
  induction l with
  | nil => simp [pySortIns]
  | cons q t ih =>
    rw [List.pairwise_cons] at h
    simp only [pySortIns]
    split
    · rename_i hq
      rw [decide_eq_true_eq] at hq
      refine List.pairwise_cons.2 ⟨?_, ih h.2⟩
      intro x hx
      rcases (mem_pySortIns _ _ _ _).1 hx with rfl | hx
      · exact le_of_lt hq
      · exact h.1 x hx
    · rename_i hq
      rw [decide_eq_true_eq] at hq
      push_neg at hq
      refine List.pairwise_cons.2 ⟨?_, List.pairwise_cons.2 h⟩
      intro x hx
      rcases List.mem_cons.1 hx with rfl | hx
      · exact hq
      · exact le_trans hq (h.1 x hx)

theorem pySortBy_sorted_asc {α : Type} {β : Type} [LinearOrder β] (f : α → β)
    (l : List α) :
    (pySortBy (fun q p => decide (f q < f p)) l).Pairwise (fun a b => f a ≤ f b) := by
  induction l with
  | nil => simp [pySortBy]
  | cons p t ih => exact pySortIns_sorted_asc f p _ ih

/-- Stability, descending case: elements with any fixed key keep their
original relative order. -/
theorem filter_pySortIns_desc {α : Type} {β : Type} [LinearOrder β] [DecidableEq β]
    (f : α → β) (r : β) (p : α) (l : List α) :
    (pySortIns (fun q p => decide (f p < f q)) p l).filter (fun x => decide (f x = r)) =
      if f p = r then p :: l.filter (fun x => decide (f x = r))
      else l.filter (fun x => decide (f x = r)) := by
  induction l with
  | nil =>
    simp only [pySortIns, List.filter]
    split <;> rename_i h
    · rw [decide_eq_true_eq] at h
      simp [h]
    · rw [decide_eq_false_iff_not] at h
      simp [h]
  | cons q t ih =>
    simp only [pySortIns]
    split
    · rename_i hq
      rw [decide_eq_true_eq] at hq
      by_cases hqr : f q = r
      · by_cases hpr : f p = r
        · exact absurd (hpr ▸ hqr ▸ hq) (lt_irrefl _)
        · simp [List.filter_cons, ih, hqr, hpr]
      · simp only [List.filter_cons]
        rw [ih]
        by_cases hpr : f p = r
        · simp [hqr, hpr]
        · simp [hqr, hpr]
    · by_cases hpr : f p = r
      · simp [List.filter_cons, hpr]
      · simp [List.filter_cons, hpr]

theorem filter_pySortBy_desc {α : Type} {β : Type} [LinearOrder β] [DecidableEq β]
    (f : α → β) (r : β) (l : List α) :
    (pySortBy (fun q p => decide (f p < f q)) l).filter (fun x => decide (f x = r)) =
      l.filter (fun x => decide (f x = r)) := by
  induction l with
  | nil => simp [pySortBy]
  | cons p t ih =>
    show (pySortIns _ p (pySortBy _ t)).filter _ = _
    rw [filter_pySortIns_desc]
    by_cases hpr : f p = r
    · simp [hpr, ih]
    · simp [hpr, ih]

/-! ### Lemmas: bisect_left -/

theorem bisectGo_ge (a : List Nat) (x : Nat) :
    ∀ (fuel lo hi : Nat), lo ≤ bisectGo a x fuel lo hi := by
  intro fuel
  induction fuel with
  | zero => intro lo hi; exact le_refl lo
  | succ fuel ih =>
    intro lo hi
    simp only [bisectGo]
    split
    · split
      · calc lo ≤ (lo + hi) / 2 + 1 := by omega
          _ ≤ bisectGo a x fuel ((lo + hi) / 2 + 1) hi := ih _ hi
      · exact ih lo _
    · exact le_refl lo

theorem bisectGo_le (a : List Nat) (x : Nat) :
    ∀ (fuel lo hi : Nat), lo ≤ hi → bisectGo a x fuel lo hi ≤ hi := by
  intro fuel
  induction fuel with
  | zero => intro lo hi h; exact h
  | succ fuel ih =>
    intro lo hi h
    simp only [bisectGo]
    split
    · rename_i hlt
      split
      · exact ih _ hi (by omega)
      · calc bisectGo a x fuel lo ((lo + hi) / 2) ≤ (lo + hi) / 2 := ih lo _ (by omega)
          _ ≤ hi := by omega
    · exact h

theorem bisectGo_mono (a : List Nat) {x1 x2 : Nat} (hx : x1 ≤ x2) :
    ∀ (fuel lo hi : Nat), lo ≤ hi →
      bisectGo a x1 fuel lo hi ≤ bisectGo a x2 fuel lo hi := by
  intro fuel
  induction fuel with
  | zero => intro lo hi _; exact le_refl lo
  | succ fuel ih =>
    intro lo hi h
    simp only [bisectGo]
    split
    · rename_i hlt
      by_cases h1 : a.getD ((lo + hi) / 2) 0 < x1
      · have h2 : a.getD ((lo + hi) / 2) 0 < x2 := lt_of_lt_of_le h1 hx
        rw [if_pos h1, if_pos h2]
        exact ih _ hi (by omega)
      · rw [if_neg h1]
        by_cases h2 : a.getD ((lo + hi) / 2) 0 < x2
        · rw [if_pos h2]
          calc bisectGo a x1 fuel lo ((lo + hi) / 2) ≤ (lo + hi) / 2 :=
              bisectGo_le a x1 fuel lo _ (by omega)
            _ ≤ (lo + hi) / 2 + 1 := by omega
            _ ≤ bisectGo a x2 fuel ((lo + hi) / 2 + 1) hi := bisectGo_ge a x2 fuel _ hi
        · rw [if_neg h2]
          exact ih lo _ (by omega)
    · exact le_refl _

theorem bisect_left_mono (a : List Nat) {x1 x2 : Nat} (hx : x1 ≤ x2) :
    bisect_left a x1 ≤ bisect_left a x2 :=
  bisectGo_mono a hx a.length 0 a.length (Nat.zero_le _)

theorem bisect_left_le_length (a : List Nat) (x : Nat) : bisect_left a x ≤ a.length :=
  bisectGo_le a x a.length 0 a.length (Nat.zero_le _)

theorem pairwise_le_getD (a : List Nat) (ha : a.Pairwise (· ≤ ·)) {i j : Nat}
    (hij : i ≤ j) (hj : j < a.length) : a.getD i 0 ≤ a.getD j 0 := by
  rcases eq_or_lt_of_le hij with rfl | hlt
  · exact le_refl _
  · have hi : i < a.length := lt_trans hlt hj
    rw [List.getD_eq_getElem _ _ hi, List.getD_eq_getElem _ _ hj]
    exact List.pairwise_iff_getElem.1 ha i j hi hj hlt

theorem bisectGo_drop_ge (a : List Nat) (ha : a.Pairwise (· ≤ ·)) (x : Nat) :
    ∀ (fuel lo hi : Nat), hi ≤ a.length → hi - lo ≤ fuel →
      (∀ j, hi ≤ j → j < a.length → x ≤ a.getD j 0) →
      ∀ j, bisectGo a x fuel lo hi ≤ j → j < a.length → x ≤ a.getD j 0 := by
  intro fuel
  induction fuel with
  | zero =>
    intro lo hi hh hfuel hinv j hj hjlen
    exact hinv j (by simp only [bisectGo] at hj; omega) hjlen
  | succ fuel ih =>
    intro lo hi hh hfuel hinv
    simp only [bisectGo]
    split
    · rename_i hlt
      split
      · rename_i hmid
        exact ih _ hi hh (by omega) hinv
      · rename_i hmid
        push_neg at hmid
        refine ih lo ((lo + hi) / 2) (by omega) (by omega) ?_
        intro j hj hjlen
        exact le_trans hmid (pairwise_le_getD a ha hj hjlen)
    · rename_i hge
      intro j hj hjlen
      exact hinv j (by omega) hjlen

/-- After a `bisect_left` cut of a sorted list, every remaining element is
at least the search key. -/
theorem bisect_left_drop_ge (a : List Nat) (ha : a.Pairwise (· ≤ ·)) (x : Nat) :
    ∀ y ∈ a.drop (bisect_left a x), x ≤ y := by
  intro y hy
  rw [List.mem_iff_getElem] at hy
  obtain ⟨k, hk, hky⟩ := hy
  rw [List.getElem_drop] at hky
  have hlen : bisect_left a x + k < a.length := by
    have := hk
    rw [List.length_drop] at this
    omega
  have := bisectGo_drop_ge a ha x a.length 0 a.length (le_refl _) (by omega)
    (fun j hj hjlen => absurd hjlen (by omega)) (bisect_left a x + k)
    (Nat.le_add_right _ k) hlen
  rw [List.getD_eq_getElem _ _ hlen] at this
  rw [← hky]
  exact this

/-- Decomposing the suffix at a smaller cut as "extra segment ++ suffix at
the larger cut". -/
theorem drop_eq_append_drop {α : Type} (l : List α) {i j : Nat} (h : i ≤ j) :
    l.drop i = (l.drop i).take (j - i) ++ l.drop j := by
  have h2 : l.drop j = (l.drop i).drop (j - i) := by
    rw [List.drop_drop]
    congr 1
    omega
  rw [h2, List.take_append_drop]

/-! ### Well-formedness of a schedule index (spec §3: `departures` sorted
by `dep_secs`; per trip, `stop_sequence` strictly increases and times are
non-decreasing in sequence) -/

/-- Every `stop_departures` list is sorted by departure time. -/
abbrev DepsSorted (R : RouterData) : Prop :=
  ∀ p ∈ R.stop_departures, List.Pairwise (fun a b => a.dep ≤ b.dep) p.2

/-- Cross-index consistency: boarding a trip at a departure entry, every
later stop of that trip is reached no earlier than the boarding departure
(the data-model invariant "times non-decreasing in sequence"). -/
abbrev CrossOK (R : RouterData) : Prop :=
  ∀ p ∈ R.stop_departures, ∀ d ∈ p.2, ∀ e ∈ R.tripStopsOf d.trip,
    d.seq < e.seq → d.dep ≤ e.arr

/-- Within each trip's stop sequence, arrival times are non-decreasing
along the (sequence-sorted) list. -/
abbrev ArrsMono (R : RouterData) : Prop :=
  ∀ p ∈ R.trip_stop_sequence, List.Pairwise (fun a b => a.arr ≤ b.arr) p.2

/-- All stored times lie below a bound (`B = 86400`: no past-midnight
trips). -/
abbrev TimesBelow (R : RouterData) (B : Nat) : Prop :=
  (∀ p ∈ R.stop_departures, ∀ d ∈ p.2, d.dep < B) ∧
  (∀ p ∈ R.trip_stop_sequence, ∀ e ∈ p.2, e.arr < B ∧ e.dep < B)

theorem depsOf_sorted {R : RouterData} (h : DepsSorted R) (s : String) :
    (R.depsOf s).Pairwise (fun a b => a.dep ≤ b.dep) := by
  unfold RouterData.depsOf
  rcases hf : R.stop_departures.find? (fun p => p.1 == s) with _ | p
  · rw [hf]; simp
  · rw [hf]
    simpa using h p (List.mem_of_find?_eq_some hf)

theorem depsOf_mem {R : RouterData} {s : String} {d : DepEntry}
    (hd : d ∈ R.depsOf s) : ∃ p ∈ R.stop_departures, d ∈ p.2 := by
  unfold RouterData.depsOf at hd
  rcases hf : R.stop_departures.find? (fun p => p.1 == s) with _ | p
  · rw [hf] at hd; simp at hd
  · rw [hf] at hd
    simp only [Option.map_some', Option.getD_some] at hd
    exact ⟨p, List.mem_of_find?_eq_some hf, hd⟩

theorem depsOf_cross {R : RouterData} (h : CrossOK R) {s : String} {d : DepEntry}
    (hd : d ∈ R.depsOf s) : ∀ e ∈ R.tripStopsOf d.trip, d.seq < e.seq → d.dep ≤ e.arr := by
  obtain ⟨p, hp, hdp⟩ := depsOf_mem hd
  exact h p hp d hdp

theorem depsOf_below {R : RouterData} {B : Nat} (h : TimesBelow R B) {s : String}
    {d : DepEntry} (hd : d ∈ R.depsOf s) : d.dep < B := by
  obtain ⟨p, hp, hdp⟩ := depsOf_mem hd
  exact h.1 p hp d hdp

theorem tripStopsOf_mem {R : RouterData} {t : String} {e : TSEntry}
    (he : e ∈ R.tripStopsOf t) : ∃ p ∈ R.trip_stop_sequence, e ∈ p.2 := by
  unfold RouterData.tripStopsOf at he
  rcases hf : R.trip_stop_sequence.find? (fun p => p.1 == t) with _ | p
  · rw [hf] at he; simp at he
  · rw [hf] at he
    simp only [Option.map_some', Option.getD_some] at he
    exact ⟨p, List.mem_of_find?_eq_some hf, he⟩

theorem tripStopsOf_below {R : RouterData} {B : Nat} (h : TimesBelow R B) {t : String}
    {e : TSEntry} (he : e ∈ R.tripStopsOf t) : e.arr < B ∧ e.dep < B := by
  obtain ⟨p, hp, hep⟩ := tripStopsOf_mem he
  exact h.2 p hp e hep

theorem tripStopsOf_arrsMono {R : RouterData} (h : ArrsMono R) (t : String) :
    (R.tripStopsOf t).Pairwise (fun a b => a.arr ≤ b.arr) := by
  unfold RouterData.tripStopsOf
  rcases hf : R.trip_stop_sequence.find? (fun p => p.1 == t) with _ | p
  · rw [hf]; simp
  · rw [hf]
    simpa using h p (List.mem_of_find?_eq_some hf)

theorem cutConns_subset {R : RouterData} {stop : String} {arr : Nat} {c : DepEntry}
    (hc : c ∈ R.cutConns stop arr) : c ∈ R.depsOf stop :=
  List.mem_of_mem_drop hc

theorem cutConns_dep_ge {R : RouterData} (h : DepsSorted R) {stop : String} {arr : Nat}
    {c : DepEntry} (hc : c ∈ R.cutConns stop arr) : arr + MIN_TRANSFER_SECS ≤ c.dep := by
  have hsorted : ((R.depsOf stop).map (·.dep)).Pairwise (· ≤ ·) :=
    List.pairwise_map.2 (depsOf_sorted h stop)
  have hmem : c.dep ∈ ((R.depsOf stop).map (·.dep)).drop
      (bisect_left ((R.depsOf stop).map (·.dep)) (arr + MIN_TRANSFER_SECS)) := by
    rw [← List.map_drop]
    exact List.mem_map_of_mem _ hc
  exact bisect_left_drop_ge _ hsorted _ _ hmem

/-! ### Generic invariant preservation through the outbound search -/

/-- `P` holds of the non-`none` part of the state. -/
def outStateOK (P : Nat × List RawLeg → Prop) : OutState → Prop
  | none => True
  | some x => P x

theorem scanTripDest_ok {P : Nat × List RawLeg → Prop} {dest : List String}
    {oseq : Nat} {trip ostop : String} {dep : Nat} {l : List TSEntry} {s : OutState}
    (hs : outStateOK P s)
    (hnew : ∀ e ∈ l, oseq < e.seq → dest.contains e.stop = true →
      P (e.arr, [⟨trip, ostop, dep, e.stop, e.arr⟩])) :
    outStateOK P (scanTripDest dest oseq trip ostop dep l s) := by
  induction l with
  | nil => exact hs
  | cons e t ih =>
    simp only [scanTripDest]
    split
    · exact ih (fun e' he' => hnew e' (List.mem_cons_of_mem _ he'))
    · rename_i hseq
      split
      · rename_i hcond
        rw [Bool.and_eq_true] at hcond
        exact hnew e (List.mem_cons_self e t) (by omega) hcond.1
      · exact ih (fun e' he' => hnew e' (List.mem_cons_of_mem _ he'))

theorem scanDepsDirect_ok {P : Nat × List RawLeg → Prop} {R : RouterData}
    {dest : List String} {ostop : String} {l : List DepEntry}
    (hnew : ∀ d ∈ l, ∀ e ∈ R.tripStopsOf d.trip, d.seq < e.seq →
      dest.contains e.stop = true →
      P (e.arr, [⟨d.trip, ostop, d.dep, e.stop, e.arr⟩])) :
    ∀ s : OutState, outStateOK P s → outStateOK P (scanDepsDirect R dest ostop l s) := by
  induction l with
  | nil => intro s hs; exact hs
  | cons d t ih =>
    intro s hs
    simp only [scanDepsDirect]
    split
    · exact hs
    · exact ih (fun d' hd' => hnew d' (List.mem_cons_of_mem _ hd')) _
        (scanTripDest_ok hs (hnew d (List.mem_cons_self d t)))

theorem scanConnTrip_ok {P : Nat × List RawLeg → Prop} {dest : List String}
    {cseq : Nat} {ctrip istop : String} {cdep : Nat} {leg1 : RawLeg}
    {l : List TSEntry} {s : OutState} (hs : outStateOK P s)
    (hnew : ∀ e ∈ l, cseq < e.seq → dest.contains e.stop = true →
      P (e.arr, [leg1, ⟨ctrip, istop, cdep, e.stop, e.arr⟩])) :
    outStateOK P (scanConnTrip dest cseq ctrip istop cdep leg1 l s) := by
  induction l with
  | nil => exact hs
  | cons e t ih =>
    simp only [scanConnTrip]
    split
    · exact ih (fun e' he' => hnew e' (List.mem_cons_of_mem _ he'))
    · rename_i hseq
      split
      · rename_i hcond
        rw [Bool.and_eq_true] at hcond
        exact hnew e (List.mem_cons_self e t) (by omega) hcond.1
      · exact ih (fun e' he' => hnew e' (List.mem_cons_of_mem _ he'))

theorem scanConns_ok {P : Nat × List RawLeg → Prop} {R : RouterData}
    {dest : List String} {trip : String} {leg1 : RawLeg} {istop : String}
    {l : List DepEntry}
    (hnew : ∀ c ∈ l, c.trip ≠ trip → ∀ e ∈ R.tripStopsOf c.trip, c.seq < e.seq →
      dest.contains e.stop = true →
      P (e.arr, [leg1, ⟨c.trip, istop, c.dep, e.stop, e.arr⟩])) :
    ∀ (k : Nat) (s : OutState), outStateOK P s →
      outStateOK P (scanConns R dest trip leg1 istop l k s) := by
  induction l with
  | nil => intro _ s hs; exact hs
  | cons c t ih =>
    intro k s hs
    simp only [scanConns]
    split
    · exact hs
    · split
      · exact ih (fun c' hc' => hnew c' (List.mem_cons_of_mem _ hc')) _ _ hs
      · split
        · exact hs
        · rename_i hne _
          refine ih (fun c' hc' => hnew c' (List.mem_cons_of_mem _ hc')) _ _
            (scanConnTrip_ok hs ?_)
          exact hnew c (List.mem_cons_self c t) (by simpa using hne)

theorem scanIntermediates_ok {P : Nat × List RawLeg → Prop} {R : RouterData}
    {dest : List String} {trip ostop : String} {dep oseq : Nat} {l : List TSEntry}
    (hnew : ∀ m ∈ l, oseq < m.seq → ∀ c ∈ R.cutConns m.stop m.arr, c.trip ≠ trip →
      ∀ e ∈ R.tripStopsOf c.trip, c.seq < e.seq → dest.contains e.stop = true →
      P (e.arr, [⟨trip, ostop, dep, m.stop, m.arr⟩, ⟨c.trip, m.stop, c.dep, e.stop, e.arr⟩])) :
    ∀ (k : Nat) (s : OutState), outStateOK P s →
      outStateOK P (scanIntermediates R dest trip ostop dep oseq l k s) := by
  induction l with
  | nil => intro _ s hs; exact hs
  | cons m t ih =>
    intro k s hs
    simp only [scanIntermediates]
    split
    · exact ih (fun m' hm' => hnew m' (List.mem_cons_of_mem _ hm')) _ _ hs
    · rename_i hseq
      split
      · exact hs
      · split
        · exact hs
        · split
          · exact hs
          · refine ih (fun m' hm' => hnew m' (List.mem_cons_of_mem _ hm')) _ _
              (scanConns_ok ?_ _ _ hs)
            exact hnew m (List.mem_cons_self m t) (by omega)

theorem scanDepsTransfer_ok {P : Nat × List RawLeg → Prop} {R : RouterData}
    {dest : List String} {ostop : String} {l : List DepEntry}
    (hnew : ∀ d ∈ l, ∀ m ∈ R.tripStopsOf d.trip, d.seq < m.seq →
      ∀ c ∈ R.cutConns m.stop m.arr, c.trip ≠ d.trip →
      ∀ e ∈ R.tripStopsOf c.trip, c.seq < e.seq → dest.contains e.stop = true →
      P (e.arr, [⟨d.trip, ostop, d.dep, m.stop, m.arr⟩,
                 ⟨c.trip, m.stop, c.dep, e.stop, e.arr⟩])) :
    ∀ s : OutState, outStateOK P s → outStateOK P (scanDepsTransfer R dest ostop l s) := by
  induction l with
  | nil => intro s hs; exact hs
  | cons d t ih =>
    intro s hs
    simp only [scanDepsTransfer]
    split
    · exact hs
    · exact ih (fun d' hd' => hnew d' (List.mem_cons_of_mem _ hd')) _
        (scanIntermediates_ok (hnew d (List.mem_cons_self d t)) _ _ hs)

theorem outPhase1_ok {P : Nat × List RawLeg → Prop} {R : RouterData}
    {originStops dest : List String} {E : Nat}
    (hnew : ∀ o ∈ originStops, ∀ d ∈ R.depsOf o, ∀ e ∈ R.tripStopsOf d.trip,
      d.seq < e.seq → dest.contains e.stop = true →
      P (e.arr, [⟨d.trip, o, d.dep, e.stop, e.arr⟩])) :
    ∀ s : OutState, outStateOK P s → outStateOK P (outPhase1 R originStops dest E s) := by
  induction originStops with
  | nil => intro s hs; exact hs
  | cons o t ih =>
    intro s hs
    simp only [outPhase1, List.foldl_cons]
    refine ih (fun o' ho' => hnew o' (List.mem_cons_of_mem _ ho')) _ ?_
    exact scanDepsDirect_ok
      (fun d hd => hnew o (List.mem_cons_self o t) d (List.mem_of_mem_drop hd)) s hs

theorem outPhase2_ok {P : Nat × List RawLeg → Prop} {R : RouterData}
    {originStops dest : List String} {E : Nat}
    (hnew : ∀ o ∈ originStops, ∀ d ∈ R.depsOf o, ∀ m ∈ R.tripStopsOf d.trip,
      d.seq < m.seq → ∀ c ∈ R.cutConns m.stop m.arr, c.trip ≠ d.trip →
      ∀ e ∈ R.tripStopsOf c.trip, c.seq < e.seq → dest.contains e.stop = true →
      P (e.arr, [⟨d.trip, o, d.dep, m.stop, m.arr⟩,
                 ⟨c.trip, m.stop, c.dep, e.stop, e.arr⟩])) :
    ∀ s : OutState, outStateOK P s → outStateOK P (outPhase2 R originStops dest E s) := by
  induction originStops with
  | nil => intro s hs; exact hs
  | cons o t ih =>
    intro s hs
    simp only [outPhase2, List.foldl_cons]
    refine ih (fun o' ho' => hnew o' (List.mem_cons_of_mem _ ho')) _ ?_
    exact scanDepsTransfer_ok
      (fun d hd => hnew o (List.mem_cons_self o t) d (List.mem_of_mem_drop hd)) s hs

/-- Master invariant lemma for `find_outbound`. -/
theorem find_outbound_ok {P : Nat × List RawLeg → Prop} {R : RouterData}
    {originStops dest : List String} {E : Nat} {legs : List RawLeg}
    (h : find_outbound R originStops dest E = some legs)
    (hnew1 : ∀ o ∈ originStops, ∀ d ∈ R.depsOf o, ∀ e ∈ R.tripStopsOf d.trip,
      d.seq < e.seq → dest.contains e.stop = true →
      P (e.arr, [⟨d.trip, o, d.dep, e.stop, e.arr⟩]))
    (hnew2 : ∀ o ∈ originStops, ∀ d ∈ R.depsOf o, ∀ m ∈ R.tripStopsOf d.trip,
      d.seq < m.seq → ∀ c ∈ R.cutConns m.stop m.arr, c.trip ≠ d.trip →
      ∀ e ∈ R.tripStopsOf c.trip, c.seq < e.seq → dest.contains e.stop = true →
      P (e.arr, [⟨d.trip, o, d.dep, m.stop, m.arr⟩,
                 ⟨c.trip, m.stop, c.dep, e.stop, e.arr⟩])) :
    ∃ a, P (a, legs) := by
  unfold find_outbound at h
  have h2 : outStateOK P (outPhase2 R originStops dest E
      (outPhase1 R originStops dest E none)) :=
    outPhase2_ok hnew2 _ (outPhase1_ok hnew1 none trivial)
  cases hst : outPhase2 R originStops dest E (outPhase1 R originStops dest E none) with
  | none => rw [hst] at h; simp at h
  | some x =>
    rw [hst] at h h2
    simp only [Option.map_some', Option.some.injEq] at h
    exact ⟨x.1, by rw [show (x.1, legs) = x from by rw [← h]]; exact h2⟩

/-! ### Generic invariant preservation through the return search -/

def retStateOK (P : Nat × List RawLeg → Prop) : RetState → Prop
  | none => True
  | some x => P x

theorem scanRetTripDirect_ok {P : Nat × List RawLeg → Prop} {origins : List String}
    {tseq : Nat} {trip tstop : String} {dep deadline : Nat} {l : List TSEntry}
    {s : RetState} (hs : retStateOK P s)
    (hnew : ∀ e ∈ l, tseq < e.seq → origins.contains e.stop = true → e.arr ≤ deadline →
      P (dep, [⟨trip, tstop, dep, e.stop, e.arr⟩])) :
    retStateOK P (scanRetTripDirect origins tseq trip tstop dep deadline l s) := by
  induction l with
  | nil => exact hs
  | cons e t ih =>
    simp only [scanRetTripDirect]
    split
    · exact ih (fun e' he' => hnew e' (List.mem_cons_of_mem _ he'))
    · rename_i hseq
      split
      · rename_i hcond
        rw [Bool.and_eq_true, decide_eq_true_eq] at hcond
        split
        · exact hnew e (List.mem_cons_self e t) (by omega) hcond.1 hcond.2
        · exact hs
      · exact ih (fun e' he' => hnew e' (List.mem_cons_of_mem _ he'))

theorem scanRetDepsDirect_ok {P : Nat × List RawLeg → Prop} {R : RouterData}
    {origins : List String} {tstop : String} {deadline : Nat} {l : List DepEntry}
    (hnew : ∀ d ∈ l, d.dep ≤ deadline → ∀ e ∈ R.tripStopsOf d.trip, d.seq < e.seq →
      origins.contains e.stop = true → e.arr ≤ deadline →
      P (d.dep, [⟨d.trip, tstop, d.dep, e.stop, e.arr⟩])) :
    ∀ (k : Nat) (s : RetState), retStateOK P s →
      retStateOK P (scanRetDepsDirect R origins tstop deadline l k s) := by
  induction l with
  | nil => intro _ s hs; exact hs
  | cons d t ih =>
    intro k s hs
    simp only [scanRetDepsDirect]
    split
    · exact ih (fun d' hd' => hnew d' (List.mem_cons_of_mem _ hd')) _ _ hs
    · rename_i hdl
      split
      · exact hs
      · split
        · exact hs
        · exact ih (fun d' hd' => hnew d' (List.mem_cons_of_mem _ hd')) _ _
            (scanRetTripDirect_ok hs
              (hnew d (List.mem_cons_self d t) (by omega)))

theorem retPhase1_ok {P : Nat × List RawLeg → Prop} {R : RouterData}
    {trailStops origins : List String} {deadline : Nat}
    (hnew : ∀ t ∈ trailStops, ∀ d ∈ R.depsOf t, d.dep ≤ deadline →
      ∀ e ∈ R.tripStopsOf d.trip, d.seq < e.seq → origins.contains e.stop = true →
      e.arr ≤ deadline → P (d.dep, [⟨d.trip, t, d.dep, e.stop, e.arr⟩])) :
    ∀ s : RetState, retStateOK P s → retStateOK P (retPhase1 R trailStops origins deadline s) := by
  induction trailStops with
  | nil => intro s hs; exact hs
  | cons t ts ih =>
    intro s hs
    simp only [retPhase1, List.foldl_cons]
    refine ih (fun t' ht' => hnew t' (List.mem_cons_of_mem _ ht')) _ ?_
    exact scanRetDepsDirect_ok
      (fun d hd => hnew t (List.mem_cons_self t ts) d (by
        rw [List.mem_reverse] at hd
        exact hd)) _ s hs

theorem scanRetConnTrip_ok {P : Nat × List RawLeg → Prop} {origins : List String}
    {cseq : Nat} {ctrip istop : String} {cdep outerDep deadline : Nat} {leg1 : RawLeg}
    {l : List TSEntry} {s : RetState} (hs : retStateOK P s)
    (hnew : ∀ e ∈ l, cseq < e.seq → origins.contains e.stop = true → e.arr ≤ deadline →
      P (outerDep, [leg1, ⟨ctrip, istop, cdep, e.stop, e.arr⟩])) :
    retStateOK P (scanRetConnTrip origins cseq ctrip istop cdep outerDep deadline leg1 l s) := by
  induction l with
  | nil => exact hs
  | cons e t ih =>
    simp only [scanRetConnTrip]
    split
    · exact ih (fun e' he' => hnew e' (List.mem_cons_of_mem _ he'))
    · rename_i hseq
      split
      · rename_i hcond
        rw [Bool.and_eq_true, decide_eq_true_eq] at hcond
        split
        · exact hnew e (List.mem_cons_self e t) (by omega) hcond.1 hcond.2
        · exact hs
      · exact ih (fun e' he' => hnew e' (List.mem_cons_of_mem _ he'))

theorem scanRetConns_ok {P : Nat × List RawLeg → Prop} {R : RouterData}
    {origins : List String} {trip : String} {leg1 : RawLeg} {istop : String}
    {outerDep deadline : Nat} {l : List DepEntry}
    (hnew : ∀ c ∈ l, c.trip ≠ trip → ∀ e ∈ R.tripStopsOf c.trip, c.seq < e.seq →
      origins.contains e.stop = true → e.arr ≤ deadline →
      P (outerDep, [leg1, ⟨c.trip, istop, c.dep, e.stop, e.arr⟩])) :
    ∀ (k : Nat) (s : RetState), retStateOK P s →
      retStateOK P (scanRetConns R origins trip leg1 istop outerDep deadline l k s) := by
  induction l with
  | nil => intro _ s hs; exact hs
  | cons c t ih =>
    intro k s hs
    simp only [scanRetConns]
    split
    · exact hs
    · split
      · exact ih (fun c' hc' => hnew c' (List.mem_cons_of_mem _ hc')) _ _ hs
      · split
        · exact hs
        · rename_i hne _
          refine ih (fun c' hc' => hnew c' (List.mem_cons_of_mem _ hc')) _ _
            (scanRetConnTrip_ok hs ?_)
          exact hnew c (List.mem_cons_self c t) (by simpa using hne)

theorem scanRetIntermediates_ok {P : Nat × List RawLeg → Prop} {R : RouterData}
    {origins : List String} {trip tstop : String} {dep tseq deadline : Nat}
    {l : List TSEntry}
    (hnew : ∀ m ∈ l, tseq < m.seq → ∀ c ∈ R.cutConns m.stop m.arr, c.trip ≠ trip →
      ∀ e ∈ R.tripStopsOf c.trip, c.seq < e.seq → origins.contains e.stop = true →
      e.arr ≤ deadline →
      P (dep, [⟨trip, tstop, dep, m.stop, m.arr⟩, ⟨c.trip, m.stop, c.dep, e.stop, e.arr⟩])) :
    ∀ (k : Nat) (s : RetState), retStateOK P s →
      retStateOK P (scanRetIntermediates R origins trip tstop dep tseq deadline l k s) := by
  induction l with
  | nil => intro _ s hs; exact hs
  | cons m t ih =>
    intro k s hs
    simp only [scanRetIntermediates]
    split
    · exact ih (fun m' hm' => hnew m' (List.mem_cons_of_mem _ hm')) _ _ hs
    · rename_i hseq
      split
      · exact hs
      · split
        · exact hs
        · split
          · exact hs
          · refine ih (fun m' hm' => hnew m' (List.mem_cons_of_mem _ hm')) _ _
              (scanRetConns_ok ?_ _ _ hs)
            exact hnew m (List.mem_cons_self m t) (by omega)

theorem scanRetDepsTransfer_ok {P : Nat × List RawLeg → Prop} {R : RouterData}
    {origins : List String} {tstop : String} {deadline : Nat} {l : List DepEntry}
    (hnew : ∀ d ∈ l, d.dep ≤ deadline → ∀ m ∈ R.tripStopsOf d.trip, d.seq < m.seq →
      ∀ c ∈ R.cutConns m.stop m.arr, c.trip ≠ d.trip →
      ∀ e ∈ R.tripStopsOf c.trip, c.seq < e.seq → origins.contains e.stop = true →
      e.arr ≤ deadline →
      P (d.dep, [⟨d.trip, tstop, d.dep, m.stop, m.arr⟩,
                 ⟨c.trip, m.stop, c.dep, e.stop, e.arr⟩])) :
    ∀ (k : Nat) (s : RetState), retStateOK P s →
      retStateOK P (scanRetDepsTransfer R origins tstop deadline l k s) := by
  induction l with
  | nil => intro _ s hs; exact hs
  | cons d t ih =>
    intro k s hs
    simp only [scanRetDepsTransfer]
    split
    · exact ih (fun d' hd' => hnew d' (List.mem_cons_of_mem _ hd')) _ _ hs
    · rename_i hdl
      split
      · exact hs
      · split
        · exact hs
        · exact ih (fun d' hd' => hnew d' (List.mem_cons_of_mem _ hd')) _ _
            (scanRetIntermediates_ok (hnew d (List.mem_cons_self d t) (by omega)) _ _ hs)

theorem retPhase2_ok {P : Nat × List RawLeg → Prop} {R : RouterData}
    {trailStops origins : List String} {deadline : Nat}
    (hnew : ∀ t ∈ trailStops, ∀ d ∈ R.depsOf t, d.dep ≤ deadline →
      ∀ m ∈ R.tripStopsOf d.trip, d.seq < m.seq →
      ∀ c ∈ R.cutConns m.stop m.arr, c.trip ≠ d.trip →
      ∀ e ∈ R.tripStopsOf c.trip, c.seq < e.seq → origins.contains e.stop = true →
      e.arr ≤ deadline →
      P (d.dep, [⟨d.trip, t, d.dep, m.stop, m.arr⟩,
                 ⟨c.trip, m.stop, c.dep, e.stop, e.arr⟩])) :
    ∀ s : RetState, retStateOK P s →
      retStateOK P (retPhase2 R trailStops origins deadline s) := by
  induction trailStops with
  | nil => intro s hs; exact hs
  | cons t ts ih =>
    intro s hs
    simp only [retPhase2, List.foldl_cons]
    refine ih (fun t' ht' => hnew t' (List.mem_cons_of_mem _ ht')) _ ?_
    exact scanRetDepsTransfer_ok
      (fun d hd => hnew t (List.mem_cons_self t ts) d (by
        rw [List.mem_reverse] at hd
        exact hd)) _ s hs

/-- Master invariant lemma for `find_return`. -/
theorem find_return_ok {P : Nat × List RawLeg → Prop} {R : RouterData}
    {trailStops origins : List String} {deadline : Nat} {legs : List RawLeg}
    (h : find_return R trailStops origins deadline = some legs)
    (hnew1 : ∀ t ∈ trailStops, ∀ d ∈ R.depsOf t, d.dep ≤ deadline →
      ∀ e ∈ R.tripStopsOf d.trip, d.seq < e.seq → origins.contains e.stop = true →
      e.arr ≤ deadline → P (d.dep, [⟨d.trip, t, d.dep, e.stop, e.arr⟩]))
    (hnew2 : ∀ t ∈ trailStops, ∀ d ∈ R.depsOf t, d.dep ≤ deadline →
      ∀ m ∈ R.tripStopsOf d.trip, d.seq < m.seq →
      ∀ c ∈ R.cutConns m.stop m.arr, c.trip ≠ d.trip →
      ∀ e ∈ R.tripStopsOf c.trip, c.seq < e.seq → origins.contains e.stop = true →
      e.arr ≤ deadline →
      P (d.dep, [⟨d.trip, t, d.dep, m.stop, m.arr⟩,
                 ⟨c.trip, m.stop, c.dep, e.stop, e.arr⟩])) :
    ∃ a, P (a, legs) := by
  unfold find_return at h
  have h2 : retStateOK P (retPhase2 R trailStops origins deadline
      (retPhase1 R trailStops origins deadline none)) :=
    retPhase2_ok hnew2 _ (retPhase1_ok hnew1 none trivial)
  cases hst : retPhase2 R trailStops origins deadline
      (retPhase1 R trailStops origins deadline none) with
  | none => rw [hst] at h; simp at h
  | some x =>
    rw [hst] at h h2
    simp only [Option.map_some', Option.some.injEq] at h
    exact ⟨x.1, by rw [show (x.1, legs) = x from by rw [← h]]; exact h2⟩

/-! ### Instantiated router facts -/

theorem contains_mem {l : List String} {x : String} (h : l.contains x = true) : x ∈ l := by
  simpa using h

/-- Every itinerary returned by `find_return` is non-empty and its last
leg arrives at an origin stop at or before the deadline. -/
theorem find_return_deadline {R : RouterData} {trailStops origins : List String}
    {deadline : Nat} {legs : List RawLeg}
    (h : find_return R trailStops origins deadline = some legs) :
    legs ≠ [] ∧ (legs.getLastI).arrSecs ≤ deadline ∧ (legs.getLastI).toStop ∈ origins := by
  obtain ⟨a, hp⟩ := find_return_ok
    (P := fun x => x.2 ≠ [] ∧ (x.2.getLastI).arrSecs ≤ deadline ∧
      (x.2.getLastI).toStop ∈ origins) h
    (by
      intro t ht d hd hdl e he hseq hc harr
      exact ⟨by simp, by simpa [List.getLastI] using harr,
        by simpa [List.getLastI] using contains_mem hc⟩)
    (by
      intro t ht d hd hdl m hm hms c hc hct e he hseq hstop harr
      exact ⟨by simp, by simpa [List.getLastI] using harr,
        by simpa [List.getLastI] using contains_mem hstop⟩)
  exact hp

/-- Return-leg chain: the trail departure of a returned itinerary is at
most its final arrival, and at most the deadline. -/
theorem find_return_chain {R : RouterData} {trailStops origins : List String}
    {deadline : Nat} {legs : List RawLeg}
    (hsorted : DepsSorted R) (hcross : CrossOK R)
    (h : find_return R trailStops origins deadline = some legs) :
    legs ≠ [] ∧ (legs.headI).depSecs ≤ (legs.getLastI).arrSecs ∧
      (legs.headI).depSecs ≤ deadline := by
  obtain ⟨a, hp⟩ := find_return_ok
    (P := fun x => x.2 ≠ [] ∧ (x.2.headI).depSecs ≤ (x.2.getLastI).arrSecs ∧
      (x.2.headI).depSecs ≤ deadline) h
    (by
      intro t ht d hd hdl e he hseq hc harr
      refine ⟨by simp, ?_, by simpa [List.headI] using hdl⟩
      have := depsOf_cross hcross hd e he hseq
      simpa [List.headI, List.getLastI] using this)
    (by
      intro t ht d hd hdl m hm hms c hc hct e he hseq hstop harr
      refine ⟨by simp, ?_, by simpa [List.headI] using hdl⟩
      have h1 : d.dep ≤ m.arr := depsOf_cross hcross hd m hm hms
      have h2 : m.arr + MIN_TRANSFER_SECS ≤ c.dep := cutConns_dep_ge hsorted hc
      have h3 : c.dep ≤ e.arr := depsOf_cross hcross (cutConns_subset hc) e he hseq
      simp only [List.headI, List.getLastI]
      omega)
  exact hp

/-- Outbound-leg chain and time bounds. -/
theorem find_outbound_chain {R : RouterData} {originStops dest : List String}
    {E B : Nat} {legs : List RawLeg}
    (hsorted : DepsSorted R) (hcross : CrossOK R) (hbelow : TimesBelow R B)
    (h : find_outbound R originStops dest E = some legs) :
    legs ≠ [] ∧ (legs.headI).depSecs ≤ (legs.getLastI).arrSecs ∧
      (legs.headI).depSecs < B ∧ (legs.getLastI).arrSecs < B := by
  obtain ⟨a, hp⟩ := find_outbound_ok
    (P := fun x => x.2 ≠ [] ∧ (x.2.headI).depSecs ≤ (x.2.getLastI).arrSecs ∧
      (x.2.headI).depSecs < B ∧ (x.2.getLastI).arrSecs < B) h
    (by
      intro o ho d hd e he hseq hc
      refine ⟨by simp, ?_, ?_, ?_⟩
      · have := depsOf_cross hcross hd e he hseq
        simpa [List.headI, List.getLastI] using this
      · simpa [List.headI] using depsOf_below hbelow hd
      · simpa [List.getLastI] using (tripStopsOf_below hbelow he).1)
    (by
      intro o ho d hd m hm hms c hc hct e he hseq hstop
      refine ⟨by simp, ?_, ?_, ?_⟩
      · have h1 : d.dep ≤ m.arr := depsOf_cross hcross hd m hm hms
        have h2 : m.arr + MIN_TRANSFER_SECS ≤ c.dep := cutConns_dep_ge hsorted hc
        have h3 : c.dep ≤ e.arr := depsOf_cross hcross (cutConns_subset hc) e he hseq
        simp only [List.headI, List.getLastI]
        omega
      · simpa [List.headI] using depsOf_below hbelow hd
      · simpa [List.getLastI] using (tripStopsOf_below hbelow he).1)
  exact hp

/-- C10: Every two-leg itinerary returned by `find_outbound` is
well-formed: the first leg's destination stop equals the second leg's
origin (transfer) stop, the two legs use different `trip_id`s, the second
leg departs at least `MIN_TRANSFER_SECS` (60 s) after the first leg
arrives, the first leg starts at one of the requested origin stops, and
the last leg ends at a stop in `dest_stops`.  (The transfer-slack bound
comes from the `bisect_left` cut, so the departure index must be sorted
by departure time, as the `TransitRouter` constructor guarantees.) -/
theorem C10_transfer_wellformed {R : RouterData} {originStops dest : List String}
    {E : Nat} {l1 l2 : RawLeg}
    (hsorted : DepsSorted R)
    (h : find_outbound R originStops dest E = some [l1, l2]) :
    l1.toStop = l2.fromStop ∧ l1.trip ≠ l2.trip ∧
    l1.arrSecs + MIN_TRANSFER_SECS ≤ l2.depSecs ∧
    l1.fromStop ∈ originStops ∧ l2.toStop ∈ dest := by
  obtain ⟨a, hp⟩ := find_outbound_ok
    (P := fun x => ∀ a b : RawLeg, x.2 = [a, b] →
      a.toStop = b.fromStop ∧ a.trip ≠ b.trip ∧
      a.arrSecs + MIN_TRANSFER_SECS ≤ b.depSecs ∧
      a.fromStop ∈ originStops ∧ b.toStop ∈ dest) h
    (by
      intro o ho d hd e he hseq hc a b hab
      simp at hab)
    (by
      intro o ho d hd m hm hms c hc hct e he hseq hstop a b hab
      simp only [List.cons.injEq, and_true] at hab
      obtain ⟨rfl, rfl, -⟩ := hab
      refine ⟨rfl, fun hemeq => hct ?_, ?_, ?_, ?_⟩
      · simpa using hemeq.symm
      · exact cutConns_dep_ge hsorted hc
      · exact ho
      · exact contains_mem hstop)
  exact hp l1 l2 rfl

/-! ### Planner membership plumbing -/

theorem pySliceTo_subset {α : Type} (n : Int) (l : List α) : pySliceTo n l ⊆ l := by
  unfold pySliceTo
  split
  · exact List.take_subset _ _
  · exact List.take_subset _ _

theorem mem_foldl_append {α β : Type} (f : β → List α) (ts : List β) (acc : List α)
    (x : α) :
    x ∈ ts.foldl (fun acc t => acc ++ f t) acc ↔ x ∈ acc ∨ ∃ t ∈ ts, x ∈ f t := by
  induction ts generalizing acc with
  | nil => simp
  | cons t ts ih =>
    simp only [List.foldl_cons, ih, List.mem_append]
    constructor
    · rintro (⟨hx | hx⟩ | ⟨u, hu, hx⟩)
      · exact Or.inl hx
      · exact Or.inr ⟨t, List.mem_cons_self t ts, hx⟩
      · exact Or.inr ⟨u, List.mem_cons_of_mem _ hu, hx⟩
    · rintro (hx | ⟨u, hu, hx⟩)
      · exact Or.inl (Or.inl hx)
      · rcases List.mem_cons.1 hu with rfl | hu
        · exact Or.inl (Or.inr hx)
        · exact Or.inr ⟨u, hu, hx⟩

/-- Tracing a `some` result back through a "keep the better plan" fold. -/
theorem foldl_opt_reach {β : Type} (Q : β → HikePlan → Prop)
    (g : Option HikePlan → β → Option HikePlan)
    (hg : ∀ b x p, g b x = some p → b = some p ∨ Q x p) (l : List β) :
    ∀ (b : Option HikePlan) (p : HikePlan),
      l.foldl g b = some p → b = some p ∨ ∃ x ∈ l, Q x p := by
  induction l with
  | nil => intro b p h; exact Or.inl h
  | cons x t ih =>
    intro b p h
    rcases ih (g b x) p h with hb | ⟨y, hy, hQ⟩
    · rcases hg b x p hb with hb' | hQ
      · exact Or.inl hb'
      · exact Or.inr ⟨x, List.mem_cons_self x t, hQ⟩
    · exact Or.inr ⟨y, List.mem_cons_of_mem _ hy, hQ⟩

theorem betterPlan_reach (b : Option HikePlan) (o : Option HikePlan) (p : HikePlan)
    (h : betterPlan b o = some p) : b = some p ∨ o = some p := by
  unfold betterPlan at h
  cases o with
  | none => exact Or.inl h
  | some pl =>
    cases b with
    | none => exact Or.inr h
    | some bb =>
      rw [show (match some pl with
        | none => some bb
        | some pl => if bb.hiking_ratio < pl.hiking_ratio then some pl else some bb) =
          if bb.hiking_ratio < pl.hiking_ratio then some pl else some bb from rfl] at h
      split at h
      · exact Or.inr h
      · exact Or.inl h

/-- Tracing a plan in the output of `_plan_single_trail` back to the
access point(s) that produced it. -/
theorem plan_single_trail_mem {R : RouterData} {trail : Trail}
    {originStopIds originStopSet : List String} {E D : Nat} {minH : ℚ} {month : Nat}
    {p : HikePlan}
    (hp : p ∈ plan_single_trail R trail originStopIds originStopSet E D minH month) :
    (∃ ap ∈ trail.access_points,
        plan_access_point R trail ap originStopIds originStopSet E D minH month =
          some p) ∨
    (∃ ei ∈ trail.access_points.enum, ∃ ej ∈ trail.access_points.enum,
        ei.1 ≠ ej.1 ∧
        THROUGH_HIKE_MIN_DISTANCE_KM ≤
          |ej.2.trail_km_from_start - ei.2.trail_km_from_start| ∧
        |ej.2.trail_km_from_start - ei.2.trail_km_from_start| ≤
          THROUGH_HIKE_MAX_DISTANCE_KM ∧
        plan_through_hike R trail ei.2 ej.2
          |ej.2.trail_km_from_start - ei.2.trail_km_from_start|
          originStopIds originStopSet E D minH month = some p) := by
  unfold plan_single_trail at hp
  have hoab : ∀ q : HikePlan,
      trail.access_points.foldl
        (fun best ap =>
          betterPlan best
            (plan_access_point R trail ap originStopIds originStopSet E D minH month))
        none = some q →
      ∃ ap ∈ trail.access_points,
        plan_access_point R trail ap originStopIds originStopSet E D minH month =
          some q := by
    intro q hq
    rcases foldl_opt_reach
      (fun (ap : TrailAccessPoint) (q : HikePlan) =>
        plan_access_point R trail ap originStopIds originStopSet E D minH month =
          some q)
      (fun (best : Option HikePlan) (ap : TrailAccessPoint) =>
        betterPlan best
          (plan_access_point R trail ap originStopIds originStopSet E D minH month))
      (fun b ap p h => betterPlan_reach _ _ _ h) _ _ _ hq with hnone | hex
    · exact absurd hnone (by simp)
    · exact hex
  have hthrough : ∀ q : HikePlan,
      trail.access_points.enum.foldl
        (fun best ei =>
          trail.access_points.enum.foldl
            (fun best ej =>
              if ei.1 == ej.1 then best
              else
                if |ej.2.trail_km_from_start - ei.2.trail_km_from_start| <
                    THROUGH_HIKE_MIN_DISTANCE_KM then best
                else
                  if THROUGH_HIKE_MAX_DISTANCE_KM <
                      |ej.2.trail_km_from_start - ei.2.trail_km_from_start| then best
                  else
                    betterPlan best
                      (plan_through_hike R trail ei.2 ej.2
                        |ej.2.trail_km_from_start - ei.2.trail_km_from_start|
                        originStopIds originStopSet E D minH month))
            best)
        none = some q →
      ∃ ei ∈ trail.access_points.enum, ∃ ej ∈ trail.access_points.enum,
        ei.1 ≠ ej.1 ∧
        THROUGH_HIKE_MIN_DISTANCE_KM ≤
          |ej.2.trail_km_from_start - ei.2.trail_km_from_start| ∧
        |ej.2.trail_km_from_start - ei.2.trail_km_from_start| ≤
          THROUGH_HIKE_MAX_DISTANCE_KM ∧
        plan_through_hike R trail ei.2 ej.2
          |ej.2.trail_km_from_start - ei.2.trail_km_from_start|
          originStopIds originStopSet E D minH month = some q := by
    intro q hq
    rcases foldl_opt_reach
      (fun (ei : Nat × TrailAccessPoint) (p : HikePlan) =>
        ∃ ej ∈ trail.access_points.enum,
        ei.1 ≠ ej.1 ∧
        THROUGH_HIKE_MIN_DISTANCE_KM ≤
          |ej.2.trail_km_from_start - ei.2.trail_km_from_start| ∧
        |ej.2.trail_km_from_start - ei.2.trail_km_from_start| ≤
          THROUGH_HIKE_MAX_DISTANCE_KM ∧
        plan_through_hike R trail ei.2 ej.2
          |ej.2.trail_km_from_start - ei.2.trail_km_from_start|
          originStopIds originStopSet E D minH month = some p)
      (fun (best : Option HikePlan) (ei : Nat × TrailAccessPoint) =>
        trail.access_points.enum.foldl
          (fun (best : Option HikePlan) (ej : Nat × TrailAccessPoint) =>
            if ei.1 == ej.1 then best
            else
              if |ej.2.trail_km_from_start - ei.2.trail_km_from_start| <
                  THROUGH_HIKE_MIN_DISTANCE_KM then best
              else
                if THROUGH_HIKE_MAX_DISTANCE_KM <
                    |ej.2.trail_km_from_start - ei.2.trail_km_from_start| then best
                else
                  betterPlan best
                    (plan_through_hike R trail ei.2 ej.2
                      |ej.2.trail_km_from_start - ei.2.trail_km_from_start|
                      originStopIds originStopSet E D minH month))
          best)
      (fun b ei p h => by
        rcases foldl_opt_reach
          (fun (ej : Nat × TrailAccessPoint) (p' : HikePlan) =>
            ei.1 ≠ ej.1 ∧
            THROUGH_HIKE_MIN_DISTANCE_KM ≤
              |ej.2.trail_km_from_start - ei.2.trail_km_from_start| ∧
            |ej.2.trail_km_from_start - ei.2.trail_km_from_start| ≤
              THROUGH_HIKE_MAX_DISTANCE_KM ∧
            plan_through_hike R trail ei.2 ej.2
              |ej.2.trail_km_from_start - ei.2.trail_km_from_start|
              originStopIds originStopSet E D minH month = some p')
          (fun (best : Option HikePlan) (ej : Nat × TrailAccessPoint) =>
            if ei.1 == ej.1 then best
            else
              if |ej.2.trail_km_from_start - ei.2.trail_km_from_start| <
                  THROUGH_HIKE_MIN_DISTANCE_KM then best
              else
                if THROUGH_HIKE_MAX_DISTANCE_KM <
                    |ej.2.trail_km_from_start - ei.2.trail_km_from_start| then best
                else
                  betterPlan best
                    (plan_through_hike R trail ei.2 ej.2
                      |ej.2.trail_km_from_start - ei.2.trail_km_from_start|
                      originStopIds originStopSet E D minH month))
          (fun b' ej p' h' => by
            beta_reduce at h' ⊢
            split at h'
            · exact Or.inl h'
            · split at h'
              · exact Or.inl h'
              · split at h'
                · exact Or.inl h'
                · rcases betterPlan_reach _ _ _ h' with hb | ho
                  · exact Or.inl hb
                  · rename_i h1 h2 h3
                    exact Or.inr ⟨by simpa using h1, not_lt.1 h2, not_lt.1 h3, ho⟩)
          _ _ _ h with hb | hex
        · exact Or.inl hb
        · exact Or.inr hex) _ _ _ hq with hnone | ⟨ei, hei, ej, hej, hQ⟩
    · exact absurd hnone (by simp)
    · exact ⟨ei, hei, ej, hej, hQ⟩
  split at hp
  · rw [List.mem_append] at hp
    rcases hp with hp | hp
    · rcases hbo : trail.access_points.foldl
          (fun best ap =>
            betterPlan best
              (plan_access_point R trail ap originStopIds originStopSet E D minH month))
          none with _ | q
      · rw [hbo] at hp; simp at hp
      · rw [hbo] at hp
        simp only [List.mem_singleton] at hp
        subst hp
        exact Or.inl (hoab p hbo)
    · rcases hbt : trail.access_points.enum.foldl _ none with _ | q
      · rw [hbt] at hp; simp at hp
      · rw [hbt] at hp
        simp only [List.mem_singleton] at hp
        subst hp
        exact Or.inr (hthrough p hbt)
  · rcases hbo : trail.access_points.foldl
        (fun best ap =>
          betterPlan best
            (plan_access_point R trail ap originStopIds originStopSet E D minH month))
        none with _ | q
    · rw [hbo] at hp; simp at hp
    · rw [hbo] at hp
      simp only [List.mem_singleton] at hp
      subst hp
      exact Or.inl (hoab p hbo)

/-- Field facts of a plan produced by `_plan_access_point`. -/
theorem plan_access_point_shape {R : RouterData} {trail : Trail} {ap : TrailAccessPoint}
    {oids oset : List String} {E D : Nat} {minH : ℚ} {month : Nat} {p : HikePlan}
    (h : plan_access_point R trail ap oids oset E D minH month = some p) :
    p.deadline = D ∧ p.access_point = ap ∧ p.exit_access_point = none ∧
    p.hike_segment.is_through_hike = false ∧
    find_return R [ap.stop_id] oset D = some p.return_legs ∧
    find_outbound R oids [ap.stop_id] E = some p.outbound_legs := by
  unfold plan_access_point at h
  split at h
  · exact absurd h (by simp)
  · rename_i returnLegs hret
    simp only [] at h
    split at h
    · exact absurd h (by simp)
    · split at h
      · exact absurd h (by simp)
      · rename_i outboundLegs hout
        split at h
        · exact absurd h (by simp)
        · split at h
          · exact absurd h (by simp)
          · split at h
            · exact absurd h (by simp)
            · rw [Option.some.injEq] at h
              subst h
              exact ⟨rfl, rfl, rfl, rfl, hret, hout⟩

/-- Field facts of a plan produced by `_plan_through_hike`. -/
theorem plan_through_hike_shape {R : RouterData} {trail : Trail}
    {entry_ap exit_ap : TrailAccessPoint} {segment_km : ℚ} {oids oset : List String}
    {E D : Nat} {minH : ℚ} {month : Nat} {p : HikePlan}
    (h : plan_through_hike R trail entry_ap exit_ap segment_km oids oset E D minH
      month = some p) :
    p.deadline = D ∧ p.access_point = entry_ap ∧
    p.exit_access_point = some exit_ap ∧
    p.hike_segment.is_through_hike = true ∧
    p.hike_segment.estimated_distance_km = segment_km ∧
    p.hike_segment.entry_stop_name = entry_ap.stop_name ∧
    p.hike_segment.exit_stop_name = some exit_ap.stop_name ∧
    find_return R [exit_ap.stop_id] oset D = some p.return_legs ∧
    find_outbound R oids [entry_ap.stop_id] E = some p.outbound_legs := by
  unfold plan_through_hike at h
  split at h
  · exact absurd h (by simp)
  · rename_i returnLegs hret
    simp only [] at h
    split at h
    · exact absurd h (by simp)
    · split at h
      · exact absurd h (by simp)
      · rename_i outboundLegs hout
        split at h
        · exact absurd h (by simp)
        · split at h
          all_goals
            split at h
            · exact absurd h (by simp)
            · split at h
              · exact absurd h (by simp)
              · rw [Option.some.injEq] at h
                subst h
                exact ⟨rfl, rfl, rfl, rfl, rfl, rfl, rfl, hret, hout⟩

/-- Tracing a plan returned by `plan_hikes_for_origin` back to the trail
that produced it. -/
theorem plan_hikes_for_origin_mem {cities : List (String × ℚ × ℚ)}
    {fos : ℚ → ℚ → List String} {q : HikeQuery} {ctx : PlannerContext}
    {plans : List HikePlan} {p : HikePlan}
    (h : plan_hikes_for_origin cities fos q ctx = Except.ok plans) (hp : p ∈ plans) :
    ∃ coords, resolve_origin cities q.origin = Except.ok coords ∧
      ∃ trail ∈ ctx.trails,
        p ∈ plan_single_trail ctx.router trail (fos coords.1 coords.2)
          (fos coords.1 coords.2) (q.earliest_departure.getD 21600) ctx.deadline_secs
          q.min_hiking_hours ctx.month := by
  unfold plan_hikes_for_origin at h
  rcases hres : resolve_origin cities q.origin with e | coords
  · rw [hres] at h
    simp [Bind.bind, Except.bind] at h
  · rw [hres] at h
    simp only [Bind.bind, Except.bind] at h
    split at h
    · simp only [pure, Except.pure, Except.ok.injEq] at h
      subst h
      simp at hp
    · simp only [pure, Except.pure, Except.ok.injEq] at h
      subst h
      have h1 := pySliceTo_subset _ _ hp
      rw [mem_pySortBy] at h1
      rw [mem_foldl_append] at h1
      rcases h1 with h1 | ⟨trail, htrail, hmem⟩
      · simp at h1
      · exact ⟨coords, rfl, trail, htrail, hmem⟩

/-- C2: Every plan returned by the planner arrives back at the origin no
later than the deadline: the arrival time of the last return leg is at or
before the plan's deadline (which is the context's `deadline_secs`), and
that last leg ends at an origin stop. -/
theorem C2_return_deadline {cities : List (String × ℚ × ℚ)}
    {fos : ℚ → ℚ → List String} {q : HikeQuery} {ctx : PlannerContext}
    {plans : List HikePlan} {p : HikePlan}
    (h : plan_hikes_for_origin cities fos q ctx = Except.ok plans) (hp : p ∈ plans) :
    (p.return_legs.getLastI).arrSecs ≤ p.deadline ∧ p.deadline = ctx.deadline_secs := by
  obtain ⟨coords, hres, trail, htrail, hmem⟩ := plan_hikes_for_origin_mem h hp
  rcases plan_single_trail_mem hmem with ⟨ap, hap, heq⟩ | ⟨ei, hei, ej, hej, hne, hmin, hmax, heq⟩
  · obtain ⟨hD, -, -, -, hret, -⟩ := plan_access_point_shape heq
    obtain ⟨-, harr, -⟩ := find_return_deadline hret
    exact ⟨hD ▸ harr, hD⟩
  · obtain ⟨hD, -, -, -, -, -, -, hret, -⟩ := plan_through_hike_shape heq
    obtain ⟨-, harr, -⟩ := find_return_deadline hret
    exact ⟨hD ▸ harr, hD⟩

/-! ### C5: hiking-ratio bounds -/

theorem snd_mem_of_mem_enum {α : Type} {l : List α} {x : Nat × α} (h : x ∈ l.enum) :
    x.2 ∈ l := by
  rw [List.enum_eq_zip_range] at h
  exact (List.of_mem_zip h).2

theorem plan_access_point_ratio {R : RouterData} {trail : Trail} {ap : TrailAccessPoint}
    {oids oset : List String} {E D : Nat} {minH : ℚ} {month : Nat} {p : HikePlan}
    (hsorted : DepsSorted R) (hcross : CrossOK R) (hbelow : TimesBelow R 86400)
    (hD : D < 86400) (hmin : 0 < minH) (hwalk : 0 ≤ ap.walk_distance_m)
    (hdist : 0 ≤ trail.distance_km)
    (h : plan_access_point R trail ap oids oset E D minH month = some p) :
    0 < p.hiking_ratio ∧ p.hiking_ratio ≤ 1 := by
  unfold plan_access_point at h
  split at h
  · exact absurd h (by simp)
  · rename_i returnLegs hret
    simp only [] at h
    split at h
    · exact absurd h (by simp)
    · rename_i hg1
      split at h
      · exact absurd h (by simp)
      · rename_i outboundLegs hout
        split at h
        · exact absurd h (by simp)
        · rename_i hg2
          obtain ⟨-, hrchain, hrdep⟩ := find_return_chain hsorted hcross hret
          obtain ⟨-, hrarr, -⟩ := find_return_deadline hret
          obtain ⟨-, hochain, hodep, hoarr⟩ := find_outbound_chain hsorted hcross hbelow hout
          have hmodr : legClockSecs (returnLegs.headI).depSecs = (returnLegs.headI).depSecs :=
            Nat.mod_eq_of_lt (by omega)
          have hmodo : legClockSecs (outboundLegs.getLastI).arrSecs =
              (outboundLegs.getLastI).arrSecs := Nat.mod_eq_of_lt hoarr
          rw [hmodr, hmodo] at h hg2
          rw [not_le] at hg2
          have hwq : (0:ℚ) ≤ walk_time_hours ap.walk_distance_m * 3600 := by
            unfold walk_time_hours WALK_SPEED_KMH
            positivity
          have hoq : (outboundLegs.headI.depSecs : ℚ) ≤ outboundLegs.getLastI.arrSecs := by
            exact_mod_cast hochain
          have hrq : (returnLegs.headI.depSecs : ℚ) ≤ returnLegs.getLastI.arrSecs := by
            exact_mod_cast hrchain
          have htotpos : (0:ℚ) <
              ((returnLegs.getLastI.arrSecs : ℚ) - (outboundLegs.headI.depSecs : ℚ)) / 3600 := by
            have : (outboundLegs.headI.depSecs : ℚ) < returnLegs.getLastI.arrSecs := by
              nlinarith [hwq, hg2, hoq, hrq]
            linarith
          have hwin : ((returnLegs.headI.depSecs : ℚ) -
                walk_time_hours ap.walk_distance_m * 3600 -
                ((outboundLegs.getLastI.arrSecs : ℚ) +
                  walk_time_hours ap.walk_distance_m * 3600)) / 3600 ≤
              ((returnLegs.getLastI.arrSecs : ℚ) - (outboundLegs.headI.depSecs : ℚ)) / 3600 := by
            apply div_le_div_of_nonneg_right ?_ (by norm_num : (0:ℚ) ≤ 3600)
            linarith
          split at h
          · exact absurd h (by simp)
          · rename_i actual estd heq
            split at h
            · exact absurd h (by simp)
            · rename_i hming
              rw [Option.some.injEq] at h
              subst h
              rw [not_lt] at hming
              have hact : 0 < actual := lt_of_lt_of_le hmin hming
              have haw : actual ≤ ((returnLegs.headI.depSecs : ℚ) -
                  walk_time_hours ap.walk_distance_m * 3600 -
                  ((outboundLegs.getLastI.arrSecs : ℚ) +
                    walk_time_hours ap.walk_distance_m * 3600)) / 3600 := by
                split at heq
                · split at heq
                  · exact absurd heq (by simp)
                  · rename_i hwl
                    rw [not_lt] at hwl
                    rw [Option.some.injEq, Prod.mk.injEq] at heq
                    obtain ⟨heq1, -⟩ := heq
                    rw [← heq1]
                    exact hwl
                · rw [Option.some.injEq, Prod.mk.injEq] at heq
                  obtain ⟨heq1, -⟩ := heq
                  by_cases hsp : (0:ℚ) <
                      (if 0 < estimate_hike_time_hours trail.distance_km trail.elevation_gain_m
                        then trail.distance_km /
                          estimate_hike_time_hours trail.distance_km trail.elevation_gain_m
                        else NAISMITH_SPEED_KMH)
                  · rw [if_pos hsp] at heq1
                    rw [← heq1]
                    rw [div_le_iff₀ hsp]
                    have hminle := min_le_left
                      (((returnLegs.headI.depSecs : ℚ) -
                        walk_time_hours ap.walk_distance_m * 3600 -
                        ((outboundLegs.getLastI.arrSecs : ℚ) +
                          walk_time_hours ap.walk_distance_m * 3600)) / 3600 / 2 *
                        (if 0 < estimate_hike_time_hours trail.distance_km trail.elevation_gain_m
                          then trail.distance_km /
                            estimate_hike_time_hours trail.distance_km trail.elevation_gain_m
                          else NAISMITH_SPEED_KMH))
                      trail.distance_km
                    nlinarith [hminle]
                  · rw [if_neg hsp] at heq1
                    rw [← heq1] at hact
                    exact absurd hact (lt_irrefl 0)
              refine ⟨?_, ?_⟩
              · simp only []
                exact div_pos hact htotpos
              · simp only []
                rw [div_le_one htotpos]
                exact le_trans haw hwin

theorem plan_through_hike_ratio {R : RouterData} {trail : Trail}
    {entry_ap exit_ap : TrailAccessPoint} {segment_km : ℚ} {oids oset : List String}
    {E D : Nat} {minH : ℚ} {month : Nat} {p : HikePlan}
    (hsorted : DepsSorted R) (hcross : CrossOK R) (hbelow : TimesBelow R 86400)
    (hD : D < 86400) (hmin : 0 < minH) (hwalk1 : 0 ≤ entry_ap.walk_distance_m)
    (hwalk2 : 0 ≤ exit_ap.walk_distance_m)
    (h : plan_through_hike R trail entry_ap exit_ap segment_km oids oset E D minH
      month = some p) :
    0 < p.hiking_ratio ∧ p.hiking_ratio ≤ 1 := by
  unfold plan_through_hike at h
  split at h
  · exact absurd h (by simp)
  · rename_i returnLegs hret
    simp only [] at h
    split at h
    · exact absurd h (by simp)
    · rename_i hg1
      split at h
      · exact absurd h (by simp)
      · rename_i outboundLegs hout
        split at h
        · exact absurd h (by simp)
        · rename_i hg2
          obtain ⟨-, hrchain, hrdep⟩ := find_return_chain hsorted hcross hret
          obtain ⟨-, hrarr, -⟩ := find_return_deadline hret
          obtain ⟨-, hochain, hodep, hoarr⟩ := find_outbound_chain hsorted hcross hbelow hout
          have hmodr : legClockSecs (returnLegs.headI).depSecs = (returnLegs.headI).depSecs :=
            Nat.mod_eq_of_lt (by omega)
          have hmodo : legClockSecs (outboundLegs.getLastI).arrSecs =
              (outboundLegs.getLastI).arrSecs := Nat.mod_eq_of_lt hoarr
          rw [hmodr, hmodo] at h hg2
          rw [not_le] at hg2
          have hwq1 : (0:ℚ) ≤ walk_time_hours entry_ap.walk_distance_m * 3600 := by
            unfold walk_time_hours WALK_SPEED_KMH
            positivity
          have hwq2 : (0:ℚ) ≤ walk_time_hours exit_ap.walk_distance_m * 3600 := by
            unfold walk_time_hours WALK_SPEED_KMH
            positivity
          have hoq : (outboundLegs.headI.depSecs : ℚ) ≤ outboundLegs.getLastI.arrSecs := by
            exact_mod_cast hochain
          have hrq : (returnLegs.headI.depSecs : ℚ) ≤ returnLegs.getLastI.arrSecs := by
            exact_mod_cast hrchain
          have htotpos : (0:ℚ) <
              ((returnLegs.getLastI.arrSecs : ℚ) - (outboundLegs.headI.depSecs : ℚ)) / 3600 := by
            have : (outboundLegs.headI.depSecs : ℚ) < returnLegs.getLastI.arrSecs := by
              nlinarith [hwq1, hwq2, hg2, hoq, hrq]
            linarith
          have hwin : ((returnLegs.headI.depSecs : ℚ) -
                walk_time_hours exit_ap.walk_distance_m * 3600 -
                ((outboundLegs.getLastI.arrSecs : ℚ) +
                  walk_time_hours entry_ap.walk_distance_m * 3600)) / 3600 ≤
              ((returnLegs.getLastI.arrSecs : ℚ) - (outboundLegs.headI.depSecs : ℚ)) / 3600 := by
            apply div_le_div_of_nonneg_right ?_ (by norm_num : (0:ℚ) ≤ 3600)
            linarith
          split at h
          all_goals
            split at h
            · exact absurd h (by simp)
            · rename_i hwl
              rw [not_lt] at hwl
              split at h
              · exact absurd h (by simp)
              · rename_i hming
                rw [not_lt] at hming
                rw [Option.some.injEq] at h
                subst h
                refine ⟨?_, ?_⟩
                · simp only []
                  exact div_pos (lt_of_lt_of_le hmin hming) htotpos
                · simp only []
                  rw [div_le_one htotpos]
                  calc _ ≤ _ := hwl
                    _ ≤ _ := hwin

/-- C5 (amended): provided the query's `min_hiking_hours` is positive, the
schedule index is well-formed with no past-midnight times (all stored
times below 86400; `_datetime_to_seconds` drops whole days, so a
past-midnight bus leg would corrupt the hiking window), the deadline is
before midnight, and walk distances and trail lengths are nonnegative,
every plan returned by the planner has `hiking_ratio` in `(0, 1]`. -/
theorem C5_ratio_amended {cities : List (String × ℚ × ℚ)} {fos : ℚ → ℚ → List String}
    {q : HikeQuery} {ctx : PlannerContext} {plans : List HikePlan} {p : HikePlan}
    (hsorted : DepsSorted ctx.router) (hcross : CrossOK ctx.router)
    (hbelow : TimesBelow ctx.router 86400) (hD : ctx.deadline_secs < 86400)
    (hmin : 0 < q.min_hiking_hours)
    (hwalk : ∀ t ∈ ctx.trails, ∀ a ∈ t.access_points, 0 ≤ a.walk_distance_m)
    (hdist : ∀ t ∈ ctx.trails, 0 ≤ t.distance_km)
    (h : plan_hikes_for_origin cities fos q ctx = Except.ok plans) (hp : p ∈ plans) :
    0 < p.hiking_ratio ∧ p.hiking_ratio ≤ 1 := by
  obtain ⟨coords, hres, trail, htrail, hmem⟩ := plan_hikes_for_origin_mem h hp
  rcases plan_single_trail_mem hmem with ⟨ap, hap, heq⟩ |
    ⟨ei, hei, ej, hej, hne, hmn, hmx, heq⟩
  · exact plan_access_point_ratio hsorted hcross hbelow hD hmin
      (hwalk trail htrail ap hap) (hdist trail htrail) heq
  · exact plan_through_hike_ratio hsorted hcross hbelow hD hmin
      (hwalk trail htrail ei.2 (snd_mem_of_mem_enum hei))
      (hwalk trail htrail ej.2 (snd_mem_of_mem_enum hej)) heq

/-! ### Concrete schedule indexes and trails used by counterexamples and
witnesses -/

/-- A minimal schedule: trip `g1` runs origin stop `A` (07:00) → trail stop
`T` (07:30); trip `r1` runs `T` (14:00) → `A` (14:30). -/
def exStore : RouterData :=
  { stop_departures :=
      [("A", [⟨25200, "g1", 0⟩, ⟨52200, "r1", 1⟩]),
       ("T", [⟨27000, "g1", 1⟩, ⟨50400, "r1", 0⟩])],
    trip_stop_sequence :=
      [("g1", [⟨"A", 25200, 25200, 0⟩, ⟨"T", 27000, 27000, 1⟩]),
       ("r1", [⟨"T", 50400, 50400, 0⟩, ⟨"A", 52200, 52200, 1⟩])] }

/-- A 4 km flat linear trail reachable at stop `T`. -/
def exTrail : Trail :=
  { id := "osm:1", name := "Wadi", distance_km := 4, elevation_gain_m := 0,
    elevation_loss_m := 0, difficulty := "easy", colors := ["red"], is_loop := false,
    season_warnings := [], access_points := [⟨"T", "Trailhead", 0, 0⟩] }

def exCities : List (String × ℚ × ℚ) := [("rehovot", 319/10, 348/10)]

def exCtx : PlannerContext :=
  { trails := [exTrail], deadline_secs := 61200, month := 6, router := exStore }

def exQuery : HikeQuery := { origin := "Rehovot", month := 6 }

/-- A degenerate zero-length linear trail with positive elevation gain. -/
def exTrailZero : Trail :=
  { id := "osm:0", name := "Dot", distance_km := 0, elevation_gain_m := 100,
    elevation_loss_m := 0, difficulty := "easy", colors := [], is_loop := false,
    season_warnings := [], access_points := [⟨"T", "Trailhead", 0, 0⟩] }

def exCtxZero : PlannerContext :=
  { trails := [exTrailZero], deadline_secs := 61200, month := 6, router := exStore }

/-- Same as `exQuery` but with `min_hiking_hours = 0`. -/
def exQueryZero : HikeQuery := { origin := "Rehovot", month := 6, min_hiking_hours := 0 }

/-- A schedule with a past-midnight outbound trip: `g2` departs `A` at
23:53 (86000 s) and reaches `T` at 25:00 (90000 s, past midnight); the
slow return `r` leaves `T` at 13:53 (50000 s) and reaches `A` at 23:58
(86300 s). -/
def exStoreMidnight : RouterData :=
  { stop_departures :=
      [("A", [⟨50000, "r", 0⟩, ⟨86000, "g2", 0⟩]),
       ("T", [⟨50000, "r", 0⟩])],
    trip_stop_sequence :=
      [("g2", [⟨"A", 86000, 86000, 0⟩, ⟨"T", 90000, 90000, 1⟩]),
       ("r", [⟨"T", 50000, 50000, 0⟩, ⟨"A", 86300, 86300, 1⟩])] }

/-- A 10 km flat linear trail reachable at stop `T`. -/
def exTrailTen : Trail :=
  { id := "osm:10", name := "Long", distance_km := 10, elevation_gain_m := 0,
    elevation_loss_m := 0, difficulty := "easy", colors := [], is_loop := false,
    season_warnings := [], access_points := [⟨"T", "Trailhead", 0, 0⟩] }

def exCtxMidnight : PlannerContext :=
  { trails := [exTrailTen], deadline_secs := 86399, month := 6,
    router := exStoreMidnight }

/-- The single plan the planner finds on `exStore`/`exTrail` (departure
07:00, trail 07:30–14:00, return 14:30; hiking 2 h of a 7.5 h trip). -/
def exPlan : HikePlan :=
  ((plan_hikes_for_origin exCities (fun _ _ => ["A"]) exQuery exCtx).toOption.getD
    []).headI

/-- C5 counterexample: as stated, the claim fails on the code in two
ways.  (1) With `min_hiking_hours = 0` and a zero-length trail, the
planner returns a plan with `hiking_ratio = 0`, violating
`0 < hiking_ratio`.  (2) With a past-midnight outbound leg (arrival
90000 s), `_datetime_to_seconds` keeps only the time of day, the computed
hiking window dwarfs the true trip time, and the returned plan has
`hiking_ratio = 60 > 1`. -/
theorem C5_counterexample :
    ((plan_hikes_for_origin exCities (fun _ _ => ["A"]) exQueryZero exCtxZero).map
        (fun l => l.map HikePlan.hiking_ratio) = Except.ok [0] ∧ ¬ (0:ℚ) < 0) ∧
    ((plan_hikes_for_origin exCities (fun _ _ => ["A"]) exQuery exCtxMidnight).map
        (fun l => l.map HikePlan.hiking_ratio) = Except.ok [60] ∧ ¬ (60:ℚ) ≤ 1) :=
  ⟨⟨by with_unfolding_all rfl, by norm_num⟩,
   ⟨by with_unfolding_all rfl, by norm_num⟩⟩

/-- Witness for the amended C5 at a concrete store and query. -/
theorem C5_witness :
    plan_hikes_for_origin exCities (fun _ _ => ["A"]) exQuery exCtx =
      Except.ok [exPlan] ∧
    0 < exPlan.hiking_ratio ∧ exPlan.hiking_ratio ≤ 1 := by
  have hrun : plan_hikes_for_origin exCities (fun _ _ => ["A"]) exQuery exCtx =
      Except.ok [exPlan] := by with_unfolding_all rfl
  exact ⟨hrun,
    C5_ratio_amended (by decide) (by decide) (by decide) (by decide)
      (by with_unfolding_all decide) (by with_unfolding_all decide)
      (by with_unfolding_all decide) hrun (List.mem_singleton.2 rfl)⟩

/-- Witness for C2 at a concrete store and query. -/
theorem C2_witness :
    (exPlan.return_legs.getLastI).arrSecs ≤ exPlan.deadline ∧
    exPlan.deadline = exCtx.deadline_secs := by
  have hrun : plan_hikes_for_origin exCities (fun _ _ => ["A"]) exQuery exCtx =
      Except.ok [exPlan] := by with_unfolding_all rfl
  exact C2_return_deadline hrun (List.mem_singleton.2 rfl)

/-! ### C1: ranking -/

theorem pySliceTo_nil {α : Type} (n : Int) : pySliceTo n ([] : List α) = [] := by
  unfold pySliceTo
  split <;> simp

theorem pySliceTo_length_le {α : Type} {n : Int} (hn : 0 ≤ n) (l : List α) :
    ((pySliceTo n l).length : Int) ≤ n := by
  unfold pySliceTo
  rw [if_pos hn]
  have h1 : (l.take n.toNat).length ≤ n.toNat := by
    rw [List.length_take]
    omega
  omega

/-- C1 (amended): for every query with `max_results ≥ 0`, the list
returned by `plan_hikes_for_origin` is sorted by `hiking_ratio`
descending, contains at most `max_results` plans, and is a truncation of
a stable descending sort of the computed-plan list: plans with equal
`hiking_ratio` appear in the order they were computed (iteration order
over trails).  (`max_results` is a Python `int`; the claim's "at most
`max_results`" conjunct fails for negative values, where the slice
`plans[:max_results]` drops elements from the end instead.) -/
theorem C1_ranking_amended {cities : List (String × ℚ × ℚ)} {fos : ℚ → ℚ → List String}
    {q : HikeQuery} {ctx : PlannerContext} {plans : List HikePlan}
    (hmr : 0 ≤ q.max_results)
    (h : plan_hikes_for_origin cities fos q ctx = Except.ok plans) :
    plans.Pairwise (fun a b => b.hiking_ratio ≤ a.hiking_ratio) ∧
    (plans.length : Int) ≤ q.max_results ∧
    ∃ coords, resolve_origin cities q.origin = Except.ok coords ∧
      ∃ computed : List HikePlan,
        (((fos coords.1 coords.2).isEmpty = true ∧ computed = []) ∨
          computed = ctx.trails.foldl
            (fun acc trail => acc ++ plan_single_trail ctx.router trail
              (fos coords.1 coords.2) (fos coords.1 coords.2)
              (q.earliest_departure.getD 21600) ctx.deadline_secs q.min_hiking_hours
              ctx.month) []) ∧
        plans = pySliceTo q.max_results
          (pySortBy (fun a b => decide (b.hiking_ratio < a.hiking_ratio)) computed) ∧
        ∀ r : ℚ,
          (pySortBy (fun a b => decide (b.hiking_ratio < a.hiking_ratio))
              computed).filter (fun x => decide (x.hiking_ratio = r)) =
            computed.filter (fun x => decide (x.hiking_ratio = r)) := by
  unfold plan_hikes_for_origin at h
  rcases hres : resolve_origin cities q.origin with e | coords
  · rw [hres] at h
    simp [Bind.bind, Except.bind] at h
  · rw [hres] at h
    simp only [Bind.bind, Except.bind] at h
    split at h
    · rename_i hempty
      simp only [pure, Except.pure, Except.ok.injEq] at h
      subst h
      refine ⟨List.Pairwise.nil, by simpa using hmr, coords, rfl, [], Or.inl ⟨hempty, rfl⟩,
        ?_, fun r => rfl⟩
      show ([] : List HikePlan) = pySliceTo q.max_results (pySortBy _ [])
      rw [show pySortBy (fun a b => decide (b.hiking_ratio < a.hiking_ratio))
          ([] : List HikePlan) = [] from rfl, pySliceTo_nil]
    · rename_i hempty
      simp only [pure, Except.pure, Except.ok.injEq] at h
      subst h
      refine ⟨?_, ?_, coords, rfl, _, Or.inr rfl, rfl, ?_⟩
      · have hsorted := pySortBy_sorted_desc (fun x : HikePlan => x.hiking_ratio)
          (ctx.trails.foldl
            (fun acc trail => acc ++ plan_single_trail ctx.router trail
              (fos coords.1 coords.2) (fos coords.1 coords.2)
              (q.earliest_departure.getD 21600) ctx.deadline_secs q.min_hiking_hours
              ctx.month) [])
        refine List.Pairwise.sublist ?_ hsorted
        unfold pySliceTo
        split <;> exact List.take_sublist _ _
      · exact pySliceTo_length_le hmr _
      · intro r
        exact filter_pySortBy_desc (fun x : HikePlan => x.hiking_ratio) r _

/-- Same as `exQuery` but with `max_results = -1`. -/
def exQueryNeg : HikeQuery := { origin := "Rehovot", month := 6, max_results := -1 }

/-- C1 counterexample: with `max_results = -1` (a legal value of the
`int`-typed field), the planner computes one viable plan but Python's
`plans[:-1]` drops it, returning a 0-plan list — and "at most −1 plans"
is violated by any list, so the claim as stated is false. -/
theorem C1_counterexample :
    plan_hikes_for_origin exCities (fun _ _ => ["A"]) exQueryNeg exCtx =
      Except.ok [] ∧
    ¬ ((([] : List HikePlan).length : Int) ≤ exQueryNeg.max_results) :=
  ⟨by with_unfolding_all rfl, by with_unfolding_all decide⟩

/-- Witness for the amended C1 at a concrete store and query. -/
theorem C1_witness :
    0 ≤ exQuery.max_results ∧
    ([exPlan].Pairwise (fun a b => b.hiking_ratio ≤ a.hiking_ratio) ∧
      (([exPlan] : List HikePlan).length : Int) ≤ exQuery.max_results ∧
      ∃ coords, resolve_origin exCities exQuery.origin = Except.ok coords ∧
        ∃ computed : List HikePlan,
          ((((fun _ _ => ["A"]) : ℚ → ℚ → List String) coords.1 coords.2).isEmpty =
              true ∧ computed = [] ∨
            computed = exCtx.trails.foldl
              (fun acc trail => acc ++ plan_single_trail exCtx.router trail
                (((fun _ _ => ["A"]) : ℚ → ℚ → List String) coords.1 coords.2)
                (((fun _ _ => ["A"]) : ℚ → ℚ → List String) coords.1 coords.2)
                (exQuery.earliest_departure.getD 21600) exCtx.deadline_secs
                exQuery.min_hiking_hours exCtx.month) []) ∧
          [exPlan] = pySliceTo exQuery.max_results
            (pySortBy (fun a b => decide (b.hiking_ratio < a.hiking_ratio)) computed) ∧
          ∀ r : ℚ,
            (pySortBy (fun a b => decide (b.hiking_ratio < a.hiking_ratio))
                computed).filter (fun x => decide (x.hiking_ratio = r)) =
              computed.filter (fun x => decide (x.hiking_ratio = r))) := by
  have hrun : plan_hikes_for_origin exCities (fun _ _ => ["A"]) exQuery exCtx =
      Except.ok [exPlan] := by with_unfolding_all rfl
  exact ⟨by decide, C1_ranking_amended (by decide) hrun⟩

/-! ### C6: loop_only ∧ linear_only -/

theorem filter_loop_linear_empty (l : List Trail) :
    (l.filter (fun t => t.is_loop)).filter (fun t => !t.is_loop) = [] := by
  induction l with
  | nil => rfl
  | cons t ts ih =>
    by_cases h : t.is_loop <;> simp [List.filter_cons, h, ih]

/-- C6 (amended): when both `loop_only` and `linear_only` are set, the
planner itself raises no error: `_filter_trails` simply returns the empty
list (the loop-only filter keeps only loops, the linear-only filter then
removes them all), so planning silently yields zero plans.  Only the CLI
layer (cli.py) rejects the combination with an error, before planning
starts. -/
theorem C6_flags_amended (trails : List Trail) (q : HikeQuery)
    (h1 : q.loop_only = true) (h2 : q.linear_only = true) :
    filter_trails trails q = [] ∧ cli_flag_error q.loop_only q.linear_only = true := by
  refine ⟨?_, by rw [h1, h2]; rfl⟩
  unfold filter_trails
  rw [h1, h2]
  simp only [if_true]
  rw [filter_loop_linear_empty]
  rcases q.max_elevation_gain_m with _ | m <;> rcases q.difficulty with _ | d <;> simp

/-- A query with both mutually-exclusive flags set. -/
def exQueryBoth : HikeQuery :=
  { origin := "Rehovot", month := 6, loop_only := true, linear_only := true }

/-- C6 counterexample: with both flags set and a known origin, the
planning pipeline returns `Except.ok []` — a silent empty result, not the
`InvalidQuery` error the claim requires the planner to produce. -/
theorem C6_counterexample :
    plan_pipeline exCities (fun _ _ => ["A"]) [exTrail] 61200 6 exStore exQueryBoth =
      Except.ok [] := by
  with_unfolding_all rfl

/-- Witness for the amended C6 at a concrete query. -/
theorem C6_witness :
    filter_trails [exTrail] exQueryBoth = [] ∧
    cli_flag_error exQueryBoth.loop_only exQueryBoth.linear_only = true :=
  C6_flags_amended [exTrail] exQueryBoth rfl rfl

/-! ### C10: witness data (a transfer itinerary) -/

/-- A schedule forcing a transfer: `t1` runs `A` (07:00) → `B` (07:30),
`t2` runs `B` (07:35) → `C` (08:00). -/
def exStoreTransfer : RouterData :=
  { stop_departures :=
      [("A", [⟨25200, "t1", 0⟩]),
       ("B", [⟨27300, "t2", 0⟩]),
       ("C", [])],
    trip_stop_sequence :=
      [("t1", [⟨"A", 25200, 25200, 0⟩, ⟨"B", 27000, 27000, 1⟩]),
       ("t2", [⟨"B", 27300, 27300, 0⟩, ⟨"C", 28800, 28800, 1⟩])] }

/-- Witness for C10: on `exStoreTransfer` the router returns a two-leg
itinerary and the transfer invariants hold at it. -/
theorem C10_witness :
    (⟨"t1", "A", 25200, "B", 27000⟩ : RawLeg).toStop =
        (⟨"t2", "B", 27300, "C", 28800⟩ : RawLeg).fromStop ∧
      (⟨"t1", "A", 25200, "B", 27000⟩ : RawLeg).trip ≠
        (⟨"t2", "B", 27300, "C", 28800⟩ : RawLeg).trip ∧
      (⟨"t1", "A", 25200, "B", 27000⟩ : RawLeg).arrSecs + MIN_TRANSFER_SECS ≤
        (⟨"t2", "B", 27300, "C", 28800⟩ : RawLeg).depSecs ∧
      (⟨"t1", "A", 25200, "B", 27000⟩ : RawLeg).fromStop ∈ ["A"] ∧
      (⟨"t2", "B", 27300, "C", 28800⟩ : RawLeg).toStop ∈ ["C"] :=
  C10_transfer_wellformed (by decide)
    (by with_unfolding_all rfl :
      find_outbound exStoreTransfer ["A"] ["C"] 21600 =
        some [⟨"t1", "A", 25200, "B", 27000⟩, ⟨"t2", "B", 27300, "C", 28800⟩])

/-! ### C8: through-hike invariants -/

/-- C8 (amended): every through-hike plan produced by `_plan_single_trail`
has `exit_access_point` set, `is_through_hike = true`, a segment length
`segment_km = |A_in.trail_km − A_out.trail_km|` within
`[THROUGH_HIKE_MIN_DISTANCE_KM, THROUGH_HIKE_MAX_DISTANCE_KM]`, and entry
and exit access points at distinct trail positions (hence distinct access
points).  The original claim's "entry stop ≠ exit stop" conjunct — which
the code renders as distinct `stop_name`s — does not hold in general: two
access points of one trail may carry the same stop name. -/
theorem C8_through_invariants {R : RouterData} {trail : Trail}
    {oids oset : List String} {E D : Nat} {minH : ℚ} {month : Nat} {p : HikePlan}
    (hp : p ∈ plan_single_trail R trail oids oset E D minH month)
    (hthru : p.hike_segment.is_through_hike = true) :
    ∃ exit_ap, p.exit_access_point = some exit_ap ∧
      p.hike_segment.estimated_distance_km =
        |exit_ap.trail_km_from_start - p.access_point.trail_km_from_start| ∧
      THROUGH_HIKE_MIN_DISTANCE_KM ≤
        |exit_ap.trail_km_from_start - p.access_point.trail_km_from_start| ∧
      |exit_ap.trail_km_from_start - p.access_point.trail_km_from_start| ≤
        THROUGH_HIKE_MAX_DISTANCE_KM ∧
      exit_ap.trail_km_from_start ≠ p.access_point.trail_km_from_start := by
  rcases plan_single_trail_mem hp with ⟨ap, hap, heq⟩ |
    ⟨ei, hei, ej, hej, hne, hmn, hmx, heq⟩
  · obtain ⟨-, -, -, hfalse, -, -⟩ := plan_access_point_shape heq
    rw [hthru] at hfalse
    exact absurd hfalse (by simp)
  · obtain ⟨-, hacc, hexit, -, hdist, -, -, -, -⟩ := plan_through_hike_shape heq
    refine ⟨ej.2, hexit, ?_, ?_, ?_, ?_⟩
    · rw [hdist, hacc]
    · rw [hacc]; exact hmn
    · rw [hacc]; exact hmx
    · rw [hacc]
      intro hcon
      have h0 : (THROUGH_HIKE_MIN_DISTANCE_KM : ℚ) ≤ 0 := by
        simpa [hcon] using hmn
      rw [show (THROUGH_HIKE_MIN_DISTANCE_KM : ℚ) = 3 from rfl] at h0
      norm_num at h0

/-- A schedule for a through-hike: `g` runs `A` (07:00) → `T1` (07:30),
`r` runs `T2` (14:00) → `A` (14:30). -/
def exStoreThru : RouterData :=
  { stop_departures :=
      [("A", [⟨25200, "g", 0⟩, ⟨52200, "r", 1⟩]),
       ("T1", [⟨27000, "g", 1⟩]),
       ("T2", [⟨50400, "r", 0⟩])],
    trip_stop_sequence :=
      [("g", [⟨"A", 25200, 25200, 0⟩, ⟨"T1", 27000, 27000, 1⟩]),
       ("r", [⟨"T2", 50400, 50400, 0⟩, ⟨"A", 52200, 52200, 1⟩])] }

/-- A linear trail whose two access points are different stops (`T1` at
km 0, `T2` at km 5) that carry the same stop name. -/
def exTrailThru : Trail :=
  { id := "osm:2", name := "Ridge", distance_km := 10, elevation_gain_m := 0,
    elevation_loss_m := 0, difficulty := "easy", colors := [], is_loop := false,
    season_warnings := [],
    access_points := [⟨"T1", "Trailhead", 0, 0⟩, ⟨"T2", "Trailhead", 0, 5⟩] }

/-- C8 counterexample: the one plan produced for `exTrailThru` is a
through-hike whose `entry_stop` and `exit_stop` (names, as the
`HikeSegment` fields store them) are equal — the claim's
"entry stop ≠ exit stop" conjunct is false on the code. -/
theorem C8_counterexample :
    (plan_single_trail exStoreThru exTrailThru ["A"] ["A"] 21600 61200 1 6).map
      (fun p => (p.hike_segment.is_through_hike, p.hike_segment.entry_stop_name,
        p.hike_segment.exit_stop_name)) =
      [(true, "Trailhead", some "Trailhead")] := by
  with_unfolding_all rfl

/-- The through-hike plan found on `exStoreThru`. -/
def exPlanThru : HikePlan :=
  (plan_single_trail exStoreThru exTrailThru ["A"] ["A"] 21600 61200 1 6).headI

/-- Witness for the amended C8 at a concrete store and trail. -/
theorem C8_witness :
    ∃ exit_ap, exPlanThru.exit_access_point = some exit_ap ∧
      exPlanThru.hike_segment.estimated_distance_km =
        |exit_ap.trail_km_from_start - exPlanThru.access_point.trail_km_from_start| ∧
      THROUGH_HIKE_MIN_DISTANCE_KM ≤
        |exit_ap.trail_km_from_start - exPlanThru.access_point.trail_km_from_start| ∧
      |exit_ap.trail_km_from_start - exPlanThru.access_point.trail_km_from_start| ≤
        THROUGH_HIKE_MAX_DISTANCE_KM ∧
      exit_ap.trail_km_from_start ≠ exPlanThru.access_point.trail_km_from_start := by
  have hrun : plan_single_trail exStoreThru exTrailThru ["A"] ["A"] 21600 61200 1 6 =
      [exPlanThru] := by with_unfolding_all rfl
  refine @C8_through_invariants exStoreThru exTrailThru ["A"] ["A"] 21600 61200 1 6
    exPlanThru ?_ ?_
  · rw [hrun]
    exact List.mem_singleton.2 rfl
  · with_unfolding_all rfl

/-! ### C9: access-point deduplication -/

theorem dedupSweep_pairwise_sep (θ : ℚ) :
    ∀ (rest kept : List TrailAccessPoint),
      kept.Pairwise (fun a b => b.trail_km_from_start ≤ a.trail_km_from_start) →
      kept.Pairwise (fun a b =>
        θ ≤ (a.trail_km_from_start - b.trail_km_from_start) * 1000) →
      (∀ k ∈ kept, ∀ r ∈ rest, k.trail_km_from_start ≤ r.trail_km_from_start) →
      rest.Pairwise (fun a b => a.trail_km_from_start ≤ b.trail_km_from_start) →
      (dedupSweep θ kept rest).Pairwise (fun a b =>
        θ ≤ |a.trail_km_from_start - b.trail_km_from_start| * 1000) := by
  intro rest
  induction rest with
  | nil =>
    intro kept hdesc hsep _ _
    have hcomb := hdesc.and hsep
    have hout : (dedupSweep θ kept []).Pairwise (fun a b =>
        θ ≤ |b.trail_km_from_start - a.trail_km_from_start| * 1000) → True := fun _ => trivial
    cases kept with
    | nil => simp [dedupSweep]
    | cons k ks =>
      show (dedupSweep θ (k :: ks) []).Pairwise _
      rw [show dedupSweep θ (k :: ks) [] = (k :: ks).reverse from rfl,
        List.pairwise_reverse]
      refine hcomb.imp ?_
      rintro a b ⟨h1, h2⟩
      rw [abs_sub_comm, abs_of_nonneg (by linarith)]
      linarith
  | cons ap rest ih =>
    intro kept hdesc hsep hI3 hasc
    have hap_rest : ∀ r ∈ rest, ap.trail_km_from_start ≤ r.trail_km_from_start :=
      (List.pairwise_cons.1 hasc).1
    have hasc' := (List.pairwise_cons.1 hasc).2
    cases kept with
    | nil =>
      show (dedupSweep θ [ap] rest).Pairwise _
      refine ih [ap] (by simp) (by simp) ?_ hasc'
      intro k hk r hr
      rw [List.mem_singleton] at hk
      subst hk
      exact hap_rest r hr
    | cons k ks =>
      have hkap : k.trail_km_from_start ≤ ap.trail_km_from_start :=
        hI3 k (List.mem_cons_self k ks) ap (List.mem_cons_self ap rest)
      have hksle : ∀ x ∈ ks, x.trail_km_from_start ≤ k.trail_km_from_start :=
        (List.pairwise_cons.1 hdesc).1
      have hsep_k : ∀ x ∈ ks,
          θ ≤ (k.trail_km_from_start - x.trail_km_from_start) * 1000 :=
        (List.pairwise_cons.1 hsep).1
      have hdesc' := (List.pairwise_cons.1 hdesc).2
      have hsep' := (List.pairwise_cons.1 hsep).2
      have hI3' : ∀ x ∈ k :: ks, ∀ r ∈ rest,
          x.trail_km_from_start ≤ r.trail_km_from_start :=
        fun x hx r hr => hI3 x hx r (List.mem_cons_of_mem ap hr)
      show (dedupSweep θ (k :: ks) (ap :: rest)).Pairwise _
      rw [show dedupSweep θ (k :: ks) (ap :: rest) =
        if |ap.trail_km_from_start - k.trail_km_from_start| * 1000 < θ then
          if ap.walk_distance_m < k.walk_distance_m then dedupSweep θ (ap :: ks) rest
          else dedupSweep θ (k :: ks) rest
        else dedupSweep θ (ap :: k :: ks) rest from rfl]
      split_ifs with h1 h2
      · refine ih (ap :: ks) ?_ ?_ ?_ hasc'
        · refine List.pairwise_cons.2 ⟨fun x hx => le_trans (hksle x hx) hkap, hdesc'⟩
        · refine List.pairwise_cons.2 ⟨fun x hx => ?_, hsep'⟩
          have := hsep_k x hx
          linarith
        · rintro x hx r hr
          rcases List.mem_cons.1 hx with rfl | hx
          · exact hap_rest r hr
          · exact hI3' x (List.mem_cons_of_mem k hx) r hr
      · refine ih (k :: ks) hdesc hsep hI3' hasc'
      · have hsepk : θ ≤ (ap.trail_km_from_start - k.trail_km_from_start) * 1000 := by
          rw [not_lt, abs_of_nonneg (by linarith)] at h1
          exact h1
        refine ih (ap :: k :: ks) ?_ ?_ ?_ hasc'
        · refine List.pairwise_cons.2 ⟨fun x hx => ?_, hdesc⟩
          rcases List.mem_cons.1 hx with rfl | hx
          · exact hkap
          · exact le_trans (hksle x hx) hkap
        · refine List.pairwise_cons.2 ⟨fun x hx => ?_, hsep⟩
          rcases List.mem_cons.1 hx with rfl | hx
          · exact hsepk
          · have := hsep_k x hx
            linarith
        · rintro x hx r hr
          rcases List.mem_cons.1 hx with rfl | hx
          · exact hap_rest r hr
          · exact hI3' x hx r hr

theorem dedup_out_pairwise (aps : List TrailAccessPoint) (θ : ℚ) :
    (deduplicate_access_points aps θ).Pairwise
      (fun a b => θ ≤ |a.trail_km_from_start - b.trail_km_from_start| * 1000) := by
  unfold deduplicate_access_points
  split
  · rcases aps with _ | ⟨a, _ | ⟨b, t⟩⟩
    · simp
    · simp
    · simp at *
  · have hs : (pySortBy (fun q p =>
        decide (q.trail_km_from_start < p.trail_km_from_start)) aps).Pairwise
        (fun a b => a.trail_km_from_start ≤ b.trail_km_from_start) :=
      pySortBy_sorted_asc _ aps
    split
    · exact List.Pairwise.nil
    · rename_i h t heq
      rw [heq] at hs
      exact dedupSweep_pairwise_sep θ t [h] (by simp) (by simp)
        (by
          intro k hk r hr
          rw [List.mem_singleton] at hk
          subst hk
          exact (List.pairwise_cons.1 hs).1 r hr)
        (List.pairwise_cons.1 hs).2

/-- C9: the deduplicated access-point list of a trail is sorted ascending
by `trail_km_from_start`; any two retained points are at least
`DEDUP_TRAIL_DISTANCE_M` apart along the trail; and when a candidate falls
within the threshold of the last retained point the sweep continues with
the one of the two whose `walk_distance_m` is smaller (the existing point
on ties). -/
theorem C9_dedup (aps : List TrailAccessPoint) :
    (finalize_access_points aps).Pairwise
        (fun a b => a.trail_km_from_start ≤ b.trail_km_from_start) ∧
      (finalize_access_points aps).Pairwise (fun a b =>
        DEDUP_TRAIL_DISTANCE_M ≤
          |a.trail_km_from_start - b.trail_km_from_start| * 1000) ∧
      ∀ (θ : ℚ) (k ap : TrailAccessPoint) (ks rest : List TrailAccessPoint),
        |ap.trail_km_from_start - k.trail_km_from_start| * 1000 < θ →
        dedupSweep θ (k :: ks) (ap :: rest) =
          dedupSweep θ
            ((if ap.walk_distance_m < k.walk_distance_m then ap else k) :: ks)
            rest := by
  refine ⟨pySortBy_sorted_asc _ _, ?_, ?_⟩
  · have hperm := pySortBy_perm (fun q p : TrailAccessPoint =>
      decide (q.trail_km_from_start < p.trail_km_from_start))
      (deduplicate_access_points aps DEDUP_TRAIL_DISTANCE_M)
    exact (hperm.pairwise_iff (fun hab => by rwa [abs_sub_comm] at hab)).2
      (dedup_out_pairwise aps _)
  · intro θ k ap ks rest h
    rw [show dedupSweep θ (k :: ks) (ap :: rest) =
      if |ap.trail_km_from_start - k.trail_km_from_start| * 1000 < θ then
        if ap.walk_distance_m < k.walk_distance_m then dedupSweep θ (ap :: ks) rest
        else dedupSweep θ (k :: ks) rest
      else dedupSweep θ (ap :: k :: ks) rest from rfl, if_pos h]
    split_ifs <;> rfl

/-- Candidate access points: two within 100 m of each other along the
trail (the second has the shorter walk) and a third far away. -/
def exAPs : List TrailAccessPoint :=
  [⟨"s1", "P0", 300, 0⟩, ⟨"s2", "P1", 100, 1/10⟩, ⟨"s3", "P2", 50, 1⟩]

/-- Witness for C9 on a concrete candidate list: the output is sorted,
and the merge step at the first two candidates keeps the smaller-walk
point. -/
theorem C9_witness :
    (finalize_access_points exAPs).Pairwise
        (fun a b => a.trail_km_from_start ≤ b.trail_km_from_start) ∧
      dedupSweep 200 [⟨"s1", "P0", 300, 0⟩] [⟨"s2", "P1", 100, 1/10⟩] =
        dedupSweep 200
          [if (⟨"s2", "P1", 100, 1/10⟩ : TrailAccessPoint).walk_distance_m <
              (⟨"s1", "P0", 300, 0⟩ : TrailAccessPoint).walk_distance_m then
            (⟨"s2", "P1", 100, 1/10⟩ : TrailAccessPoint)
          else ⟨"s1", "P0", 300, 0⟩] [] :=
  ⟨(C9_dedup exAPs).1,
    (C9_dedup exAPs).2.2 200 ⟨"s1", "P0", 300, 0⟩ ⟨"s2", "P1", 100, 1/10⟩ [] []
      (by with_unfolding_all decide)⟩

/-! ### C3: monotonicity of `find_outbound` in the earliest-departure bound -/

/-- Ordering on outbound search states: `outLe s t` reads "`s` is at least
as good (arrives no later) as `t`"; `none` is the `inf` state. -/
def outLe : OutState → OutState → Prop
  | _, none => True
  | none, some _ => False
  | some x, some y => x.1 ≤ y.1

theorem outLe_refl : ∀ s : OutState, outLe s s
  | none => trivial
  | some _ => le_refl _

theorem outLe_trans : ∀ {s t u : OutState}, outLe s t → outLe t u → outLe s u := by
  intro s t u h1 h2
  cases u with
  | none => cases s <;> trivial
  | some z =>
    cases t with
    | none => exact h2.elim
    | some y =>
      cases s with
      | none => exact h1.elim
      | some x => exact le_trans h1 h2

theorem arrLt_false {x : Nat} {s : OutState} (h : arrLt x s = false) :
    ∃ a legs, s = some (a, legs) ∧ a ≤ x := by
  cases s with
  | none => simp [arrLt] at h
  | some y =>
    obtain ⟨a, legs⟩ := y
    refine ⟨a, legs, rfl, ?_⟩
    simp [arrLt] at h
    omega

theorem arrLt_mono_false {x : Nat} {s t : OutState} (hst : outLe s t)
    (h : arrLt x t = false) : arrLt x s = false := by
  obtain ⟨a, legs, rfl, ha⟩ := arrLt_false h
  cases s with
  | none => exact hst.elim
  | some y =>
    obtain ⟨b, legs2⟩ := y
    have hb : b ≤ a := hst
    simp [arrLt]
    omega

theorem outLe_some_of_arrLt {x : Nat} {legs : List RawLeg} {s : OutState}
    (h : arrLt x s = true) : outLe (some (x, legs)) s := by
  cases s with
  | none => trivial
  | some y =>
    obtain ⟨a, l⟩ := y
    simp [arrLt] at h
    exact le_of_lt h

theorem outLe_of_ok {a : Nat} {legs : List RawLeg} {t : OutState}
    (h : outStateOK (fun y => a ≤ y.1) t) : outLe (some (a, legs)) t := by
  cases t with
  | none => trivial
  | some y => exact h

theorem scanTripDest_le (dest : List String) (oseq : Nat) (trip ostop : String)
    (dep : Nat) : ∀ (l : List TSEntry) (s : OutState),
    outLe (scanTripDest dest oseq trip ostop dep l s) s := by
  intro l
  induction l with
  | nil => intro s; exact outLe_refl s
  | cons e rest ih =>
    intro s
    simp only [scanTripDest]
    split
    · exact ih s
    · split
      · rename_i hcond
        rw [Bool.and_eq_true] at hcond
        exact outLe_some_of_arrLt hcond.2
      · exact ih s

theorem scanDepsDirect_le (R : RouterData) (dest : List String) (ostop : String) :
    ∀ (l : List DepEntry) (s : OutState),
    outLe (scanDepsDirect R dest ostop l s) s := by
  intro l
  induction l with
  | nil => intro s; exact outLe_refl s
  | cons d rest ih =>
    intro s
    simp only [scanDepsDirect]
    split
    · exact outLe_refl s
    · exact outLe_trans (ih _) (scanTripDest_le _ _ _ _ _ _ s)

theorem scanConnTrip_le (dest : List String) (cseq : Nat) (ctrip istop : String)
    (cdep : Nat) (leg1 : RawLeg) : ∀ (l : List TSEntry) (s : OutState),
    outLe (scanConnTrip dest cseq ctrip istop cdep leg1 l s) s := by
  intro l
  induction l with
  | nil => intro s; exact outLe_refl s
  | cons e rest ih =>
    intro s
    simp only [scanConnTrip]
    split
    · exact ih s
    · split
      · rename_i hcond
        rw [Bool.and_eq_true] at hcond
        exact outLe_some_of_arrLt hcond.2
      · exact ih s

theorem scanConns_le (R : RouterData) (dest : List String) (trip : String)
    (leg1 : RawLeg) (istop : String) : ∀ (l : List DepEntry) (k : Nat) (s : OutState),
    outLe (scanConns R dest trip leg1 istop l k s) s := by
  intro l
  induction l with
  | nil => intro k s; exact outLe_refl s
  | cons c rest ih =>
    intro k s
    simp only [scanConns]
    split
    · exact outLe_refl s
    · split
      · exact ih k s
      · split
        · exact outLe_refl s
        · exact outLe_trans (ih _ _) (scanConnTrip_le _ _ _ _ _ _ _ s)

theorem scanIntermediates_le (R : RouterData) (dest : List String) (trip ostop : String)
    (dep oseq : Nat) : ∀ (l : List TSEntry) (k : Nat) (s : OutState),
    outLe (scanIntermediates R dest trip ostop dep oseq l k s) s := by
  intro l
  induction l with
  | nil => intro k s; exact outLe_refl s
  | cons m rest ih =>
    intro k s
    simp only [scanIntermediates]
    split
    · exact ih k s
    · split
      · exact outLe_refl s
      · split
        · exact outLe_refl s
        · split
          · exact outLe_refl s
          · exact outLe_trans (ih _ _) (scanConns_le _ _ _ _ _ _ _ s)

theorem scanDepsTransfer_le (R : RouterData) (dest : List String) (ostop : String) :
    ∀ (l : List DepEntry) (s : OutState),
    outLe (scanDepsTransfer R dest ostop l s) s := by
  intro l
  induction l with
  | nil => intro s; exact outLe_refl s
  | cons d rest ih =>
    intro s
    simp only [scanDepsTransfer]
    split
    · exact outLe_refl s
    · exact outLe_trans (ih _) (scanIntermediates_le _ _ _ _ _ _ _ _ s)

theorem scanDepsDirect_stop {R : RouterData} {dest : List String} {ostop : String}
    {a : Nat} {legs : List RawLeg} : ∀ {l : List DepEntry}, (∀ d ∈ l, a ≤ d.dep) →
    scanDepsDirect R dest ostop l (some (a, legs)) = some (a, legs) := by
  intro l h
  cases l with
  | nil => rfl
  | cons d rest =>
    have hg : arrLt d.dep (some (a, legs)) = false := by
      have := h d (List.mem_cons_self d rest)
      simp [arrLt]
      omega
    simp only [scanDepsDirect]
    rw [if_pos hg]

theorem scanDepsTransfer_stop {R : RouterData} {dest : List String} {ostop : String}
    {a : Nat} {legs : List RawLeg} : ∀ {l : List DepEntry}, (∀ d ∈ l, a ≤ d.dep) →
    scanDepsTransfer R dest ostop l (some (a, legs)) = some (a, legs) := by
  intro l h
  cases l with
  | nil => rfl
  | cons d rest =>
    have hg : arrLt d.dep (some (a, legs)) = false := by
      have := h d (List.mem_cons_self d rest)
      simp [arrLt]
      omega
    simp only [scanDepsTransfer]
    rw [if_pos hg]

theorem scanTripDest_mono (dest : List String) (oseq : Nat) (trip ostop : String)
    (dep : Nat) : ∀ (l : List TSEntry) {s1 s2 : OutState}, outLe s1 s2 →
    outLe (scanTripDest dest oseq trip ostop dep l s1)
      (scanTripDest dest oseq trip ostop dep l s2) := by
  intro l
  induction l with
  | nil => intro s1 s2 h; exact h
  | cons e rest ih =>
    intro s1 s2 h
    simp only [scanTripDest]
    by_cases hseq : e.seq ≤ oseq
    · rw [if_pos hseq, if_pos hseq]
      exact ih h
    · rw [if_neg hseq, if_neg hseq]
      by_cases hd : e.stop ∈ dest
      · cases hg2 : arrLt e.arr s2 with
        | false =>
          have hg1 : arrLt e.arr s1 = false := arrLt_mono_false h hg2
          rw [if_neg (by simp [hg1]), if_neg (by simp [hg2])]
          exact ih h
        | true =>
          cases hg1 : arrLt e.arr s1 with
          | false =>
            rw [if_neg (by simp [hg1]), if_pos (by simp [hd, hg2])]
            obtain ⟨a1, legs1, hs1, ha1⟩ := arrLt_false hg1
            subst hs1
            exact outLe_trans (scanTripDest_le _ _ _ _ _ _ _) ha1
          | true =>
            rw [if_pos (by simp [hd, hg1]), if_pos (by simp [hd, hg2])]
            exact outLe_refl _
      · rw [if_neg (by simp [hd]), if_neg (by simp [hd])]
        exact ih h

theorem scanConnTrip_mono (dest : List String) (cseq : Nat) (ctrip istop : String)
    (cdep : Nat) (leg1 : RawLeg) : ∀ (l : List TSEntry) {s1 s2 : OutState},
    outLe s1 s2 →
    outLe (scanConnTrip dest cseq ctrip istop cdep leg1 l s1)
      (scanConnTrip dest cseq ctrip istop cdep leg1 l s2) := by
  intro l
  induction l with
  | nil => intro s1 s2 h; exact h
  | cons e rest ih =>
    intro s1 s2 h
    simp only [scanConnTrip]
    by_cases hseq : e.seq ≤ cseq
    · rw [if_pos hseq, if_pos hseq]
      exact ih h
    · rw [if_neg hseq, if_neg hseq]
      by_cases hd : e.stop ∈ dest
      · cases hg2 : arrLt e.arr s2 with
        | false =>
          have hg1 : arrLt e.arr s1 = false := arrLt_mono_false h hg2
          rw [if_neg (by simp [hg1]), if_neg (by simp [hg2])]
          exact ih h
        | true =>
          cases hg1 : arrLt e.arr s1 with
          | false =>
            rw [if_neg (by simp [hg1]), if_pos (by simp [hd, hg2])]
            obtain ⟨a1, legs1, hs1, ha1⟩ := arrLt_false hg1
            subst hs1
            exact outLe_trans (scanConnTrip_le _ _ _ _ _ _ _ _) ha1
          | true =>
            rw [if_pos (by simp [hd, hg1]), if_pos (by simp [hd, hg2])]
            exact outLe_refl _
      · rw [if_neg (by simp [hd]), if_neg (by simp [hd])]
        exact ih h

theorem scanConns_mono (R : RouterData) (dest : List String) (trip : String)
    (leg1 : RawLeg) (istop : String) :
    ∀ (l : List DepEntry),
    (∀ c ∈ l, ∀ e ∈ R.tripStopsOf c.trip, c.seq < e.seq → c.dep ≤ e.arr) →
    l.Pairwise (fun a b => a.dep ≤ b.dep) →
    ∀ (k : Nat) {s1 s2 : OutState}, outLe s1 s2 →
    outLe (scanConns R dest trip leg1 istop l k s1)
      (scanConns R dest trip leg1 istop l k s2) := by
  intro l
  induction l with
  | nil => intro _ _ k s1 s2 h; exact h
  | cons c rest ih =>
    intro hconn hsort k s1 s2 h
    cases hg1 : arrLt c.dep s1 with
    | false =>
      obtain ⟨a1, legs1, hs1, ha1⟩ := arrLt_false hg1
      have hL : scanConns R dest trip leg1 istop (c :: rest) k s1 = s1 := by
        simp only [scanConns]
        rw [if_pos hg1]
      rw [hL, hs1]
      refine outLe_of_ok (scanConns_ok ?_ k s2 ?_)
      · intro c2 hc2 hne e he hseq hdst
        have h1 : c2.dep ≤ e.arr := hconn c2 hc2 e he hseq
        have h2 : c.dep ≤ c2.dep := by
          rcases List.mem_cons.1 hc2 with rfl | hc2
          · exact le_refl _
          · exact (List.pairwise_cons.1 hsort).1 c2 hc2
        show a1 ≤ e.arr
        omega
      · rw [hs1] at h
        cases s2 with
        | none => trivial
        | some y => exact h
    | true =>
      cases hg2 : arrLt c.dep s2 with
      | false =>
        rw [arrLt_mono_false h hg2] at hg1
        cases hg1
      | true =>
        have hstep : ∀ s : OutState, arrLt c.dep s = true →
            scanConns R dest trip leg1 istop (c :: rest) k s =
              if (c.trip == trip) = true then scanConns R dest trip leg1 istop rest k s
              else if MAX_CONNECTING_DEPARTURES < k + 1 then s
              else scanConns R dest trip leg1 istop rest (k + 1)
                (scanConnTrip dest c.seq c.trip istop c.dep leg1
                  (R.tripStopsOf c.trip) s) := by
          intro s hg
          simp only [scanConns]
          rw [if_neg (by simp [hg])]
        rw [hstep s1 hg1, hstep s2 hg2]
        by_cases hct : (c.trip == trip) = true
        · rw [if_pos hct, if_pos hct]
          exact ih (fun c2 hc2 => hconn c2 (List.mem_cons_of_mem c hc2))
            (List.pairwise_cons.1 hsort).2 k h
        · rw [if_neg hct, if_neg hct]
          by_cases hcap : MAX_CONNECTING_DEPARTURES < k + 1
          · rw [if_pos hcap, if_pos hcap]
            exact h
          · rw [if_neg hcap, if_neg hcap]
            exact ih (fun c2 hc2 => hconn c2 (List.mem_cons_of_mem c hc2))
              (List.pairwise_cons.1 hsort).2 (k + 1)
              (scanConnTrip_mono _ _ _ _ _ _ _ h)

theorem scanIntermediates_mono {R : RouterData} (hds : DepsSorted R) (hco : CrossOK R)
    (dest : List String) (trip ostop : String) (dep oseq : Nat) :
    ∀ (l : List TSEntry), l.Pairwise (fun a b => a.arr ≤ b.arr) →
    ∀ (k : Nat) {s1 s2 : OutState}, outLe s1 s2 →
    outLe (scanIntermediates R dest trip ostop dep oseq l k s1)
      (scanIntermediates R dest trip ostop dep oseq l k s2) := by
  intro l
  induction l with
  | nil => intro _ k s1 s2 h; exact h
  | cons m rest ih =>
    intro harr k s1 s2 h
    by_cases hseq : m.seq ≤ oseq
    · simp only [scanIntermediates]
      rw [if_pos hseq, if_pos hseq]
      exact ih (List.pairwise_cons.1 harr).2 k h
    · by_cases hdst : dest.contains m.stop = true
      · simp only [scanIntermediates]
        rw [if_neg hseq, if_neg hseq, if_pos hdst, if_pos hdst]
        exact h
      · by_cases hcap : MAX_INTERMEDIATE_STOPS < k + 1
        · simp only [scanIntermediates]
          rw [if_neg hseq, if_neg hseq, if_neg hdst, if_neg hdst, if_pos hcap,
            if_pos hcap]
          exact h
        · cases hg1 : arrLt m.arr s1 with
          | false =>
            obtain ⟨a1, legs1, hs1, ha1⟩ := arrLt_false hg1
            have hL : scanIntermediates R dest trip ostop dep oseq (m :: rest) k s1
                = s1 := by
              simp only [scanIntermediates]
              rw [if_neg hseq, if_neg hdst, if_neg hcap, if_pos hg1]
            rw [hL, hs1]
            refine outLe_of_ok (scanIntermediates_ok ?_ k s2 ?_)
            · intro m2 hm2 hmseq c hc hne e he hcseq hdst2
              have h1 : m.arr ≤ m2.arr := by
                rcases List.mem_cons.1 hm2 with rfl | hm2
                · exact le_refl _
                · exact (List.pairwise_cons.1 harr).1 m2 hm2
              have h2 : m2.arr + MIN_TRANSFER_SECS ≤ c.dep := cutConns_dep_ge hds hc
              have h3 : c.dep ≤ e.arr := depsOf_cross hco (cutConns_subset hc) e he hcseq
              show a1 ≤ e.arr
              omega
            · rw [hs1] at h
              cases s2 with
              | none => trivial
              | some y => exact h
          | true =>
            cases hg2 : arrLt m.arr s2 with
            | false =>
              rw [arrLt_mono_false h hg2] at hg1
              cases hg1
            | true =>
              simp only [scanIntermediates]
              rw [if_neg hseq, if_neg hseq, if_neg hdst, if_neg hdst, if_neg hcap,
                if_neg hcap, if_neg (by simp [hg1]), if_neg (by simp [hg2])]
              refine ih (List.pairwise_cons.1 harr).2 (k + 1) ?_
              refine scanConns_mono _ _ _ _ _ _ ?_ ?_ 0 h
              · intro c hc e he hcseq
                exact depsOf_cross hco (cutConns_subset hc) e he hcseq
              · exact List.Pairwise.sublist (List.drop_sublist _ _) (depsOf_sorted hds _)

theorem scanDepsDirect_mono {R : RouterData} (dest : List String) (ostop : String) :
    ∀ (l : List DepEntry),
    (∀ d ∈ l, ∀ e ∈ R.tripStopsOf d.trip, d.seq < e.seq → d.dep ≤ e.arr) →
    l.Pairwise (fun a b => a.dep ≤ b.dep) →
    ∀ {s1 s2 : OutState}, outLe s1 s2 →
    outLe (scanDepsDirect R dest ostop l s1) (scanDepsDirect R dest ostop l s2) := by
  intro l
  induction l with
  | nil => intro _ _ s1 s2 h; exact h
  | cons d rest ih =>
    intro hcross hsort s1 s2 h
    cases hg1 : arrLt d.dep s1 with
    | false =>
      obtain ⟨a1, legs1, hs1, ha1⟩ := arrLt_false hg1
      have hL : scanDepsDirect R dest ostop (d :: rest) s1 = s1 := by
        simp only [scanDepsDirect]
        rw [if_pos hg1]
      rw [hL, hs1]
      refine outLe_of_ok (scanDepsDirect_ok ?_ s2 ?_)
      · intro d2 hd2 e he hseq hdst
        have h1 : d.dep ≤ d2.dep := by
          rcases List.mem_cons.1 hd2 with rfl | hd2
          · exact le_refl _
          · exact (List.pairwise_cons.1 hsort).1 d2 hd2
        have h2 : d2.dep ≤ e.arr := hcross d2 hd2 e he hseq
        show a1 ≤ e.arr
        omega
      · rw [hs1] at h
        cases s2 with
        | none => trivial
        | some y => exact h
    | true =>
      cases hg2 : arrLt d.dep s2 with
      | false =>
        rw [arrLt_mono_false h hg2] at hg1
        cases hg1
      | true =>
        simp only [scanDepsDirect]
        rw [if_neg (by simp [hg1]), if_neg (by simp [hg2])]
        exact ih (fun d2 hd2 => hcross d2 (List.mem_cons_of_mem d hd2))
          (List.pairwise_cons.1 hsort).2 (scanTripDest_mono _ _ _ _ _ _ h)

theorem scanDepsTransfer_mono {R : RouterData} (hds : DepsSorted R) (hco : CrossOK R)
    (ham : ArrsMono R) (dest : List String) (ostop : String) :
    ∀ (l : List DepEntry),
    (∀ d ∈ l, ∀ e ∈ R.tripStopsOf d.trip, d.seq < e.seq → d.dep ≤ e.arr) →
    l.Pairwise (fun a b => a.dep ≤ b.dep) →
    ∀ {s1 s2 : OutState}, outLe s1 s2 →
    outLe (scanDepsTransfer R dest ostop l s1) (scanDepsTransfer R dest ostop l s2) := by
  intro l
  induction l with
  | nil => intro _ _ s1 s2 h; exact h
  | cons d rest ih =>
    intro hcross hsort s1 s2 h
    cases hg1 : arrLt d.dep s1 with
    | false =>
      obtain ⟨a1, legs1, hs1, ha1⟩ := arrLt_false hg1
      have hL : scanDepsTransfer R dest ostop (d :: rest) s1 = s1 := by
        simp only [scanDepsTransfer]
        rw [if_pos hg1]
      rw [hL, hs1]
      refine outLe_of_ok (scanDepsTransfer_ok ?_ s2 ?_)
      · intro d2 hd2 m hm hmseq c hc hne e he hcseq hdst
        have h1 : d.dep ≤ d2.dep := by
          rcases List.mem_cons.1 hd2 with rfl | hd2
          · exact le_refl _
          · exact (List.pairwise_cons.1 hsort).1 d2 hd2
        have h2 : d2.dep ≤ m.arr := hcross d2 hd2 m hm hmseq
        have h3 : m.arr + MIN_TRANSFER_SECS ≤ c.dep := cutConns_dep_ge hds hc
        have h4 : c.dep ≤ e.arr := depsOf_cross hco (cutConns_subset hc) e he hcseq
        show a1 ≤ e.arr
        omega
      · rw [hs1] at h
        cases s2 with
        | none => trivial
        | some y => exact h
    | true =>
      cases hg2 : arrLt d.dep s2 with
      | false =>
        rw [arrLt_mono_false h hg2] at hg1
        cases hg1
      | true =>
        simp only [scanDepsTransfer]
        rw [if_neg (by simp [hg1]), if_neg (by simp [hg2])]
        exact ih (fun d2 hd2 => hcross d2 (List.mem_cons_of_mem d hd2))
          (List.pairwise_cons.1 hsort).2
          (scanIntermediates_mono hds hco _ _ _ _ _ _
            (tripStopsOf_arrsMono ham d.trip) 0 h)

theorem scanDepsDirect_extend {R : RouterData} (dest : List String) (ostop : String) :
    ∀ (mid l2 : List DepEntry),
    (∀ d ∈ mid ++ l2, ∀ e ∈ R.tripStopsOf d.trip, d.seq < e.seq → d.dep ≤ e.arr) →
    (mid ++ l2).Pairwise (fun a b => a.dep ≤ b.dep) →
    ∀ (s : OutState),
    outLe (scanDepsDirect R dest ostop (mid ++ l2) s)
      (scanDepsDirect R dest ostop l2 s) := by
  intro mid
  induction mid with
  | nil =>
    intro l2 _ _ s
    simp only [List.nil_append]
    exact outLe_refl _
  | cons d mid2 ih =>
    intro l2 hcross hsort s
    simp only [List.cons_append] at hcross hsort ⊢
    cases hg : arrLt d.dep s with
    | false =>
      obtain ⟨a, legs, hs, ha⟩ := arrLt_false hg
      have hL : scanDepsDirect R dest ostop (d :: (mid2 ++ l2)) s = s := by
        simp only [scanDepsDirect]
        rw [if_pos hg]
      have hR : scanDepsDirect R dest ostop l2 s = s := by
        rw [hs]
        refine scanDepsDirect_stop ?_
        intro d2 hd2
        have h1 : d.dep ≤ d2.dep :=
          (List.pairwise_cons.1 hsort).1 d2 (List.mem_append_right mid2 hd2)
        omega
      rw [hL, hR]
      exact outLe_refl _
    | true =>
      have hL : scanDepsDirect R dest ostop (d :: (mid2 ++ l2)) s =
          scanDepsDirect R dest ostop (mid2 ++ l2)
            (scanTripDest dest d.seq d.trip ostop d.dep (R.tripStopsOf d.trip) s) := by
        simp only [scanDepsDirect]
        rw [if_neg (by simp [hg])]
      rw [hL]
      refine outLe_trans
        (ih l2 (fun d2 hd2 => hcross d2 (List.mem_cons_of_mem d hd2))
          (List.pairwise_cons.1 hsort).2 _) ?_
      refine scanDepsDirect_mono dest ostop l2 ?_ ?_ (scanTripDest_le _ _ _ _ _ _ _)
      · intro d2 hd2
        exact hcross d2 (List.mem_cons_of_mem d (List.mem_append_right mid2 hd2))
      · exact List.Pairwise.sublist (List.sublist_append_right mid2 l2)
          (List.pairwise_cons.1 hsort).2

theorem scanDepsTransfer_extend {R : RouterData} (hds : DepsSorted R) (hco : CrossOK R)
    (ham : ArrsMono R) (dest : List String) (ostop : String) :
    ∀ (mid l2 : List DepEntry),
    (∀ d ∈ mid ++ l2, ∀ e ∈ R.tripStopsOf d.trip, d.seq < e.seq → d.dep ≤ e.arr) →
    (mid ++ l2).Pairwise (fun a b => a.dep ≤ b.dep) →
    ∀ (s : OutState),
    outLe (scanDepsTransfer R dest ostop (mid ++ l2) s)
      (scanDepsTransfer R dest ostop l2 s) := by
  intro mid
  induction mid with
  | nil =>
    intro l2 _ _ s
    simp only [List.nil_append]
    exact outLe_refl _
  | cons d mid2 ih =>
    intro l2 hcross hsort s
    simp only [List.cons_append] at hcross hsort ⊢
    cases hg : arrLt d.dep s with
    | false =>
      obtain ⟨a, legs, hs, ha⟩ := arrLt_false hg
      have hL : scanDepsTransfer R dest ostop (d :: (mid2 ++ l2)) s = s := by
        simp only [scanDepsTransfer]
        rw [if_pos hg]
      have hR : scanDepsTransfer R dest ostop l2 s = s := by
        rw [hs]
        refine scanDepsTransfer_stop ?_
        intro d2 hd2
        have h1 : d.dep ≤ d2.dep :=
          (List.pairwise_cons.1 hsort).1 d2 (List.mem_append_right mid2 hd2)
        omega
      rw [hL, hR]
      exact outLe_refl _
    | true =>
      have hL : scanDepsTransfer R dest ostop (d :: (mid2 ++ l2)) s =
          scanDepsTransfer R dest ostop (mid2 ++ l2)
            (scanIntermediates R dest d.trip ostop d.dep d.seq
              (R.tripStopsOf d.trip) 0 s) := by
        simp only [scanDepsTransfer]
        rw [if_neg (by simp [hg])]
      rw [hL]
      refine outLe_trans
        (ih l2 (fun d2 hd2 => hcross d2 (List.mem_cons_of_mem d hd2))
          (List.pairwise_cons.1 hsort).2 _) ?_
      refine scanDepsTransfer_mono hds hco ham dest ostop l2 ?_ ?_
        (scanIntermediates_le _ _ _ _ _ _ _ _ _)
      · intro d2 hd2
        exact hcross d2 (List.mem_cons_of_mem d (List.mem_append_right mid2 hd2))
      · exact List.Pairwise.sublist (List.sublist_append_right mid2 l2)
          (List.pairwise_cons.1 hsort).2

theorem outPhase1_mono {R : RouterData} (hds : DepsSorted R) (hco : CrossOK R)
    {dest : List String} {E1 E2 : Nat} (hE : E1 ≤ E2) :
    ∀ (os : List String) {s1 s2 : OutState}, outLe s1 s2 →
    outLe (outPhase1 R os dest E1 s1) (outPhase1 R os dest E2 s2) := by
  intro os
  induction os with
  | nil => intro s1 s2 h; exact h
  | cons o t ih =>
    intro s1 s2 h
    simp only [outPhase1, List.foldl_cons]
    refine ih ?_
    show outLe
      (scanDepsDirect R dest o ((R.depsOf o).drop
        (bisect_left ((R.depsOf o).map (·.dep)) E1)) s1)
      (scanDepsDirect R dest o ((R.depsOf o).drop
        (bisect_left ((R.depsOf o).map (·.dep)) E2)) s2)
    have hij : bisect_left ((R.depsOf o).map (·.dep)) E1 ≤
        bisect_left ((R.depsOf o).map (·.dep)) E2 := bisect_left_mono _ hE
    have hsort1 : ((R.depsOf o).drop
        (bisect_left ((R.depsOf o).map (·.dep)) E1)).Pairwise
        (fun a b => a.dep ≤ b.dep) :=
      List.Pairwise.sublist (List.drop_sublist _ _) (depsOf_sorted hds o)
    have hcross1 : ∀ d ∈ (R.depsOf o).drop
        (bisect_left ((R.depsOf o).map (·.dep)) E1),
        ∀ e ∈ R.tripStopsOf d.trip, d.seq < e.seq → d.dep ≤ e.arr :=
      fun d hd => depsOf_cross hco (List.mem_of_mem_drop hd)
    have hdec := drop_eq_append_drop (R.depsOf o) hij
    rw [hdec] at hsort1 hcross1 ⊢
    exact outLe_trans
      (scanDepsDirect_mono dest o _ hcross1 hsort1 h)
      (scanDepsDirect_extend dest o _ _ hcross1 hsort1 s2)

theorem outPhase2_mono {R : RouterData} (hds : DepsSorted R) (hco : CrossOK R)
    (ham : ArrsMono R) {dest : List String} {E1 E2 : Nat} (hE : E1 ≤ E2) :
    ∀ (os : List String) {s1 s2 : OutState}, outLe s1 s2 →
    outLe (outPhase2 R os dest E1 s1) (outPhase2 R os dest E2 s2) := by
  intro os
  induction os with
  | nil => intro s1 s2 h; exact h
  | cons o t ih =>
    intro s1 s2 h
    simp only [outPhase2, List.foldl_cons]
    refine ih ?_
    show outLe
      (scanDepsTransfer R dest o ((R.depsOf o).drop
        (bisect_left ((R.depsOf o).map (·.dep)) E1)) s1)
      (scanDepsTransfer R dest o ((R.depsOf o).drop
        (bisect_left ((R.depsOf o).map (·.dep)) E2)) s2)
    have hij : bisect_left ((R.depsOf o).map (·.dep)) E1 ≤
        bisect_left ((R.depsOf o).map (·.dep)) E2 := bisect_left_mono _ hE
    have hsort1 : ((R.depsOf o).drop
        (bisect_left ((R.depsOf o).map (·.dep)) E1)).Pairwise
        (fun a b => a.dep ≤ b.dep) :=
      List.Pairwise.sublist (List.drop_sublist _ _) (depsOf_sorted hds o)
    have hcross1 : ∀ d ∈ (R.depsOf o).drop
        (bisect_left ((R.depsOf o).map (·.dep)) E1),
        ∀ e ∈ R.tripStopsOf d.trip, d.seq < e.seq → d.dep ≤ e.arr :=
      fun d hd => depsOf_cross hco (List.mem_of_mem_drop hd)
    have hdec := drop_eq_append_drop (R.depsOf o) hij
    rw [hdec] at hsort1 hcross1 ⊢
    exact outLe_trans
      (scanDepsTransfer_mono hds hco ham dest o _ hcross1 hsort1 h)
      (scanDepsTransfer_extend hds hco ham dest o _ _ hcross1 hsort1 s2)

/-- The arrival time of an itinerary: `arr_secs` of its last leg (the value
the Python docstring calls the arrival used for comparison). -/
def lastArr (legs : List RawLeg) : Option Nat := legs.getLast?.map (·.arrSecs)

theorem outState_lastArr (R : RouterData) (originStops dest : List String) (E : Nat) :
    outStateOK (fun y : Nat × List RawLeg => lastArr y.2 = some y.1)
      (outPhase2 R originStops dest E (outPhase1 R originStops dest E none)) := by
  refine outPhase2_ok ?_ _ (outPhase1_ok ?_ none trivial)
  · intro o ho d hd m hm hmseq c hc hct e he hcseq hdst
    simp [lastArr]
  · intro o ho d hd e he hseq hdst
    simp [lastArr]

/-- C3: `find_outbound` is monotone in the earliest-departure bound.
Under the data-model invariants of spec §3 (departure lists sorted by
time; per-trip times consistent with boarding departures; arrivals
non-decreasing along a trip), if the router returns an itinerary for
`earliest_departure_secs = E2`, then for every `E1 ≤ E2` it also returns
an itinerary, whose arrival time is no later. -/
theorem C3_outbound_monotone {R : RouterData} {originStops dest : List String}
    {E1 E2 : Nat} {legs2 : List RawLeg}
    (hds : DepsSorted R) (hco : CrossOK R) (ham : ArrsMono R) (hE : E1 ≤ E2)
    (h2 : find_outbound R originStops dest E2 = some legs2) :
    ∃ legs1 a1 a2, find_outbound R originStops dest E1 = some legs1 ∧
      lastArr legs1 = some a1 ∧ lastArr legs2 = some a2 ∧ a1 ≤ a2 := by
  have hmono : outLe
      (outPhase2 R originStops dest E1 (outPhase1 R originStops dest E1 none))
      (outPhase2 R originStops dest E2 (outPhase1 R originStops dest E2 none)) :=
    outPhase2_mono hds hco ham hE originStops
      (outPhase1_mono hds hco hE originStops (outLe_refl none))
  have hP1 := outState_lastArr R originStops dest E1
  have hP2 := outState_lastArr R originStops dest E2
  unfold find_outbound at h2 ⊢
  cases hst2 : outPhase2 R originStops dest E2 (outPhase1 R originStops dest E2 none) with
  | none =>
    rw [hst2] at h2
    simp at h2
  | some x2 =>
    rw [hst2] at h2 hmono hP2
    cases hst1 : outPhase2 R originStops dest E1
        (outPhase1 R originStops dest E1 none) with
    | none =>
      rw [hst1] at hmono
      exact hmono.elim
    | some x1 =>
      rw [hst1] at hmono hP1
      simp only [Option.map_some', Option.some.injEq] at h2
      refine ⟨x1.2, x1.1, x2.1, ?_, hP1, ?_, hmono⟩
      · simp
      · rw [← h2]
        exact hP2

/-- Witness for C3 at `exStore`: lowering the bound from 25200 to 21600
still returns an itinerary arriving no later. -/
theorem C3_witness :
    ∃ legs1 a1 a2, find_outbound exStore ["A"] ["T"] 21600 = some legs1 ∧
      lastArr legs1 = some a1 ∧
      lastArr [(⟨"g1", "A", 25200, "T", 27000⟩ : RawLeg)] = some a2 ∧ a1 ≤ a2 :=
  C3_outbound_monotone (by decide) (by decide) (by decide) (by decide)
    (by with_unfolding_all rfl :
      find_outbound exStore ["A"] ["T"] 25200 =
        some [⟨"g1", "A", 25200, "T", 27000⟩])

/-! ### C4: monotonicity of `find_return` in the deadline -/

/-- Ordering on return search states: `retLe s t` reads "`t` is at least
as good (departs no earlier) as `s`"; `none` is the `-1` sentinel. -/
def retLe : RetState → RetState → Prop
  | none, _ => True
  | some _, none => False
  | some x, some y => x.1 ≤ y.1

theorem retLe_refl : ∀ s : RetState, retLe s s
  | none => trivial
  | some _ => le_refl _

theorem retLe_trans : ∀ {s t u : RetState}, retLe s t → retLe t u → retLe s u := by
  intro s t u h1 h2
  cases s with
  | none => trivial
  | some x =>
    cases t with
    | none => exact h1.elim
    | some y =>
      cases u with
      | none => exact h2.elim
      | some z => exact le_trans h1 h2

theorem depGt_false {x : Nat} {s : RetState} (h : depGt x s = false) :
    ∃ b legs, s = some (b, legs) ∧ x ≤ b := by
  cases s with
  | none => simp [depGt] at h
  | some y =>
    obtain ⟨b, legs⟩ := y
    refine ⟨b, legs, rfl, ?_⟩
    simp [depGt] at h
    omega

theorem depGt_mono_false {x : Nat} {s t : RetState} (hst : retLe s t)
    (h : depGt x s = false) : depGt x t = false := by
  obtain ⟨b, legs, rfl, hb⟩ := depGt_false h
  cases t with
  | none => exact hst.elim
  | some y =>
    obtain ⟨c, l2⟩ := y
    have hbc : b ≤ c := hst
    simp [depGt]
    omega

theorem retLe_some_of_depGt {x : Nat} {legs : List RawLeg} {s : RetState}
    (h : depGt x s = true) : retLe s (some (x, legs)) := by
  cases s with
  | none => trivial
  | some y =>
    obtain ⟨b, l⟩ := y
    simp [depGt] at h
    exact le_of_lt h

theorem retLe_of_ub {b : Nat} {legs : List RawLeg} {t : RetState}
    (h : retStateOK (fun y => y.1 ≤ b) t) : retLe t (some (b, legs)) := by
  cases t with
  | none => trivial
  | some y => exact h

theorem scanRetTripDirect_ge (origins : List String) (tseq : Nat) (trip tstop : String)
    (dep deadline : Nat) : ∀ (l : List TSEntry) (s : RetState),
    retLe s (scanRetTripDirect origins tseq trip tstop dep deadline l s) := by
  intro l
  induction l with
  | nil => intro s; exact retLe_refl s
  | cons e rest ih =>
    intro s
    simp only [scanRetTripDirect]
    split
    · exact ih s
    · split
      · split
        · rename_i hg
          exact retLe_some_of_depGt hg
        · exact retLe_refl s
      · exact ih s

theorem scanRetDepsDirect_ge (R : RouterData) (origins : List String) (tstop : String)
    (deadline : Nat) : ∀ (l : List DepEntry) (k : Nat) (s : RetState),
    retLe s (scanRetDepsDirect R origins tstop deadline l k s) := by
  intro l
  induction l with
  | nil => intro k s; exact retLe_refl s
  | cons d rest ih =>
    intro k s
    simp only [scanRetDepsDirect]
    split
    · exact ih k s
    · split
      · exact retLe_refl s
      · split
        · exact retLe_refl s
        · exact retLe_trans (scanRetTripDirect_ge _ _ _ _ _ _ _ s) (ih _ _)

theorem scanRetConnTrip_ge (origins : List String) (cseq : Nat) (ctrip istop : String)
    (cdep outerDep deadline : Nat) (leg1 : RawLeg) :
    ∀ (l : List TSEntry) (s : RetState),
    retLe s (scanRetConnTrip origins cseq ctrip istop cdep outerDep deadline leg1 l s) := by
  intro l
  induction l with
  | nil => intro s; exact retLe_refl s
  | cons e rest ih =>
    intro s
    simp only [scanRetConnTrip]
    split
    · exact ih s
    · split
      · split
        · rename_i hg
          exact retLe_some_of_depGt hg
        · exact retLe_refl s
      · exact ih s

theorem scanRetConns_ge (R : RouterData) (origins : List String) (trip : String)
    (leg1 : RawLeg) (istop : String) (outerDep deadline : Nat) :
    ∀ (l : List DepEntry) (k : Nat) (s : RetState),
    retLe s (scanRetConns R origins trip leg1 istop outerDep deadline l k s) := by
  intro l
  induction l with
  | nil => intro k s; exact retLe_refl s
  | cons c rest ih =>
    intro k s
    simp only [scanRetConns]
    split
    · exact retLe_refl s
    · split
      · exact ih k s
      · split
        · exact retLe_refl s
        · exact retLe_trans (scanRetConnTrip_ge _ _ _ _ _ _ _ _ _ s) (ih _ _)

theorem scanRetIntermediates_ge (R : RouterData) (origins : List String)
    (trip tstop : String) (dep tseq deadline : Nat) :
    ∀ (l : List TSEntry) (k : Nat) (s : RetState),
    retLe s (scanRetIntermediates R origins trip tstop dep tseq deadline l k s) := by
  intro l
  induction l with
  | nil => intro k s; exact retLe_refl s
  | cons m rest ih =>
    intro k s
    simp only [scanRetIntermediates]
    split
    · exact ih k s
    · split
      · exact retLe_refl s
      · split
        · exact retLe_refl s
        · split
          · exact retLe_refl s
          · exact retLe_trans (scanRetConns_ge _ _ _ _ _ _ _ _ _ s) (ih _ _)

theorem scanRetDepsTransfer_ge (R : RouterData) (origins : List String) (tstop : String)
    (deadline : Nat) : ∀ (l : List DepEntry) (k : Nat) (s : RetState),
    retLe s (scanRetDepsTransfer R origins tstop deadline l k s) := by
  intro l
  induction l with
  | nil => intro k s; exact retLe_refl s
  | cons d rest ih =>
    intro k s
    simp only [scanRetDepsTransfer]
    split
    · exact ih k s
    · split
      · exact retLe_refl s
      · split
        · exact retLe_refl s
        · exact retLe_trans (scanRetIntermediates_ge _ _ _ _ _ _ _ _ _ s) (ih _ _)

theorem scanRetTripDirect_cases (origins : List String) (tseq : Nat)
    (trip tstop : String) (dep deadline : Nat) :
    ∀ (l : List TSEntry) (s : RetState),
    scanRetTripDirect origins tseq trip tstop dep deadline l s = s ∨
    ∃ legs, scanRetTripDirect origins tseq trip tstop dep deadline l s =
      some (dep, legs) := by
  intro l
  induction l with
  | nil => intro s; exact Or.inl rfl
  | cons e rest ih =>
    intro s
    simp only [scanRetTripDirect]
    split
    · exact ih s
    · split
      · split
        · exact Or.inr ⟨_, rfl⟩
        · exact Or.inl rfl
      · exact ih s

theorem scanRetConnTrip_cases (origins : List String) (cseq : Nat)
    (ctrip istop : String) (cdep outerDep deadline : Nat) (leg1 : RawLeg) :
    ∀ (l : List TSEntry) (s : RetState),
    scanRetConnTrip origins cseq ctrip istop cdep outerDep deadline leg1 l s = s ∨
    ∃ legs, scanRetConnTrip origins cseq ctrip istop cdep outerDep deadline leg1 l s =
      some (outerDep, legs) := by
  intro l
  induction l with
  | nil => intro s; exact Or.inl rfl
  | cons e rest ih =>
    intro s
    simp only [scanRetConnTrip]
    split
    · exact ih s
    · split
      · split
        · exact Or.inr ⟨_, rfl⟩
        · exact Or.inl rfl
      · exact ih s

theorem scanRetTripDirect_mono (origins : List String) (tseq : Nat)
    (trip tstop : String) (dep : Nat) {D2 D1 : Nat} (hD : D2 ≤ D1) :
    ∀ (l : List TSEntry) {sLo sHi : RetState}, retLe sLo sHi →
    retLe (scanRetTripDirect origins tseq trip tstop dep D2 l sLo)
      (scanRetTripDirect origins tseq trip tstop dep D1 l sHi) := by
  intro l
  induction l with
  | nil => intro sLo sHi h; exact h
  | cons e rest ih =>
    intro sLo sHi h
    simp only [scanRetTripDirect]
    by_cases hseq : e.seq ≤ tseq
    · rw [if_pos hseq, if_pos hseq]
      exact ih h
    · rw [if_neg hseq, if_neg hseq]
      by_cases hor : e.stop ∈ origins
      · by_cases harr2 : e.arr ≤ D2
        · have hc2 : (origins.contains e.stop && decide (e.arr ≤ D2)) = true := by
            simp [hor, harr2]
          have hc1 : (origins.contains e.stop && decide (e.arr ≤ D1)) = true := by
            simp [hor]
            omega
          rw [if_pos hc2, if_pos hc1]
          cases hgLo : depGt dep sLo with
          | false =>
            have hgHi2 : ¬ depGt dep sHi = true := by
              simp [depGt_mono_false h hgLo]
            rw [if_neg (show ¬ false = true by simp), if_neg hgHi2]
            exact h
          | true =>
            rw [if_pos (show true = true from rfl)]
            cases hgHi : depGt dep sHi with
            | false =>
              rw [if_neg (show ¬ false = true by simp)]
              obtain ⟨bHi, legsHi, rfl, hb⟩ := depGt_false hgHi
              exact hb
            | true =>
              rw [if_pos (show true = true from rfl)]
              exact le_refl _
        · have hc2 : ¬ (origins.contains e.stop && decide (e.arr ≤ D2)) = true := by
            simp [harr2]
          rw [if_neg hc2]
          by_cases harr1 : e.arr ≤ D1
          · have hc1 : (origins.contains e.stop && decide (e.arr ≤ D1)) = true := by
              simp [hor, harr1]
            rw [if_pos hc1]
            rcases scanRetTripDirect_cases origins tseq trip tstop dep D2 rest sLo
              with hc | ⟨legs, hc⟩
            · rw [hc]
              cases hgHi : depGt dep sHi with
              | false =>
                rw [if_neg (show ¬ false = true by simp)]
                exact h
              | true =>
                rw [if_pos (show true = true from rfl)]
                exact retLe_trans h (retLe_some_of_depGt hgHi)
            · rw [hc]
              cases hgHi : depGt dep sHi with
              | false =>
                rw [if_neg (show ¬ false = true by simp)]
                obtain ⟨bHi, legsHi, rfl, hb⟩ := depGt_false hgHi
                exact hb
              | true =>
                rw [if_pos (show true = true from rfl)]
                exact le_refl _
          · have hc1 : ¬ (origins.contains e.stop && decide (e.arr ≤ D1)) = true := by
              simp [harr1]
            rw [if_neg hc1]
            exact ih h
      · have hc2 : ¬ (origins.contains e.stop && decide (e.arr ≤ D2)) = true := by
          simp [hor]
        have hc1 : ¬ (origins.contains e.stop && decide (e.arr ≤ D1)) = true := by
          simp [hor]
        rw [if_neg hc2, if_neg hc1]
        exact ih h

theorem scanRetConnTrip_mono (origins : List String) (cseq : Nat)
    (ctrip istop : String) (cdep outerDep : Nat) (leg1 : RawLeg) {D2 D1 : Nat}
    (hD : D2 ≤ D1) :
    ∀ (l : List TSEntry) {sLo sHi : RetState}, retLe sLo sHi →
    retLe (scanRetConnTrip origins cseq ctrip istop cdep outerDep D2 leg1 l sLo)
      (scanRetConnTrip origins cseq ctrip istop cdep outerDep D1 leg1 l sHi) := by
  intro l
  induction l with
  | nil => intro sLo sHi h; exact h
  | cons e rest ih =>
    intro sLo sHi h
    simp only [scanRetConnTrip]
    by_cases hseq : e.seq ≤ cseq
    · rw [if_pos hseq, if_pos hseq]
      exact ih h
    · rw [if_neg hseq, if_neg hseq]
      by_cases hor : e.stop ∈ origins
      · by_cases harr2 : e.arr ≤ D2
        · have hc2 : (origins.contains e.stop && decide (e.arr ≤ D2)) = true := by
            simp [hor, harr2]
          have hc1 : (origins.contains e.stop && decide (e.arr ≤ D1)) = true := by
            simp [hor]
            omega
          rw [if_pos hc2, if_pos hc1]
          cases hgLo : depGt outerDep sLo with
          | false =>
            have hgHi2 : ¬ depGt outerDep sHi = true := by
              simp [depGt_mono_false h hgLo]
            rw [if_neg (show ¬ false = true by simp), if_neg hgHi2]
            exact h
          | true =>
            rw [if_pos (show true = true from rfl)]
            cases hgHi : depGt outerDep sHi with
            | false =>
              rw [if_neg (show ¬ false = true by simp)]
              obtain ⟨bHi, legsHi, rfl, hb⟩ := depGt_false hgHi
              exact hb
            | true =>
              rw [if_pos (show true = true from rfl)]
              exact le_refl _
        · have hc2 : ¬ (origins.contains e.stop && decide (e.arr ≤ D2)) = true := by
            simp [harr2]
          rw [if_neg hc2]
          by_cases harr1 : e.arr ≤ D1
          · have hc1 : (origins.contains e.stop && decide (e.arr ≤ D1)) = true := by
              simp [hor, harr1]
            rw [if_pos hc1]
            rcases scanRetConnTrip_cases origins cseq ctrip istop cdep outerDep D2
              leg1 rest sLo with hc | ⟨legs, hc⟩
            · rw [hc]
              cases hgHi : depGt outerDep sHi with
              | false =>
                rw [if_neg (show ¬ false = true by simp)]
                exact h
              | true =>
                rw [if_pos (show true = true from rfl)]
                exact retLe_trans h (retLe_some_of_depGt hgHi)
            · rw [hc]
              cases hgHi : depGt outerDep sHi with
              | false =>
                rw [if_neg (show ¬ false = true by simp)]
                obtain ⟨bHi, legsHi, rfl, hb⟩ := depGt_false hgHi
                exact hb
              | true =>
                rw [if_pos (show true = true from rfl)]
                exact le_refl _
          · have hc1 : ¬ (origins.contains e.stop && decide (e.arr ≤ D1)) = true := by
              simp [harr1]
            rw [if_neg hc1]
            exact ih h
      · have hc2 : ¬ (origins.contains e.stop && decide (e.arr ≤ D2)) = true := by
          simp [hor]
        have hc1 : ¬ (origins.contains e.stop && decide (e.arr ≤ D1)) = true := by
          simp [hor]
        rw [if_neg hc2, if_neg hc1]
        exact ih h

theorem scanRetConns_mono {R : RouterData} (origins : List String) (trip : String)
    (leg1 : RawLeg) (istop : String) (outerDep : Nat) {D2 D1 : Nat} (hD : D2 ≤ D1) :
    ∀ (l : List DepEntry) (k : Nat) {sLo sHi : RetState}, retLe sLo sHi →
    retLe (scanRetConns R origins trip leg1 istop outerDep D2 l k sLo)
      (scanRetConns R origins trip leg1 istop outerDep D1 l k sHi) := by
  intro l
  induction l with
  | nil => intro k sLo sHi h; exact h
  | cons c rest ih =>
    intro k sLo sHi h
    by_cases h2 : D2 < c.dep
    · have hL : scanRetConns R origins trip leg1 istop outerDep D2 (c :: rest) k sLo
          = sLo := by
        simp only [scanRetConns]
        rw [if_pos h2]
      rw [hL]
      exact retLe_trans h (scanRetConns_ge _ _ _ _ _ _ _ _ _ sHi)
    · have h1 : ¬ D1 < c.dep := by omega
      simp only [scanRetConns]
      rw [if_neg h2, if_neg h1]
      by_cases hct : (c.trip == trip) = true
      · rw [if_pos hct, if_pos hct]
        exact ih k h
      · rw [if_neg hct, if_neg hct]
        by_cases hcap : MAX_CONNECTING_DEPARTURES < k + 1
        · rw [if_pos hcap, if_pos hcap]
          exact h
        · rw [if_neg hcap, if_neg hcap]
          exact ih (k + 1) (scanRetConnTrip_mono _ _ _ _ _ _ _ hD _ h)

theorem scanRetIntermediates_mono {R : RouterData} (origins : List String)
    (trip tstop : String) (dep tseq : Nat) {D2 D1 : Nat} (hD : D2 ≤ D1) :
    ∀ (l : List TSEntry) (k : Nat) {sLo sHi : RetState}, retLe sLo sHi →
    retLe (scanRetIntermediates R origins trip tstop dep tseq D2 l k sLo)
      (scanRetIntermediates R origins trip tstop dep tseq D1 l k sHi) := by
  intro l
  induction l with
  | nil => intro k sLo sHi h; exact h
  | cons m rest ih =>
    intro k sLo sHi h
    by_cases hseq : m.seq ≤ tseq
    · simp only [scanRetIntermediates]
      rw [if_pos hseq, if_pos hseq]
      exact ih k h
    · by_cases hor : origins.contains m.stop = true
      · simp only [scanRetIntermediates]
        rw [if_neg hseq, if_neg hseq, if_pos hor, if_pos hor]
        exact h
      · by_cases hcap : MAX_INTERMEDIATE_STOPS < k + 1
        · simp only [scanRetIntermediates]
          rw [if_neg hseq, if_neg hseq, if_neg hor, if_neg hor, if_pos hcap,
            if_pos hcap]
          exact h
        · by_cases harr2 : D2 < m.arr
          · have hL : scanRetIntermediates R origins trip tstop dep tseq D2
                (m :: rest) k sLo = sLo := by
              simp only [scanRetIntermediates]
              rw [if_neg hseq, if_neg hor, if_neg hcap, if_pos harr2]
            rw [hL]
            exact retLe_trans h (scanRetIntermediates_ge _ _ _ _ _ _ _ _ _ sHi)
          · have harr1 : ¬ D1 < m.arr := by omega
            simp only [scanRetIntermediates]
            rw [if_neg hseq, if_neg hseq, if_neg hor, if_neg hor, if_neg hcap,
              if_neg hcap, if_neg harr2, if_neg harr1]
            exact ih (k + 1) (scanRetConns_mono _ _ _ _ _ hD _ 0 h)

theorem scanRetDepsDirect_mono {R : RouterData} (origins : List String)
    (tstop : String) {D2 D1 : Nat} (hD : D2 ≤ D1) :
    ∀ (l : List DepEntry), l.Pairwise (fun a b => b.dep ≤ a.dep) →
    ∀ (kLo kHi : Nat), kLo + l.length ≤ MAX_RETURN_DEPARTURES →
    kHi + l.length ≤ MAX_RETURN_DEPARTURES →
    ∀ {sLo sHi : RetState}, retLe sLo sHi →
    retLe (scanRetDepsDirect R origins tstop D2 l kLo sLo)
      (scanRetDepsDirect R origins tstop D1 l kHi sHi) := by
  intro l
  induction l with
  | nil => intro _ kLo kHi _ _ sLo sHi h; exact h
  | cons d rest ih =>
    intro hsort kLo kHi hkLo hkHi sLo sHi h
    have hlen : (d :: rest).length = rest.length + 1 := by simp
    have hcapLo : ¬ MAX_RETURN_DEPARTURES < kLo + 1 := by
      rw [hlen] at hkLo
      omega
    have hcapHi : ¬ MAX_RETURN_DEPARTURES < kHi + 1 := by
      rw [hlen] at hkHi
      omega
    by_cases hd2 : D2 < d.dep
    · have hL : scanRetDepsDirect R origins tstop D2 (d :: rest) kLo sLo =
          scanRetDepsDirect R origins tstop D2 rest kLo sLo := by
        simp only [scanRetDepsDirect]
        rw [if_pos hd2]
      rw [hL]
      by_cases hd1 : D1 < d.dep
      · have hR : scanRetDepsDirect R origins tstop D1 (d :: rest) kHi sHi =
            scanRetDepsDirect R origins tstop D1 rest kHi sHi := by
          simp only [scanRetDepsDirect]
          rw [if_pos hd1]
        rw [hR]
        exact ih (List.pairwise_cons.1 hsort).2 kLo kHi (by rw [hlen] at hkLo; omega)
          (by rw [hlen] at hkHi; omega) h
      · cases hgHi : depGt d.dep sHi with
        | false =>
          have hR : scanRetDepsDirect R origins tstop D1 (d :: rest) kHi sHi
              = sHi := by
            simp only [scanRetDepsDirect]
            rw [if_neg hd1, if_pos hgHi]
          rw [hR]
          obtain ⟨bHi, legsHi, hsHi, hb⟩ := depGt_false hgHi
          rw [hsHi]
          refine retLe_of_ub (scanRetDepsDirect_ok ?_ kLo sLo ?_)
          · intro d2 hd2m hdep e he hseq hor harr
            have hle : d2.dep ≤ d.dep := (List.pairwise_cons.1 hsort).1 d2 hd2m
            show d2.dep ≤ bHi
            omega
          · rw [hsHi] at h
            cases sLo with
            | none => trivial
            | some y => exact h
        | true =>
          have hR : scanRetDepsDirect R origins tstop D1 (d :: rest) kHi sHi =
              scanRetDepsDirect R origins tstop D1 rest (kHi + 1)
                (scanRetTripDirect origins d.seq d.trip tstop d.dep D1
                  (R.tripStopsOf d.trip) sHi) := by
            simp only [scanRetDepsDirect]
            rw [if_neg hd1, if_neg (show ¬ depGt d.dep sHi = false by simp [hgHi]),
              if_neg hcapHi]
          rw [hR]
          refine ih (List.pairwise_cons.1 hsort).2 kLo (kHi + 1)
            (by rw [hlen] at hkLo; omega) (by rw [hlen] at hkHi; omega) ?_
          exact retLe_trans h (scanRetTripDirect_ge _ _ _ _ _ _ _ sHi)
    · have hd1 : ¬ D1 < d.dep := by omega
      cases hgLo : depGt d.dep sLo with
      | false =>
        have hgHi := depGt_mono_false h hgLo
        have hL : scanRetDepsDirect R origins tstop D2 (d :: rest) kLo sLo
            = sLo := by
          simp only [scanRetDepsDirect]
          rw [if_neg hd2, if_pos hgLo]
        have hR : scanRetDepsDirect R origins tstop D1 (d :: rest) kHi sHi
            = sHi := by
          simp only [scanRetDepsDirect]
          rw [if_neg hd1, if_pos hgHi]
        rw [hL, hR]
        exact h
      | true =>
        cases hgHi : depGt d.dep sHi with
        | false =>
          obtain ⟨bHi, legsHi, hsHi, hb⟩ := depGt_false hgHi
          have hR : scanRetDepsDirect R origins tstop D1 (d :: rest) kHi sHi
              = sHi := by
            simp only [scanRetDepsDirect]
            rw [if_neg hd1, if_pos hgHi]
          rw [hR, hsHi]
          refine retLe_of_ub (scanRetDepsDirect_ok ?_ kLo sLo ?_)
          · intro d2 hd2m hdep e he hseq hor harr
            have hle : d2.dep ≤ d.dep := by
              rcases List.mem_cons.1 hd2m with rfl | hm
              · exact le_refl _
              · exact (List.pairwise_cons.1 hsort).1 d2 hm
            show d2.dep ≤ bHi
            omega
          · rw [hsHi] at h
            cases sLo with
            | none => trivial
            | some y => exact h
        | true =>
          have hL : scanRetDepsDirect R origins tstop D2 (d :: rest) kLo sLo =
              scanRetDepsDirect R origins tstop D2 rest (kLo + 1)
                (scanRetTripDirect origins d.seq d.trip tstop d.dep D2
                  (R.tripStopsOf d.trip) sLo) := by
            simp only [scanRetDepsDirect]
            rw [if_neg hd2, if_neg (show ¬ depGt d.dep sLo = false by simp [hgLo]),
              if_neg hcapLo]
          have hR : scanRetDepsDirect R origins tstop D1 (d :: rest) kHi sHi =
              scanRetDepsDirect R origins tstop D1 rest (kHi + 1)
                (scanRetTripDirect origins d.seq d.trip tstop d.dep D1
                  (R.tripStopsOf d.trip) sHi) := by
            simp only [scanRetDepsDirect]
            rw [if_neg hd1, if_neg (show ¬ depGt d.dep sHi = false by simp [hgHi]),
              if_neg hcapHi]
          rw [hL, hR]
          exact ih (List.pairwise_cons.1 hsort).2 (kLo + 1) (kHi + 1)
            (by rw [hlen] at hkLo; omega) (by rw [hlen] at hkHi; omega)
            (scanRetTripDirect_mono _ _ _ _ _ hD _ h)

theorem scanRetDepsTransfer_mono {R : RouterData} (origins : List String)
    (tstop : String) {D2 D1 : Nat} (hD : D2 ≤ D1) :
    ∀ (l : List DepEntry), l.Pairwise (fun a b => b.dep ≤ a.dep) →
    ∀ (kLo kHi : Nat), kLo + l.length ≤ MAX_RETURN_DEPARTURES →
    kHi + l.length ≤ MAX_RETURN_DEPARTURES →
    ∀ {sLo sHi : RetState}, retLe sLo sHi →
    retLe (scanRetDepsTransfer R origins tstop D2 l kLo sLo)
      (scanRetDepsTransfer R origins tstop D1 l kHi sHi) := by
  intro l
  induction l with
  | nil => intro _ kLo kHi _ _ sLo sHi h; exact h
  | cons d rest ih =>
    intro hsort kLo kHi hkLo hkHi sLo sHi h
    have hlen : (d :: rest).length = rest.length + 1 := by simp
    have hcapLo : ¬ MAX_RETURN_DEPARTURES < kLo + 1 := by
      rw [hlen] at hkLo
      omega
    have hcapHi : ¬ MAX_RETURN_DEPARTURES < kHi + 1 := by
      rw [hlen] at hkHi
      omega
    by_cases hd2 : D2 < d.dep
    · have hL : scanRetDepsTransfer R origins tstop D2 (d :: rest) kLo sLo =
          scanRetDepsTransfer R origins tstop D2 rest kLo sLo := by
        simp only [scanRetDepsTransfer]
        rw [if_pos hd2]
      rw [hL]
      by_cases hd1 : D1 < d.dep
      · have hR : scanRetDepsTransfer R origins tstop D1 (d :: rest) kHi sHi =
            scanRetDepsTransfer R origins tstop D1 rest kHi sHi := by
          simp only [scanRetDepsTransfer]
          rw [if_pos hd1]
        rw [hR]
        exact ih (List.pairwise_cons.1 hsort).2 kLo kHi (by rw [hlen] at hkLo; omega)
          (by rw [hlen] at hkHi; omega) h
      · cases hgHi : depGt d.dep sHi with
        | false =>
          have hR : scanRetDepsTransfer R origins tstop D1 (d :: rest) kHi sHi
              = sHi := by
            simp only [scanRetDepsTransfer]
            rw [if_neg hd1, if_pos hgHi]
          rw [hR]
          obtain ⟨bHi, legsHi, hsHi, hb⟩ := depGt_false hgHi
          rw [hsHi]
          refine retLe_of_ub (scanRetDepsTransfer_ok ?_ kLo sLo ?_)
          · intro d2 hd2m hdep m hm hmseq c hc hct e he hcseq hor harr
            have hle : d2.dep ≤ d.dep := (List.pairwise_cons.1 hsort).1 d2 hd2m
            show d2.dep ≤ bHi
            omega
          · rw [hsHi] at h
            cases sLo with
            | none => trivial
            | some y => exact h
        | true =>
          have hR : scanRetDepsTransfer R origins tstop D1 (d :: rest) kHi sHi =
              scanRetDepsTransfer R origins tstop D1 rest (kHi + 1)
                (scanRetIntermediates R origins d.trip tstop d.dep d.seq D1
                  (R.tripStopsOf d.trip) 0 sHi) := by
            simp only [scanRetDepsTransfer]
            rw [if_neg hd1, if_neg (show ¬ depGt d.dep sHi = false by simp [hgHi]),
              if_neg hcapHi]
          rw [hR]
          refine ih (List.pairwise_cons.1 hsort).2 kLo (kHi + 1)
            (by rw [hlen] at hkLo; omega) (by rw [hlen] at hkHi; omega) ?_
          exact retLe_trans h (scanRetIntermediates_ge _ _ _ _ _ _ _ _ _ sHi)
    · have hd1 : ¬ D1 < d.dep := by omega
      cases hgLo : depGt d.dep sLo with
      | false =>
        have hgHi := depGt_mono_false h hgLo
        have hL : scanRetDepsTransfer R origins tstop D2 (d :: rest) kLo sLo
            = sLo := by
          simp only [scanRetDepsTransfer]
          rw [if_neg hd2, if_pos hgLo]
        have hR : scanRetDepsTransfer R origins tstop D1 (d :: rest) kHi sHi
            = sHi := by
          simp only [scanRetDepsTransfer]
          rw [if_neg hd1, if_pos hgHi]
        rw [hL, hR]
        exact h
      | true =>
        cases hgHi : depGt d.dep sHi with
        | false =>
          obtain ⟨bHi, legsHi, hsHi, hb⟩ := depGt_false hgHi
          have hR : scanRetDepsTransfer R origins tstop D1 (d :: rest) kHi sHi
              = sHi := by
            simp only [scanRetDepsTransfer]
            rw [if_neg hd1, if_pos hgHi]
          rw [hR, hsHi]
          refine retLe_of_ub (scanRetDepsTransfer_ok ?_ kLo sLo ?_)
          · intro d2 hd2m hdep m hm hmseq c hc hct e he hcseq hor harr
            have hle : d2.dep ≤ d.dep := by
              rcases List.mem_cons.1 hd2m with rfl | hmm
              · exact le_refl _
              · exact (List.pairwise_cons.1 hsort).1 d2 hmm
            show d2.dep ≤ bHi
            omega
          · rw [hsHi] at h
            cases sLo with
            | none => trivial
            | some y => exact h
        | true =>
          have hL : scanRetDepsTransfer R origins tstop D2 (d :: rest) kLo sLo =
              scanRetDepsTransfer R origins tstop D2 rest (kLo + 1)
                (scanRetIntermediates R origins d.trip tstop d.dep d.seq D2
                  (R.tripStopsOf d.trip) 0 sLo) := by
            simp only [scanRetDepsTransfer]
            rw [if_neg hd2, if_neg (show ¬ depGt d.dep sLo = false by simp [hgLo]),
              if_neg hcapLo]
          have hR : scanRetDepsTransfer R origins tstop D1 (d :: rest) kHi sHi =
              scanRetDepsTransfer R origins tstop D1 rest (kHi + 1)
                (scanRetIntermediates R origins d.trip tstop d.dep d.seq D1
                  (R.tripStopsOf d.trip) 0 sHi) := by
            simp only [scanRetDepsTransfer]
            rw [if_neg hd1, if_neg (show ¬ depGt d.dep sHi = false by simp [hgHi]),
              if_neg hcapHi]
          rw [hL, hR]
          exact ih (List.pairwise_cons.1 hsort).2 (kLo + 1) (kHi + 1)
            (by rw [hlen] at hkLo; omega) (by rw [hlen] at hkHi; omega)
            (scanRetIntermediates_mono _ _ _ _ _ hD _ 0 h)

theorem retPhase1_mono {R : RouterData} (hds : DepsSorted R)
    {origins : List String} {D2 D1 : Nat} (hD : D2 ≤ D1) :
    ∀ (ts : List String), (∀ t ∈ ts, (R.depsOf t).length ≤ MAX_RETURN_DEPARTURES) →
    ∀ {sLo sHi : RetState}, retLe sLo sHi →
    retLe (retPhase1 R ts origins D2 sLo) (retPhase1 R ts origins D1 sHi) := by
  intro ts
  induction ts with
  | nil => intro _ sLo sHi h; exact h
  | cons t ts2 ih =>
    intro hcap sLo sHi h
    simp only [retPhase1, List.foldl_cons]
    refine ih (fun t2 ht2 => hcap t2 (List.mem_cons_of_mem t ht2)) ?_
    refine scanRetDepsDirect_mono origins t hD _ ?_ 0 0 ?_ ?_ h
    · exact List.pairwise_reverse.mpr (depsOf_sorted hds t)
    · simpa using hcap t (List.mem_cons_self t ts2)
    · simpa using hcap t (List.mem_cons_self t ts2)

theorem retPhase2_mono {R : RouterData} (hds : DepsSorted R)
    {origins : List String} {D2 D1 : Nat} (hD : D2 ≤ D1) :
    ∀ (ts : List String), (∀ t ∈ ts, (R.depsOf t).length ≤ MAX_RETURN_DEPARTURES) →
    ∀ {sLo sHi : RetState}, retLe sLo sHi →
    retLe (retPhase2 R ts origins D2 sLo) (retPhase2 R ts origins D1 sHi) := by
  intro ts
  induction ts with
  | nil => intro _ sLo sHi h; exact h
  | cons t ts2 ih =>
    intro hcap sLo sHi h
    simp only [retPhase2, List.foldl_cons]
    refine ih (fun t2 ht2 => hcap t2 (List.mem_cons_of_mem t ht2)) ?_
    refine scanRetDepsTransfer_mono origins t hD _ ?_ 0 0 ?_ ?_ h
    · exact List.pairwise_reverse.mpr (depsOf_sorted hds t)
    · simpa using hcap t (List.mem_cons_self t ts2)
    · simpa using hcap t (List.mem_cons_self t ts2)

/-- The trail departure time of an itinerary: `dep_secs` of its first leg. -/
def firstDep (legs : List RawLeg) : Option Nat := legs.head?.map (·.depSecs)

theorem retState_firstDep (R : RouterData) (trailStops origins : List String)
    (D : Nat) :
    retStateOK (fun y : Nat × List RawLeg => firstDep y.2 = some y.1)
      (retPhase2 R trailStops origins D (retPhase1 R trailStops origins D none)) := by
  refine retPhase2_ok ?_ _ (retPhase1_ok ?_ none trivial)
  · intro t ht d hd hdep m hm hmseq c hc hct e he hcseq hor harr
    simp [firstDep]
  · intro t ht d hd hdep e he hseq hor harr
    simp [firstDep]

/-- C4 (amended): `find_return` is monotone in the deadline whenever the
`_MAX_RETURN_DEPARTURES` cap cannot bind — i.e. every queried trail stop
has at most `_MAX_RETURN_DEPARTURES` departures — and departure lists are
sorted.  Then if the router returns an itinerary under deadline `D2`, it
also returns one under any `D1 ≥ D2`, departing the trail no earlier.
(Without the cap hypothesis the claim is false: see the counterexample.) -/
theorem C4_return_monotone_amended {R : RouterData} {trailStops origins : List String}
    {D1 D2 : Nat} {legs2 : List RawLeg}
    (hds : DepsSorted R)
    (hcap : ∀ t ∈ trailStops, (R.depsOf t).length ≤ MAX_RETURN_DEPARTURES)
    (hD : D2 ≤ D1)
    (h2 : find_return R trailStops origins D2 = some legs2) :
    ∃ legs1 d1 d2, find_return R trailStops origins D1 = some legs1 ∧
      firstDep legs1 = some d1 ∧ firstDep legs2 = some d2 ∧ d2 ≤ d1 := by
  have hmono : retLe
      (retPhase2 R trailStops origins D2 (retPhase1 R trailStops origins D2 none))
      (retPhase2 R trailStops origins D1 (retPhase1 R trailStops origins D1 none)) :=
    retPhase2_mono hds hD trailStops hcap
      (retPhase1_mono hds hD trailStops hcap (retLe_refl none))
  have hP2 := retState_firstDep R trailStops origins D2
  have hP1 := retState_firstDep R trailStops origins D1
  unfold find_return at h2 ⊢
  cases hst2 : retPhase2 R trailStops origins D2
      (retPhase1 R trailStops origins D2 none) with
  | none =>
    rw [hst2] at h2
    simp at h2
  | some x2 =>
    rw [hst2] at h2 hmono hP2
    cases hst1 : retPhase2 R trailStops origins D1
        (retPhase1 R trailStops origins D1 none) with
    | none =>
      rw [hst1] at hmono
      exact hmono.elim
    | some x1 =>
      rw [hst1] at hmono hP1
      simp only [Option.map_some', Option.some.injEq] at h2
      refine ⟨x1.2, x1.1, x2.1, ?_, hP1, ?_, hmono⟩
      · simp
      · rw [← h2]
        exact hP2

/-- A schedule where the `_MAX_RETURN_DEPARTURES` cap binds: trail stop `T`
has the useful trip `g` (dep 50, reaching origin `O` at 60) plus ten
useless late trips `u0`–`u9` (deps 100–109, reaching only `X`). -/
def exStoreCap : RouterData :=
  { stop_departures :=
      [("T", [⟨50, "g", 0⟩, ⟨100, "u0", 0⟩, ⟨101, "u1", 0⟩, ⟨102, "u2", 0⟩,
              ⟨103, "u3", 0⟩, ⟨104, "u4", 0⟩, ⟨105, "u5", 0⟩, ⟨106, "u6", 0⟩,
              ⟨107, "u7", 0⟩, ⟨108, "u8", 0⟩, ⟨109, "u9", 0⟩]),
       ("O", [⟨60, "g", 1⟩]),
       ("X", [⟨1000, "u0", 1⟩, ⟨1001, "u1", 1⟩, ⟨1002, "u2", 1⟩, ⟨1003, "u3", 1⟩,
              ⟨1004, "u4", 1⟩, ⟨1005, "u5", 1⟩, ⟨1006, "u6", 1⟩, ⟨1007, "u7", 1⟩,
              ⟨1008, "u8", 1⟩, ⟨1009, "u9", 1⟩])],
    trip_stop_sequence :=
      [("g", [⟨"T", 50, 50, 0⟩, ⟨"O", 60, 60, 1⟩]),
       ("u0", [⟨"T", 100, 100, 0⟩, ⟨"X", 1000, 1000, 1⟩]),
       ("u1", [⟨"T", 101, 101, 0⟩, ⟨"X", 1001, 1001, 1⟩]),
       ("u2", [⟨"T", 102, 102, 0⟩, ⟨"X", 1002, 1002, 1⟩]),
       ("u3", [⟨"T", 103, 103, 0⟩, ⟨"X", 1003, 1003, 1⟩]),
       ("u4", [⟨"T", 104, 104, 0⟩, ⟨"X", 1004, 1004, 1⟩]),
       ("u5", [⟨"T", 105, 105, 0⟩, ⟨"X", 1005, 1005, 1⟩]),
       ("u6", [⟨"T", 106, 106, 0⟩, ⟨"X", 1006, 1006, 1⟩]),
       ("u7", [⟨"T", 107, 107, 0⟩, ⟨"X", 1007, 1007, 1⟩]),
       ("u8", [⟨"T", 108, 108, 0⟩, ⟨"X", 1008, 1008, 1⟩]),
       ("u9", [⟨"T", 109, 109, 0⟩, ⟨"X", 1009, 1009, 1⟩])] }

/-- C4 counterexample: on `exStoreCap` a deadline of 60 yields the trip `g`
itinerary (the ten later departures are skipped as past the deadline), but
the larger deadline 200 yields `None` — the ten useless departures consume
the `_MAX_RETURN_DEPARTURES` cap before `g` is examined.  Raising the
deadline loses the itinerary, refuting the claimed monotonicity. -/
theorem C4_counterexample :
    find_return exStoreCap ["T"] ["O"] 60 = some [⟨"g", "T", 50, "O", 60⟩] ∧
    find_return exStoreCap ["T"] ["O"] 200 = none :=
  ⟨by with_unfolding_all rfl, by with_unfolding_all rfl⟩

/-- Witness for the amended C4 on `exStore` (two departures at the trail
stop, so the cap is dead). -/
theorem C4_witness :
    ∃ legs1 d1 d2, find_return exStore ["T"] ["A"] 61200 = some legs1 ∧
      firstDep legs1 = some d1 ∧
      firstDep [(⟨"r1", "T", 50400, "A", 52200⟩ : RawLeg)] = some d2 ∧ d2 ≤ d1 :=
  C4_return_monotone_amended (by decide) (by with_unfolding_all decide) (by decide)
    (by with_unfolding_all rfl :
      find_return exStore ["T"] ["A"] 52200 =
        some [⟨"r1", "T", 50400, "A", 52200⟩])

/-! ### C7: the two ScheduleStore backends (src/ingest/gtfs.py,
src/query/transit_router.py)

A GTFS feed is modelled by the CSV rows the two loading paths read.  Times
are carried as seconds since midnight: `_time_to_seconds` (pandas path)
and `_gtfs_time_to_seconds` (SQLite path) are the identical
`h*3600+m*60+s` computation, so the parse is shared.  `CalRow.day` is the
flag of the queried weekday (both paths read the same day-name column).
Python `set`s of service ids are modelled as lists used only through
membership. -/

structure CalRow where
  service_id : String
  start_date : Nat
  end_date : Nat
  day : Bool
deriving DecidableEq, Repr

structure CdRow where
  service_id : String
  date : Nat
  exc : Nat
deriving DecidableEq, Repr

structure TripRow where
  trip_id : String
  route_id : String
  service_id : String
deriving DecidableEq, Repr

structure StRow where
  trip_id : String
  stop_id : String
  seq : Nat
  arr : Nat
  dep : Nat
deriving DecidableEq, Repr

structure Feed where
  calendar : List CalRow
  calendar_dates : List CdRow
  trips : List TripRow
  stop_times : List StRow
deriving DecidableEq, Repr

/-- Services active by `calendar.txt` alone: rows whose date range covers
the query date and whose weekday flag is 1 (identical in both paths). -/
def baseServices (cal : List CalRow) (d : Nat) : List String :=
  (cal.filter (fun r => decide (r.start_date ≤ d) && decide (d ≤ r.end_date)
    && r.day)).map (·.service_id)

/-- `calendar_dates` additions (`exception_type == 1`) on the date. -/
def cdAdds (cds : List CdRow) (d : Nat) : List String :=
  (cds.filter (fun r => r.date == d && r.exc == 1)).map (·.service_id)

/-- `calendar_dates` removals (`exception_type == 2`) on the date. -/
def cdRems (cds : List CdRow) (d : Nat) : List String :=
  (cds.filter (fun r => r.date == d && r.exc == 2)).map (·.service_id)

/-- `get_active_service_ids` (pandas path): the bulk-set computation
`active.update(additions); active -= set(removals)`, i.e.
`(base ∪ additions) \ removals`. -/
def get_active_service_ids (f : Feed) (d : Nat) : List String :=
  (baseServices f.calendar d ++ cdAdds f.calendar_dates d).filter
    (fun s => !((cdRems f.calendar_dates d).contains s))

/-- One `calendar_dates.txt` row of `_get_active_service_ids_from_csv`:
skip other dates, `add` on exception type 1, `discard` on type 2. -/
def cdStep (d : Nat) (acc : List String) (r : CdRow) : List String :=
  if r.date ≠ d then acc
  else if r.exc = 1 then acc ++ [r.service_id]
  else if r.exc = 2 then acc.filter (fun x => !(x == r.service_id))
  else acc

/-- `_get_active_service_ids_from_csv` (SQLite path): the same base set,
then the `calendar_dates` rows processed sequentially in file order. -/
def get_active_service_ids_from_csv (f : Feed) (d : Nat) : List String :=
  f.calendar_dates.foldl (cdStep d) (baseServices f.calendar d)

/-- Trip ids whose service is active (both paths compute this set from
`trips` rows filtered by service membership, preserving row order). -/
def activeTripIds (f : Feed) (act : List String) : List String :=
  (f.trips.filter (fun t => act.contains t.service_id)).map (·.trip_id)

/-- The `stop_times` rows kept for routing: those of active trips, in file
order (pandas keeps the mask order; the SQLite build streams in file
order). -/
def filteredStopTimes (f : Feed) (act : List String) : List StRow :=
  f.stop_times.filter (fun r => (activeTripIds f act).contains r.trip_id)

/-- The shared routing index built from filtered `stop_times` rows.
In-memory path: dict-of-lists built by appending rows in order, then a
stable `list.sort` per key — equivalently, per-key `filter` (which keeps
row order) followed by the stable sort.  SQLite path: the rows are
`INSERT`ed in order (no `OR IGNORE` on `stop_times`) and the proxies
query `ORDER BY departure_secs` / `ORDER BY stop_sequence`; ties are
returned in rowid (= insertion) order, i.e. the same stable sort. -/
def buildIndex (st : List StRow) : RouterData :=
  { stop_departures :=
      ((st.map (·.stop_id)).eraseDups).map (fun s =>
        (s, pySortBy (fun q p => decide (q.dep < p.dep))
          ((st.filter (fun r => r.stop_id == s)).map
            (fun r => ⟨r.dep, r.trip_id, r.seq⟩)))),
    trip_stop_sequence :=
      ((st.map (·.trip_id)).eraseDups).map (fun t =>
        (t, pySortBy (fun q p => decide (q.seq < p.seq))
          ((st.filter (fun r => r.trip_id == t)).map
            (fun r => ⟨r.stop_id, r.arr, r.dep, r.seq⟩)))) }

/-- `TransitRouter(load_feed_for_date(gtfs, date), date)`: the in-memory
routing index. -/
def memRouter (f : Feed) (d : Nat) : RouterData :=
  buildIndex (filteredStopTimes f (get_active_service_ids f d))

/-- `TransitRouterDB(build_transit_db(gtfs, date), date)`: the
SQLite-backed routing index. -/
def dbRouter (f : Feed) (d : Nat) : RouterData :=
  buildIndex (filteredStopTimes f (get_active_service_ids_from_csv f d))

theorem foldl_cdStep_absent (d : Nat) (s : String) :
    ∀ (cds : List CdRow), (∀ r ∈ cds, r.date = d → r.service_id ≠ s) →
    ∀ acc : List String, (s ∈ cds.foldl (cdStep d) acc ↔ s ∈ acc) := by
  intro cds
  induction cds with
  | nil => intro _ acc; exact Iff.rfl
  | cons r rest ih =>
    intro habs acc
    rw [List.foldl_cons, ih (fun r2 hr2 => habs r2 (List.mem_cons_of_mem r hr2))]
    unfold cdStep
    split_ifs with h1 h2 h3
    · exact Iff.rfl
    · have hne : ¬ s = r.service_id := by
        intro hcon
        exact habs r (List.mem_cons_self r rest) (by omega) (hcon ▸ rfl)
      simp [hne]
    · have hne : ¬ s = r.service_id := by
        intro hcon
        exact habs r (List.mem_cons_self r rest) (by omega) (hcon ▸ rfl)
      simp [List.mem_filter, hne]
    · exact Iff.rfl

theorem foldl_cdStep_mem (d : Nat) (s : String) :
    ∀ (cds : List CdRow),
    (cds.filter (fun r => r.date == d)).Pairwise
      (fun a b => a.service_id ≠ b.service_id) →
    ∀ acc : List String,
    (s ∈ cds.foldl (cdStep d) acc ↔
      ((s ∈ acc ∨ s ∈ cdAdds cds d) ∧ s ∉ cdRems cds d)) := by
  intro cds
  induction cds with
  | nil =>
    intro _ acc
    simp [cdAdds, cdRems]
  | cons r rest ih =>
    intro huniq acc
    rw [List.foldl_cons]
    by_cases hdate : r.date = d
    · have hfil : ((r :: rest).filter (fun r => r.date == d)) =
          r :: rest.filter (fun r => r.date == d) := by
        simp [List.filter_cons, hdate]
      rw [hfil] at huniq
      have hrest := (List.pairwise_cons.1 huniq).2
      have hhead := (List.pairwise_cons.1 huniq).1
      by_cases hexc1 : r.exc = 1
      · have hstep : cdStep d acc r = acc ++ [r.service_id] := by
          unfold cdStep
          rw [if_neg (by omega), if_pos hexc1]
        have hadds : cdAdds (r :: rest) d = r.service_id :: cdAdds rest d := by
          simp [cdAdds, List.filter_cons, hdate, hexc1]
        have hrems : cdRems (r :: rest) d = cdRems rest d := by
          simp [cdRems, List.filter_cons, hdate, hexc1]
        rw [hstep, ih hrest, hadds, hrems]
        simp only [List.mem_append, List.mem_singleton, List.mem_cons]
        tauto
      · by_cases hexc2 : r.exc = 2
        · have hstep : cdStep d acc r =
              acc.filter (fun x => !(x == r.service_id)) := by
            unfold cdStep
            rw [if_neg (by omega), if_neg hexc1, if_pos hexc2]
          have hadds : cdAdds (r :: rest) d = cdAdds rest d := by
            simp [cdAdds, List.filter_cons, hdate, hexc1, hexc2]
          have hrems : cdRems (r :: rest) d = r.service_id :: cdRems rest d := by
            simp [cdRems, List.filter_cons, hdate, hexc2]
          rw [hstep, ih hrest, hadds, hrems]
          by_cases hs : s = r.service_id
          · have hnoadd : s ∉ cdAdds rest d := by
              intro hmem
              simp only [cdAdds, List.mem_map, List.mem_filter,
                Bool.and_eq_true, beq_iff_eq] at hmem
              obtain ⟨r2, ⟨hr2, hd2, he2⟩, hsid⟩ := hmem
              exact hhead r2 (List.mem_filter.2 ⟨hr2, by simp [hd2]⟩)
                ((hsid.trans hs).symm)
            have hmemf : (s ∈ acc.filter (fun x => !(x == r.service_id))) ↔ False := by
              simp [List.mem_filter, hs]
            have hmemc : (s ∈ r.service_id :: cdRems rest d) ↔ True := by
              simp [hs]
            rw [hmemf, hmemc]
            simp [hnoadd]
          · have hmemf : (s ∈ acc.filter (fun x => !(x == r.service_id))) ↔ s ∈ acc := by
              simp [List.mem_filter, hs]
            have hmemc : (s ∈ r.service_id :: cdRems rest d) ↔ s ∈ cdRems rest d := by
              simp [List.mem_cons, hs]
            rw [hmemf, hmemc]
        · have hstep : cdStep d acc r = acc := by
            unfold cdStep
            rw [if_neg (by omega), if_neg hexc1, if_neg hexc2]
          have hadds : cdAdds (r :: rest) d = cdAdds rest d := by
            simp [cdAdds, List.filter_cons, hexc1]
          have hrems : cdRems (r :: rest) d = cdRems rest d := by
            simp [cdRems, List.filter_cons, hexc2]
          rw [hstep, ih hrest, hadds, hrems]
    · have hstep : cdStep d acc r = acc := by
        unfold cdStep
        rw [if_pos hdate]
      have hfil : ((r :: rest).filter (fun r => r.date == d)) =
          rest.filter (fun r => r.date == d) := by
        simp [List.filter_cons, hdate]
      rw [hfil] at huniq
      have hadds : cdAdds (r :: rest) d = cdAdds rest d := by
        simp [cdAdds, List.filter_cons, hdate]
      have hrems : cdRems (r :: rest) d = cdRems rest d := by
        simp [cdRems, List.filter_cons, hdate]
      rw [hstep, ih huniq, hadds, hrems]

theorem active_mem_iff (f : Feed) (d : Nat)
    (huniq : (f.calendar_dates.filter (fun r => r.date == d)).Pairwise
      (fun a b => a.service_id ≠ b.service_id)) (s : String) :
    s ∈ get_active_service_ids_from_csv f d ↔ s ∈ get_active_service_ids f d := by
  unfold get_active_service_ids_from_csv get_active_service_ids
  rw [foldl_cdStep_mem d s f.calendar_dates huniq (baseServices f.calendar d)]
  simp [List.mem_filter, List.mem_append]
  tauto

theorem contains_congr {l1 l2 : List String} (h : ∀ x, x ∈ l1 ↔ x ∈ l2) :
    ∀ x, l1.contains x = l2.contains x := by
  intro x
  cases h1 : l1.contains x with
  | false =>
    cases h2 : l2.contains x with
    | false => rfl
    | true =>
      have hm1 : x ∈ l1 := (h x).2 (by simpa using h2)
      have : l1.contains x = true := by simpa using hm1
      rw [h1] at this
      cases this
  | true =>
    cases h2 : l2.contains x with
    | false =>
      have hm2 : x ∈ l2 := (h x).1 (by simpa using h1)
      have : l2.contains x = true := by simpa using hm2
      rw [h2] at this
      cases this
    | true => rfl

/-- C7: with each `(service_id, date)` appearing at most once in
`calendar_dates` (the GTFS primary-key constraint on that file), the
in-memory and the SQLite-backed backends build the same routing index,
and hence `find_outbound` and `find_return` return equal results on
every query.  Without that constraint the two active-service
computations (bulk set algebra vs sequential add/discard) can diverge. -/
theorem C7_backend_equiv (f : Feed) (d : Nat)
    (huniq : (f.calendar_dates.filter (fun r => r.date == d)).Pairwise
      (fun a b => a.service_id ≠ b.service_id)) :
    memRouter f d = dbRouter f d ∧
    (∀ (originStops dest : List String) (E : Nat),
      find_outbound (memRouter f d) originStops dest E =
        find_outbound (dbRouter f d) originStops dest E) ∧
    (∀ (trailStops origins : List String) (D : Nat),
      find_return (memRouter f d) trailStops origins D =
        find_return (dbRouter f d) trailStops origins D) := by
  have hact : ∀ x, (get_active_service_ids_from_csv f d).contains x =
      (get_active_service_ids f d).contains x :=
    contains_congr (active_mem_iff f d huniq)
  have hst : filteredStopTimes f (get_active_service_ids f d) =
      filteredStopTimes f (get_active_service_ids_from_csv f d) := by
    unfold filteredStopTimes activeTripIds
    have htrips : f.trips.filter
        (fun t => (get_active_service_ids f d).contains t.service_id) =
        f.trips.filter
          (fun t => (get_active_service_ids_from_csv f d).contains t.service_id) := by
      refine List.filter_congr ?_
      intro t _
      exact (hact t.service_id).symm
    rw [htrips]
  have heq : memRouter f d = dbRouter f d := by
    unfold memRouter dbRouter
    rw [hst]
  refine ⟨heq, fun originStops dest E => by rw [heq], fun trailStops origins D => by
    rw [heq]⟩

/-- A feed whose active trips reproduce `exStore`: weekly service `wk`
runs trips `g1` and `r1`; service `hol` is removed by a `calendar_dates`
exception on another date. -/
def exFeed : Feed :=
  { calendar := [⟨"wk", 20250101, 20251231, true⟩],
    calendar_dates := [⟨"wk", 20250105, 2⟩],
    trips := [⟨"g1", "rt", "wk"⟩, ⟨"r1", "rt", "wk"⟩],
    stop_times :=
      [⟨"g1", "A", 0, 25200, 25200⟩, ⟨"g1", "T", 1, 27000, 27000⟩,
       ⟨"r1", "T", 0, 50400, 50400⟩, ⟨"r1", "A", 1, 52200, 52200⟩] }

/-- Witness for C7 on a concrete feed and date. -/
theorem C7_witness :
    memRouter exFeed 20250601 = dbRouter exFeed 20250601 ∧
    (∀ (originStops dest : List String) (E : Nat),
      find_outbound (memRouter exFeed 20250601) originStops dest E =
        find_outbound (dbRouter exFeed 20250601) originStops dest E) ∧
    (∀ (trailStops origins : List String) (D : Nat),
      find_return (memRouter exFeed 20250601) trailStops origins D =
        find_return (dbRouter exFeed 20250601) trailStops origins D) :=
  C7_backend_equiv exFeed 20250601 (by with_unfolding_all decide)

end PlanHikes
